import Mathlib

/-!
# Verification of the kaheljs DI container and module layer

This file is a shallow embedding, in Lean 4, of the dependency-injection
container (`di-container.ts`), the module-definition helper
(`define-module.ts`) and the app-bootstrap function (`create-app.ts`) of the
kaheljs repository, together with theorems settling the frozen claims about
them.

Modelling conventions:
* JS tokens (`string | symbol | Constructor`) become the inductive `Token`;
  a constructor token carries the index of its class in a class table.
* JS object identity is modelled by tagging freshly allocated objects with a
  counter (`World.nextObj`); a factory/constructor body is one of a small
  syntax of behaviours (`FSpec`): allocate a fresh object, return a constant,
  or throw.
* The mutable `Map`s of a container become association lists; the mutable
  container graph becomes an indexed list of containers in a `World`.
* The unbounded recursion of `DIContainer.resolve` becomes a fuel-indexed
  total function `resolveF`; theorems quantify over sufficient fuel, which
  also expresses termination ("throws rather than looping forever").
* `World.calls` is a ghost log (never read by the semantics) recording, for
  each successful factory/constructor invocation, the provider token and the
  produced instance; it is used to state "the factory is invoked exactly
  once" claims.
-/

namespace Kahel

/-- Runtime values.  `obj n` is an identity-carrying object allocated as the
`n`-th fresh object; distinct allocations give distinct values, modelling JS
reference identity. -/
inductive Value where
  | obj (n : Nat)
  | str (s : String)
  | num (n : Int)
  | unit
deriving DecidableEq, Repr

/-- What a factory function or class constructor body does when invoked
(the client-code parameter of the container): allocate and return a fresh
object, return a constant value, or throw an error with a message. -/
inductive FSpec where
  | mkFresh
  | const (v : Value)
  | fail (msg : String)
deriving DecidableEq, Repr

/-- `Token = string | symbol | Constructor` from `di-container.ts`.
A symbol carries an identity and its `description` (empty string models an
absent description); a constructor token carries the index of its class in
the world's class table and the class's `name`. -/
inductive Token where
  | str (s : String)
  | sym (id : Nat) (descr : String)
  | ctor (cid : Nat) (name : String)
deriving DecidableEq, Repr

/-- `singleton | transient` lifetimes. -/
inductive Lifetime where
  | singleton
  | transient
deriving DecidableEq, Repr

/-- A class (the target of a `ClassProvider`): its static `inject` property
(`none` when absent) and what `new C(...)` does. -/
structure ClassInfo where
  inject : Option (List Token)
  body : FSpec
deriving DecidableEq, Repr

/-- `Provider = ValueProvider | ClassProvider | FactoryProvider`.
Each carries its `provide` token as in the source.  A factory provider also
carries the arity of the underlying JS function (`useFactory.length`), used
by the dependency-count check. -/
inductive Prov where
  | value (provide : Token) (useValue : Value)
  | cls (provide : Token) (useClass : Nat) (deps : Option (List Token))
      (lifetime : Option Lifetime)
  | factory (provide : Token) (body : FSpec) (arity : Nat)
      (deps : Option (List Token)) (lifetime : Option Lifetime)
deriving DecidableEq, Repr

/-- The provider's `provide` token. -/
def Prov.provide : Prov → Token
  | .value t _ => t
  | .cls t _ _ _ => t
  | .factory t _ _ _ _ => t

/-- The provider's optional `lifetime` field. -/
def Prov.lifetimeOpt : Prov → Option Lifetime
  | .value _ _ => none
  | .cls _ _ _ lt => lt
  | .factory _ _ _ _ lt => lt

/-- `provider.lifetime ?? "singleton"`. -/
def Prov.effLifetime (p : Prov) : Lifetime := p.lifetimeOpt.getD .singleton

/-- `"useValue" in provider`. -/
def Prov.isValue : Prov → Bool
  | .value _ _ => true
  | _ => false

/-- `isConstructorToken`. -/
def isCtorToken : Token → Bool
  | .ctor _ _ => true
  | _ => false

/-- Association-list lookup, modelling `Map.get` (with `Map.has` being
`isSome`). -/
def alGet? {α : Type} : List (Token × α) → Token → Option α
  | [], _ => none
  | (k', v) :: rest, k => if k' = k then some v else alGet? rest k

/-- Association-list update, modelling `Map.set`: replaces in place if the
key is present, appends otherwise (JS `Map` preserves insertion order). -/
def alSet {α : Type} : List (Token × α) → Token → α → List (Token × α)
  | [], k, v => [(k, v)]
  | (k', v') :: rest, k, v =>
    if k' = k then (k, v) :: rest else (k', v') :: alSet rest k v

/-- Association-list deletion, modelling `Map.delete`. -/
def alDel {α : Type} : List (Token × α) → Token → List (Token × α)
  | [], _ => []
  | (k', v') :: rest, k =>
    if k' = k then alDel rest k else (k', v') :: alDel rest k

/-- One DI container: provider map, singleton-instance map, optional parent
(an index into the world's container list). -/
structure Container where
  providers : List (Token × Prov)
  instances : List (Token × Value)
  parent : Option Nat
deriving DecidableEq, Repr

/-- The mutable state: all containers (indexed by creation order), the class
table, the fresh-object counter, and the ghost invocation log. -/
structure World where
  containers : List Container
  classes : List ClassInfo
  nextObj : Nat
  calls : List (Token × Value)
deriving DecidableEq, Repr

/-- The container at index `i` (an empty parentless container when out of
range; unreachable through the API). -/
def containerAt (w : World) (i : Nat) : Container :=
  w.containers.getD i ⟨[], [], none⟩

/-- Replace the container at index `i`. -/
def setContainer (w : World) (i : Nat) (c : Container) : World :=
  { w with containers := w.containers.set i c }

def providersAt (w : World) (i : Nat) : List (Token × Prov) :=
  (containerAt w i).providers

def instancesAt (w : World) (i : Nat) : List (Token × Value) :=
  (containerAt w i).instances

def parentAt (w : World) (i : Nat) : Option Nat :=
  (containerAt w i).parent

/-- The singleton-instance entry for token `t` in container `i`. -/
def instAt (w : World) (i : Nat) (t : Token) : Option Value :=
  alGet? (instancesAt w i) t

/-- Number of logged invocations of the provider registered for `t`. -/
def callsCount (w : World) (t : Token) : Nat :=
  (w.calls.filter (fun e => e.1 = t)).length

/-- `getTokenName`: human-readable token name used in error messages. -/
def getTokenName : Token → String
  | .str s => s
  | .sym _ d => if d = "" then "Symbol" else d
  | .ctor _ n => if n = "" then "AnonymousClass" else n

/-- The missing-provider error message built in `resolve` (verbatim),
from the token name and the names of the tokens currently being resolved. -/
def mkMissingMsg (tokenName : String) (resolvingNames : List String) : String :=
  "[DI Container] No provider found for \"" ++ tokenName ++ "\".\n" ++
  (if resolvingNames.length > 0 then
    "Dependency chain: " ++ String.intercalate " -> " resolvingNames ++
      " -> " ++ tokenName ++ "\n"
  else "") ++
  "Make sure you've added it to your module's providers array:\n" ++
  "  providers: [" ++ tokenName ++ ".provider]"

/-- The circular-dependency error message built in `resolve` (verbatim). -/
def mkCircularMsg (resolvingNames : List String) (tokenName : String) : String :=
  "[DI Container] Circular dependency detected!\n" ++
  "Dependency chain: " ++ String.intercalate " -> " resolvingNames ++
    " -> " ++ tokenName ++ "\n\n" ++
  "This means these services depend on each other in a circle:\n" ++
  String.intercalate "\n"
    (resolvingNames.enum.map (fun e => "  " ++ toString (e.1 + 1) ++ ". " ++ e.2)) ++
  "\n" ++
  "  " ++ toString (resolvingNames.length + 1) ++ ". " ++ tokenName ++
    " (tries to depend on step 1)\n\n" ++
  "To fix this, consider:\n" ++
  "  - Using lazy injection (getter function)\n" ++
  "  - Extracting shared logic to a separate service\n" ++
  "  - Restructuring your dependencies"

/-- The failed-to-instantiate (class provider) error message (verbatim). -/
def mkClassFailMsg (tokenName : String) (err : String) (depNames : List String) : String :=
  "[DI Container] Failed to instantiate \"" ++ tokenName ++ "\".\n" ++
  "Error: " ++ err ++ "\n" ++
  "Dependencies: [" ++ String.intercalate ", " depNames ++ "]"

/-- The failed-to-create (factory provider) error message (verbatim). -/
def mkFactoryFailMsg (tokenName : String) (err : String) (depNames : List String) : String :=
  "[DI Container] Failed to create \"" ++ tokenName ++ "\" from factory.\n" ++
  "Error: " ++ err ++ "\n" ++
  "Dependencies: [" ++ String.intercalate ", " depNames ++ "]"

/-- The dependency-count-mismatch error message for factory providers. -/
def mkMismatchMsg (tokenName : String) (expected provided : Nat)
    (depNames : List String) : String :=
  "[DI Container] Dependency count mismatch for \"" ++ tokenName ++ "\".\n" ++
  "Factory function expects " ++ toString expected ++
    " parameter(s), but " ++ toString provided ++
    " dependencies were provided.\n" ++
  "Provided dependencies: [" ++ String.intercalate ", " depNames ++ "]\n\n" ++
  "Make sure your deps array matches your factory function parameters:\n" ++
  "  defineInjectable(\n" ++
  "    (dep1, dep2) => (\x7b ... \x7d),\n" ++
  "    [service1, service2]  // Must match parameter count\n" ++
  "  )"

/-- Marker message returned when the model's fuel runs out; never equal to a
message the source can produce. -/
def fuelOutMsg : String := "[model] fuel exhausted"

/-- `register`: store the provider under its `provide` token; value providers
have their instance cached immediately, other providers drop any stale
instance (the debug duplicate-registration warning has no state effect). -/
def registerC (w : World) (ci : Nat) (p : Prov) : World :=
  let c := containerAt w ci
  let c1 := { c with providers := alSet c.providers p.provide p }
  let c2 :=
    match p with
    | .value _ v => { c1 with instances := alSet c1.instances p.provide v }
    | _ => { c1 with instances := alDel c1.instances p.provide }
  setContainer w ci c2

/-- `registerMany`. -/
def registerManyC (w : World) (ci : Nat) (ps : List Prov) : World :=
  ps.foldl (fun w p => registerC w ci p) w

/-- Append a fresh root container (`new DIContainer()`), returning its index. -/
def newContainer (w : World) : World × Nat :=
  ({ w with containers := w.containers ++ [⟨[], [], none⟩] }, w.containers.length)

/-- `createChild`: a fresh container whose parent is `ci`. -/
def createChild (w : World) (ci : Nat) : World × Nat :=
  ({ w with containers := w.containers ++ [⟨[], [], some ci⟩] }, w.containers.length)

/-- `lookupProvider`, fuel-indexed: search this container, then the parent
chain, returning the provider together with its owning container. -/
def lookupF : Nat → World → Nat → Token → Option (Prov × Nat)
  | 0, _, _, _ => none
  | f + 1, w, ci, t =>
    match alGet? (providersAt w ci) t with
    | some p => some (p, ci)
    | none =>
      match parentAt w ci with
      | some pi => lookupF f w pi t
      | none => none

/-- `lookupProvider` with enough fuel for any well-formed parent chain. -/
def lookupProvider (w : World) (ci : Nat) (t : Token) : Option (Prov × Nat) :=
  lookupF (w.containers.length + 1) w ci t

/-- `has`, fuel-indexed: `this.providers.has(t) || parent.has(t)`. -/
def hasF : Nat → World → Nat → Token → Bool
  | 0, _, _, _ => false
  | f + 1, w, ci, t =>
    (alGet? (providersAt w ci) t).isSome ||
      (match parentAt w ci with
       | some pi => hasF f w pi t
       | none => false)

/-- `has` with enough fuel for any well-formed parent chain. -/
def hasC (w : World) (ci : Nat) (t : Token) : Bool :=
  hasF (w.containers.length + 1) w ci t

/-- Run a factory/constructor body: allocate a fresh object, return a
constant, or throw. -/
def runBody (b : FSpec) (w : World) : Except String Value × World :=
  match b with
  | .mkFresh => (.ok (.obj w.nextObj), { w with nextObj := w.nextObj + 1 })
  | .const v => (.ok v, w)
  | .fail m => (.error m, w)

/-- `Set.add` on the resolving set (insertion-ordered, duplicate-free). -/
def resAdd (res : List Token) (t : Token) : List Token :=
  if t ∈ res then res else res ++ [t]

/-- `resolveDependencies`: `depTokens.map(dep => this.resolve(dep, resolving))`,
stopping at (and propagating) the first thrown error. -/
def resolveList
    (rf : Token → List Token → World → Except String Value × World × List Token) :
    List Token → List Token → World →
      Except String (List Value) × World × List Token
  | [], res, w => (.ok [], w, res)
  | d :: ds, res, w =>
    match rf d res w with
    | (.ok v, w1, res1) =>
      match resolveList rf ds res1 w1 with
      | (.ok vs, w2, res2) => (.ok (v :: vs), w2, res2)
      | (.error e, w2, res2) => (.error e, w2, res2)
    | (.error e, w1, res1) => (.error e, w1, res1)

/-- `instantiateProvider`: resolve the declared dependencies (from `deps`,
else the class's static `inject`, else `[]`), then run the class constructor
or factory, wrapping thrown errors; factory providers additionally check the
dependency count against the factory's parameter count.  On success the
invocation is recorded in the ghost log. -/
def instantiateProviderF
    (rf : Token → List Token → World → Except String Value × World × List Token)
    (p : Prov) (res : List Token) (w : World) :
    Except String Value × World × List Token :=
  match p with
  | .cls provide cid deps _ =>
    match resolveList rf
        (deps.getD (((w.classes.getD cid ⟨none, .fail "invalid class"⟩).inject).getD []))
        res w with
    | (.error e, w1, res1) => (.error e, w1, res1)
    | (.ok _, w1, res1) =>
      match runBody (w.classes.getD cid ⟨none, .fail "invalid class"⟩).body w1 with
      | (.error m, w2) =>
        (.error (mkClassFailMsg (getTokenName provide) m
          ((deps.getD (((w.classes.getD cid ⟨none, .fail "invalid class"⟩).inject).getD [])).map
            getTokenName)), w2, res1)
      | (.ok v, w2) =>
        (.ok v, { w2 with calls := (provide, v) :: w2.calls }, res1)
  | .factory provide body arity deps _ =>
    match resolveList rf (deps.getD []) res w with
    | (.error e, w1, res1) => (.error e, w1, res1)
    | (.ok vs, w1, res1) =>
      if arity > 0 ∧ vs.length ≠ arity then
        (.error (mkMismatchMsg (getTokenName provide) arity vs.length
          ((deps.getD []).map getTokenName)), w1, res1)
      else
        match runBody body w1 with
        | (.error m, w2) =>
          (.error (mkFactoryFailMsg (getTokenName provide) m
            ((deps.getD []).map getTokenName)), w2, res1)
        | (.ok v, w2) =>
          (.ok v, { w2 with calls := (provide, v) :: w2.calls }, res1)
  | .value _ v => (.ok v, w, res)

/-- `owner.instances.set(provider.provide, instance)`: cache a singleton in
its owning container. -/
def cacheWrite (w : World) (o : Nat) (t : Token) (v : Value) : World :=
  setContainer w o
    { containerAt w o with instances := alSet (instancesAt w o) t v }

/-- `resolve`, fuel-indexed.  Mirrors the source step by step:
1. look up the provider (this container, then ancestors);
2. if absent, auto-register constructor tokens and retry, otherwise throw
   the missing-provider error;
3. value providers return their value;
4. cached singletons are returned from the owning container;
5. a token already in the resolving set raises the circular-dependency error;
6. otherwise mark as resolving, instantiate, unmark (also on failure), and
   cache singletons in the owning container. -/
def resolveF : Nat → Nat → Token → List Token → World →
    Except String Value × World × List Token
  | 0, _, _, res, w => (.error fuelOutMsg, w, res)
  | f + 1, ci, t, res, w =>
    match lookupProvider w ci t with
    | none =>
      match t with
      | .ctor cid _ =>
        resolveF f ci t res (registerC w ci (.cls t cid none none))
      | _ =>
        (.error (mkMissingMsg (getTokenName t) (res.map getTokenName)), w, res)
    | some (p, owner) =>
      match p with
      | .value _ v => (.ok v, w, res)
      | _ =>
        match (if p.effLifetime = Lifetime.singleton then
                 alGet? (instancesAt w owner) p.provide
               else none) with
        | some v => (.ok v, w, res)
        | none =>
          if p.provide ∈ res then
            (.error (mkCircularMsg (res.map getTokenName)
              (getTokenName p.provide)), w, res)
          else
            match instantiateProviderF (fun d r w' => resolveF f ci d r w')
                p (resAdd res p.provide) w with
            | (.ok v, w2, res2) =>
              (.ok v,
               if p.effLifetime = Lifetime.singleton then
                 cacheWrite w2 owner p.provide v
               else w2,
               res2.erase p.provide)
            | (.error e, w2, res2) => (.error e, w2, res2.erase p.provide)

/-- `get`: resolve with a fresh (empty) resolving set, returning the result
and the updated world. -/
def getF (f : Nat) (w : World) (ci : Nat) (t : Token) :
    Except String Value × World :=
  let r := resolveF f ci t [] w
  (r.1, r.2.1)

/-- Well-formedness: every provider entry is stored under its own `provide`
token (`register` always uses `provider.provide` as the key). -/
def WFProv (w : World) : Prop :=
  ∀ i k p, alGet? (providersAt w i) k = some p → p.provide = k

/-! ## The module layer (`define-module.ts`, `create-app.ts`)

A controller definition is a `prefix` (here `pfx`, renamed for Lean) plus an
identity (`ctrlId`) standing for the JS object reference of the
`{ prefix, app }` record, which is what `createApp`'s `Set` deduplicates
on.  Controller factories resolve services against the module container at
setup time; since no claim depends on what a controller setup reads, factories
are modelled as already-applied controller definitions. -/

structure ControllerDef where
  ctrlId : Nat
  pfx : String
deriving DecidableEq, Repr

/-- `ModuleDefinition`: instantiated controllers, imported modules, exported
tokens, own providers, and the index of the module's DI container. -/
inductive ModuleDef where
  | mk (controllers : List ControllerDef) (imports : List ModuleDef)
      (moduleExports : List Token) (providers : List Prov) (container : Nat)

def ModuleDef.controllers : ModuleDef → List ControllerDef
  | .mk cs _ _ _ _ => cs

def ModuleDef.imports : ModuleDef → List ModuleDef
  | .mk _ is _ _ _ => is

def ModuleDef.moduleExports : ModuleDef → List Token
  | .mk _ _ es _ _ => es

def ModuleDef.providers : ModuleDef → List Prov
  | .mk _ _ _ ps _ => ps

def ModuleDef.container : ModuleDef → Nat
  | .mk _ _ _ _ c => c

/-- `ModuleConfig` (all fields defaulted to `[]` in the source are made
explicit). -/
structure ModuleConfig where
  controllers : List ControllerDef
  imports : List ModuleDef
  moduleExports : List Token
  providers : List Prov

/-- The import loop body of `defineModule`: for each exported token of an
imported module, if the imported module's container `has` it, `get` it there
(errors propagate) and register the instance as a value provider in the new
container. -/
def importExports (fuel ci srcCi : Nat) :
    List Token → World → Except String Unit × World
  | [], w => (.ok (), w)
  | tk :: tks, w =>
    if hasC w srcCi tk then
      match getF fuel w srcCi tk with
      | (.ok v, w1) => importExports fuel ci srcCi tks (registerC w1 ci (.value tk v))
      | (.error e, w1) => (.error e, w1)
    else importExports fuel ci srcCi tks w

/-- `imports.forEach(importedModule => ...)`. -/
def importModules (fuel ci : Nat) :
    List ModuleDef → World → Except String Unit × World
  | [], w => (.ok (), w)
  | m :: ms, w =>
    match importExports fuel ci m.container m.moduleExports w with
    | (.ok _, w1) => importModules fuel ci ms w1
    | (.error e, w1) => (.error e, w1)

/-- `defineModule`: create a fresh root container, import the exported
providers of imported modules, register the module's own providers,
instantiate controllers, and return the module definition. -/
def defineModuleF (fuel : Nat) (cfg : ModuleConfig) (w : World) :
    Except String ModuleDef × World :=
  match importModules fuel (newContainer w).2 cfg.imports (newContainer w).1 with
  | (.error e, w2) => (.error e, w2)
  | (.ok _, w2) =>
    (.ok (ModuleDef.mk cfg.controllers cfg.imports cfg.moduleExports
        cfg.providers (newContainer w).2),
     registerManyC w2 (newContainer w).2 cfg.providers)

/-- `Set.add` over controller objects: insertion-ordered, deduplicating on
object identity. -/
def addUnique (acc : List ControllerDef) (c : ControllerDef) : List ControllerDef :=
  if c ∈ acc then acc else acc ++ [c]

/-- `collectControllers` of `createApp`, as a depth-first worklist (the same
visit order as the source's recursion: a module's own controllers first,
then its imports, left to right), fuel-indexed. -/
def collectWork : Nat → List ModuleDef → List ControllerDef →
    Option (List ControllerDef)
  | 0, _, _ => none
  | _ + 1, [], acc => some acc
  | f + 1, ModuleDef.mk cs imps _ _ _ :: ms, acc =>
    collectWork f (imps ++ ms) (cs.foldl addUnique acc)

/-- The methods of the external router (`Hono`) interacted with anywhere in
the repository; `use`, `route`, `mount` and `basePath` are the four
post-creation modification operations. -/
def honoMethods : List String :=
  ["get", "post", "put", "delete", "patch", "options", "on", "all",
   "use", "route", "mount", "basePath", "notFound", "onError",
   "fetch", "request", "routes"]

/-- The four method names `KahelApp` removes:
`Omit<Hono, 'use' | 'route' | 'mount' | 'basePath'>`. -/
def kahelOmittedMethods : List String := ["use", "route", "mount", "basePath"]

/-- The interface of `KahelApp`: every `Hono` method except the omitted
four. -/
def kahelAppMethods : List String :=
  honoMethods.filter (fun m => decide (m ∉ kahelOmittedMethods))

/-- The value `createApp` returns: the mount list built by `app.route(prefix,
controller.app)` calls, in collection order, and the static interface of its
declared type `KahelApp`. -/
structure KahelAppModel where
  mounted : List (String × ControllerDef)
  exposes : List String
deriving DecidableEq, Repr

/-- `createApp`: flatten the module tree into the deduplicated controller
list and mount each controller at its prefix. -/
def createAppF (fuel : Nat) (root : ModuleDef) : Option KahelAppModel :=
  match collectWork fuel [root] [] with
  | none => none
  | some cs => some ⟨cs.map (fun c => (c.pfx, c)), kahelAppMethods⟩

/-- A module reachable from `m` transitively through imports (including `m`
itself). -/
inductive Reaches : ModuleDef → ModuleDef → Prop where
  | refl (m : ModuleDef) : Reaches m m
  | imp {m i target : ModuleDef} : i ∈ m.imports → Reaches i target →
      Reaches m target

/-- The state of an exported token in its source container after eager
resolution: either a value provider for `v`, or a non-value singleton
provider with `v` cached — in both cases `get` returns `v` with no state
change. -/
def StableAt (w : World) (c : Nat) (tk : Token) (v : Value) : Prop :=
  ∃ p, alGet? (providersAt w c) tk = some p ∧ p.provide = tk ∧
    (p = .value tk v ∨
     (p.isValue = false ∧ p.effLifetime = Lifetime.singleton ∧
      instAt w c tk = some v))

/-- The state of an imported token in the importing module's container:
registered as a value provider for `v`, with the instance cached (as
`register` does for value providers). -/
def ValueReady (w : World) (ci : Nat) (tk : Token) (v : Value) : Prop :=
  alGet? (providersAt w ci) tk = some (.value tk v) ∧ instAt w ci tk = some v

/-! ## Concrete inputs for witnesses and counterexamples -/

/-- A module living in root container 0, exporting token `E` and keeping
token `P` private. -/
def exI5 : ModuleDef := ModuleDef.mk [] [] [Token.str "E"] [] 0

/-- The world holding `exI5`'s container: value providers for `E` and `P`. -/
def exW5 : World :=
  ⟨[⟨[(Token.str "E", Prov.value (Token.str "E") (Value.obj 7)),
      (Token.str "P", Prov.value (Token.str "P") (Value.obj 8))], [], none⟩],
   [], 0, []⟩

/-- A module configuration importing `exI5`, with no providers of its own. -/
def exCfg5 : ModuleConfig := ⟨[], [exI5], [], []⟩

/-- The world after `defineModule` of `exCfg5`. -/
def exW5r : World := (defineModuleF 2 exCfg5 exW5).2

/-- The module `defineModule` returns for `exCfg5`: container 1. -/
def exM5 : ModuleDef := ModuleDef.mk [] [exI5] [] [] 1

/-- A module configuration importing `exI5` while also providing the
exported token `E` itself, with a different value. -/
def exCfg5c : ModuleConfig :=
  ⟨[], [exI5], [], [Prov.value (Token.str "E") (Value.obj 99)]⟩

/-- The module `defineModule` returns for `exCfg5c`: container 1. -/
def exM5c : ModuleDef :=
  ModuleDef.mk [] [exI5] [] [Prov.value (Token.str "E") (Value.obj 99)] 1

/-- Controllers for the C6 module tree (distinct object identities). -/
def exCR6 : ControllerDef := ⟨0, "/r"⟩

def exCA6 : ControllerDef := ⟨1, "/a"⟩

def exCS6 : ControllerDef := ⟨2, "/s"⟩

def exCB6 : ControllerDef := ⟨3, "/b"⟩

/-- A shared leaf module, imported along two paths. -/
def exShared6 : ModuleDef := ModuleDef.mk [exCS6] [] [] [] 0

def exA6 : ModuleDef := ModuleDef.mk [exCA6] [exShared6] [] [] 1

def exB6 : ModuleDef := ModuleDef.mk [exCB6] [exShared6] [] [] 2

/-- The root module: imports `exA6` and `exB6`, which both import
`exShared6` (a diamond). -/
def exRoot6 : ModuleDef := ModuleDef.mk [exCR6] [exA6, exB6] [] [] 3

/-- The app `createApp` builds for `exRoot6`: each reachable controller
mounted once, in depth-first collection order. -/
def exApp6 : KahelAppModel :=
  ⟨[("/r", exCR6), ("/a", exCA6), ("/s", exCS6), ("/b", exCB6)],
   kahelAppMethods⟩

/-- The empty world for the C7 counterexample. -/
def exW7 : World := ⟨[], [], 0, []⟩

/-- A module configuration with a single (never-referenced) factory
provider, no imports and no controllers. -/
def exCfg7 : ModuleConfig :=
  ⟨[], [], [], [Prov.factory (Token.str "S") FSpec.mkFresh 0 none none]⟩

/-- The module `defineModule` returns for `exCfg7`. -/
def exM7 : ModuleDef :=
  ModuleDef.mk [] [] [] [Prov.factory (Token.str "S") FSpec.mkFresh 0 none none] 0

/-- The world after `defineModule` of `exCfg7`. -/
def exW7r : World := (defineModuleF 5 exCfg7 exW7).2

/-- A root container holding one singleton `mkFresh` factory provider for the
string token `S`. -/
def exW4 : World :=
  ⟨[⟨[(Token.str "S", Prov.factory (Token.str "S") FSpec.mkFresh 0 none none)],
     [], none⟩], [], 0, []⟩

/-- `exW4` after `createChild`: container 1 is a child of container 0. -/
def exW4c : World := (createChild exW4 0).1

/-- `exW4c` after the child resolved `S` once: the instance is cached in the
owning parent container 0. -/
def exW4r : World :=
  ⟨[⟨[(Token.str "S", Prov.factory (Token.str "S") FSpec.mkFresh 0 none none)],
     [(Token.str "S", Value.obj 0)], none⟩,
    ⟨[], [], some 0⟩], [], 1, [(Token.str "S", Value.obj 0)]⟩

/-- A root container with a singleton provider `S` and a transient provider
`T`, both fresh-object factories. -/
def exW3 : World :=
  ⟨[⟨[(Token.str "S", Prov.factory (Token.str "S") FSpec.mkFresh 0 none none),
      (Token.str "T",
       Prov.factory (Token.str "T") FSpec.mkFresh 0 none (some .transient))],
     [], none⟩], [], 0, []⟩

/-- `exW3` after one `get` of the singleton `S`. -/
def exW3s : World :=
  ⟨[⟨[(Token.str "S", Prov.factory (Token.str "S") FSpec.mkFresh 0 none none),
      (Token.str "T",
       Prov.factory (Token.str "T") FSpec.mkFresh 0 none (some .transient))],
     [(Token.str "S", Value.obj 0)], none⟩], [], 1,
   [(Token.str "S", Value.obj 0)]⟩

/-- `exW3s` after one `get` of the transient `T`: no instance cached, a new
invocation logged. -/
def exW3t : World :=
  ⟨[⟨[(Token.str "S", Prov.factory (Token.str "S") FSpec.mkFresh 0 none none),
      (Token.str "T",
       Prov.factory (Token.str "T") FSpec.mkFresh 0 none (some .transient))],
     [(Token.str "S", Value.obj 0)], none⟩], [], 2,
   [(Token.str "T", Value.obj 1), (Token.str "S", Value.obj 0)]⟩

/-- A root container with a factory provider for `F` whose factory throws. -/
def exW10 : World :=
  ⟨[⟨[(Token.str "F", Prov.factory (Token.str "F") (FSpec.fail "boom") 0 none none)],
     [], none⟩], [], 0, []⟩

/-- A container whose registered providers' dependency declarations form the
cycle `A -> B -> A`, but where `A` additionally declares the unregistered
dependency `Missing` before `B`. -/
def exW1 : World :=
  ⟨[⟨[(Token.str "A",
       Prov.factory (Token.str "A") FSpec.mkFresh 0
         (some [Token.str "Missing", Token.str "B"]) none),
      (Token.str "B",
       Prov.factory (Token.str "B") FSpec.mkFresh 0
         (some [Token.str "A"]) none)], [], none⟩], [], 0, []⟩

/-- A container with the pure two-cycle `A -> B -> A`. -/
def exW1c : World :=
  ⟨[⟨[(Token.str "A",
       Prov.factory (Token.str "A") FSpec.mkFresh 0 (some [Token.str "B"]) none),
      (Token.str "B",
       Prov.factory (Token.str "B") FSpec.mkFresh 0 (some [Token.str "A"]) none)],
     [], none⟩], [], 0, []⟩

/-! ## Association-list lemmas -/

theorem alGet?_set_self {α : Type} (m : List (Token × α)) (k : Token) (v : α) :
    alGet? (alSet m k v) k = some v := by
  induction m with
  | nil => simp [alSet, alGet?]
  | cons e rest ih =>
    by_cases h : e.1 = k
    · simp [alSet, alGet?, h]
    · simp [alSet, alGet?, h, ih]

theorem alGet?_set_ne {α : Type} (m : List (Token × α)) (k k' : Token) (v : α)
    (h : k' ≠ k) : alGet? (alSet m k v) k' = alGet? m k' := by
  induction m with
  | nil =>
    simp only [alSet, alGet?]
    rw [if_neg (Ne.symm h)]
  | cons e rest ih =>
    obtain ⟨k1, v1⟩ := e
    by_cases he : k1 = k
    · subst he
      simp only [alSet, if_pos rfl, alGet?]
      rw [if_neg (Ne.symm h), if_neg (Ne.symm h)]
    · simp only [alSet, if_neg he, alGet?]
      by_cases he' : k1 = k'
      · rw [if_pos he', if_pos he']
      · rw [if_neg he', if_neg he', ih]

theorem alGet?_del_self {α : Type} (m : List (Token × α)) (k : Token) :
    alGet? (alDel m k) k = none := by
  induction m with
  | nil => simp [alDel, alGet?]
  | cons e rest ih =>
    by_cases h : e.1 = k
    · simp [alDel, alGet?, h, ih]
    · simp [alDel, alGet?, h, ih]

theorem alGet?_del_ne {α : Type} (m : List (Token × α)) (k k' : Token)
    (h : k' ≠ k) : alGet? (alDel m k) k' = alGet? m k' := by
  induction m with
  | nil => simp [alDel, alGet?]
  | cons e rest ih =>
    obtain ⟨k1, v1⟩ := e
    by_cases he : k1 = k
    · subst he
      simp only [alDel, alGet?, eq_self_iff_true, if_true]
      rw [ih]
      rw [if_neg (Ne.symm h)]
    · simp only [alDel, if_neg he, alGet?]
      by_cases he' : k1 = k'
      · rw [if_pos he', if_pos he']
      · rw [if_neg he', if_neg he', ih]

theorem getD_set_self {α : Type} (l : List α) (i : Nat) (a d : α)
    (h : i < l.length) : (l.set i a).getD i d = a := by
  induction l generalizing i with
  | nil => simp at h
  | cons x xs ih =>
    cases i with
    | zero => simp [List.set, List.getD]
    | succ n =>
      simp only [List.set, List.getD] at *
      exact ih n (by simpa using h)

theorem getD_set_ne {α : Type} (l : List α) (i j : Nat) (a d : α)
    (h : j ≠ i) : (l.set i a).getD j d = l.getD j d := by
  induction l generalizing i j with
  | nil => simp [List.set]
  | cons x xs ih =>
    cases i with
    | zero =>
      cases j with
      | zero => exact absurd rfl h
      | succ m => simp [List.set, List.getD]
    | succ n =>
      cases j with
      | zero => simp [List.set, List.getD]
      | succ m =>
        simp only [List.set, List.getD] at *
        exact ih n m (fun hh => h (by omega))

/-! ## Basic world/state lemmas -/

theorem getD_append_length {α : Type} (l : List α) (a d : α) :
    (l ++ [a]).getD l.length d = a := by
  induction l with
  | nil => rfl
  | cons x xs ih => simpa using ih

theorem containerAt_setContainer_self (w : World) (i : Nat) (c : Container)
    (h : i < w.containers.length) :
    containerAt (setContainer w i c) i = c := by
  simp only [containerAt, setContainer]
  exact getD_set_self _ _ _ _ h

theorem containerAt_setContainer_ne (w : World) (i j : Nat) (c : Container)
    (h : j ≠ i) :
    containerAt (setContainer w i c) j = containerAt w j := by
  simp only [containerAt, setContainer]
  exact getD_set_ne _ _ _ _ _ h

theorem length_setContainer (w : World) (i : Nat) (c : Container) :
    (setContainer w i c).containers.length = w.containers.length := by
  simp [setContainer]

@[simp] theorem classes_setContainer (w : World) (i : Nat) (c : Container) :
    (setContainer w i c).classes = w.classes := rfl

@[simp] theorem nextObj_setContainer (w : World) (i : Nat) (c : Container) :
    (setContainer w i c).nextObj = w.nextObj := rfl

@[simp] theorem calls_setContainer (w : World) (i : Nat) (c : Container) :
    (setContainer w i c).calls = w.calls := rfl

/-- Out-of-range container lookups give the default container. -/
theorem containerAt_oob (w : World) (i : Nat) (h : ¬ i < w.containers.length) :
    containerAt w i = ⟨[], [], none⟩ := by
  simp only [containerAt]
  rw [List.getD_eq_default]
  omega

/-- Out-of-range `setContainer` is a no-op. -/
theorem setContainer_oob (w : World) (i : Nat) (c : Container)
    (h : ¬ i < w.containers.length) : setContainer w i c = w := by
  simp only [setContainer]
  have : w.containers.set i c = w.containers := by
    apply List.set_eq_of_length_le
    omega
  simp [this]

/-! ## `registerC` lemmas -/

theorem registerC_length (w : World) (ci : Nat) (p : Prov) :
    (registerC w ci p).containers.length = w.containers.length := by
  cases p <;> simp [registerC, length_setContainer]

theorem registerC_classes (w : World) (ci : Nat) (p : Prov) :
    (registerC w ci p).classes = w.classes := by
  cases p <;> rfl

theorem registerC_nextObj (w : World) (ci : Nat) (p : Prov) :
    (registerC w ci p).nextObj = w.nextObj := by
  cases p <;> rfl

theorem registerC_calls (w : World) (ci : Nat) (p : Prov) :
    (registerC w ci p).calls = w.calls := by
  cases p <;> rfl

theorem registerC_containerAt_ne (w : World) (ci i : Nat) (p : Prov)
    (h : i ≠ ci) :
    containerAt (registerC w ci p) i = containerAt w i := by
  cases p <;> exact containerAt_setContainer_ne _ _ _ _ h

theorem registerC_parentAt (w : World) (ci : Nat) (p : Prov) (i : Nat) :
    parentAt (registerC w ci p) i = parentAt w i := by
  by_cases hi : i = ci
  · subst hi
    by_cases hlen : i < w.containers.length
    · cases p <;>
        simp [registerC, parentAt, containerAt_setContainer_self _ _ _ hlen]
    · cases p <;> simp [registerC, setContainer_oob _ _ _ hlen]
  · simp [parentAt, registerC_containerAt_ne _ _ _ _ hi]

theorem registerC_oob (w : World) (ci : Nat) (p : Prov)
    (h : ¬ ci < w.containers.length) : registerC w ci p = w := by
  cases p <;> exact setContainer_oob _ _ _ h

theorem registerC_providersAt_self (w : World) (ci : Nat) (p : Prov)
    (h : ci < w.containers.length) :
    providersAt (registerC w ci p) ci = alSet (providersAt w ci) p.provide p := by
  cases p <;> simp [registerC, providersAt, containerAt_setContainer_self _ _ _ h]

theorem registerC_provGet_ne (w : World) (ci : Nat) (p : Prov) (i : Nat)
    (k : Token) (h : k ≠ p.provide) :
    alGet? (providersAt (registerC w ci p) i) k = alGet? (providersAt w i) k := by
  by_cases hi : i = ci
  · subst hi
    by_cases hlen : i < w.containers.length
    · rw [registerC_providersAt_self _ _ _ hlen, alGet?_set_ne _ _ _ _ h]
    · rw [registerC_oob _ _ _ hlen]
  · simp [providersAt, registerC_containerAt_ne _ _ _ _ hi]

theorem registerC_instAt_nonvalue (w : World) (ci : Nat) (p : Prov)
    (hp : p.isValue = false) (i : Nat) (t : Token) (h : instAt w i t = none) :
    instAt (registerC w ci p) i t = none := by
  by_cases hi : i = ci
  · subst hi
    by_cases hlen : i < w.containers.length
    · cases p with
      | value tk v => simp [Prov.isValue] at hp
      | cls tk cid d lt =>
        by_cases ht : t = Prov.provide (.cls tk cid d lt)
        · simp [registerC, instAt, instancesAt,
            containerAt_setContainer_self _ _ _ hlen, ht, alGet?_del_self]
        · simp only [registerC, instAt, instancesAt,
            containerAt_setContainer_self _ _ _ hlen]
          rw [alGet?_del_ne _ _ _ ht]
          exact h
      | factory tk b a d lt =>
        by_cases ht : t = Prov.provide (.factory tk b a d lt)
        · simp [registerC, instAt, instancesAt,
            containerAt_setContainer_self _ _ _ hlen, ht, alGet?_del_self]
        · simp only [registerC, instAt, instancesAt,
            containerAt_setContainer_self _ _ _ hlen]
          rw [alGet?_del_ne _ _ _ ht]
          exact h
    · rw [registerC_oob _ _ _ hlen]
      exact h
  · rw [instAt, instancesAt, registerC_containerAt_ne _ _ _ _ hi]
    exact h

theorem registerC_instAt_ne (w : World) (ci : Nat) (p : Prov) (i : Nat)
    (t : Token) (ht : t ≠ p.provide) :
    instAt (registerC w ci p) i t = instAt w i t := by
  by_cases hi : i = ci
  · subst hi
    by_cases hlen : i < w.containers.length
    · cases p with
      | value tk v =>
        simp only [registerC, instAt, instancesAt,
          containerAt_setContainer_self _ _ _ hlen]
        exact alGet?_set_ne _ _ _ _ ht
      | cls tk cid d lt =>
        simp only [registerC, instAt, instancesAt,
          containerAt_setContainer_self _ _ _ hlen]
        exact alGet?_del_ne _ _ _ ht
      | factory tk b a d lt =>
        simp only [registerC, instAt, instancesAt,
          containerAt_setContainer_self _ _ _ hlen]
        exact alGet?_del_ne _ _ _ ht
    · rw [registerC_oob _ _ _ hlen]
  · rw [instAt, instancesAt, registerC_containerAt_ne _ _ _ _ hi]
    rfl

theorem registerC_instAt_self_nonvalue (w : World) (ci : Nat) (p : Prov)
    (hp : p.isValue = false) (h : ci < w.containers.length) :
    instAt (registerC w ci p) ci p.provide = none := by
  cases p with
  | value tk v => simp [Prov.isValue] at hp
  | cls tk cid d lt =>
    simp [registerC, instAt, instancesAt, containerAt_setContainer_self _ _ _ h,
      alGet?_del_self]
  | factory tk b a d lt =>
    simp [registerC, instAt, instancesAt, containerAt_setContainer_self _ _ _ h,
      alGet?_del_self]

theorem registerC_instAt_value (w : World) (ci : Nat) (t : Token) (v : Value)
    (h : ci < w.containers.length) :
    instAt (registerC w ci (.value t v)) ci t = some v := by
  simp [registerC, instAt, instancesAt, containerAt_setContainer_self _ _ _ h,
    Prov.provide, alGet?_set_self]

/-- Any entry of an `alSet` is either the new pair or an old entry. -/
theorem alGet?_set_cases {α : Type} (m : List (Token × α)) (k k' : Token)
    (v q : α) (h : alGet? (alSet m k v) k' = some q) :
    (k' = k ∧ q = v) ∨ alGet? m k' = some q := by
  by_cases hk : k' = k
  · subst hk
    rw [alGet?_set_self] at h
    exact Or.inl ⟨rfl, (Option.some_inj.mp h).symm⟩
  · rw [alGet?_set_ne _ _ _ _ hk] at h
    exact Or.inr h

theorem registerC_WFProv (w : World) (ci : Nat) (p : Prov)
    (hw : WFProv w) : WFProv (registerC w ci p) := by
  intro i k q hq
  by_cases hi : i = ci
  · subst hi
    by_cases hlen : i < w.containers.length
    · rw [registerC_providersAt_self _ _ _ hlen] at hq
      rcases alGet?_set_cases _ _ _ _ _ hq with ⟨hk, hqv⟩ | hold
      · subst hk; subst hqv; rfl
      · exact hw i k q hold
    · rw [registerC_oob _ _ _ hlen] at hq
      exact hw i k q hq
  · rw [providersAt, registerC_containerAt_ne _ _ _ _ hi] at hq
    exact hw i k q hq

/-! ## `cacheWrite` lemmas -/

theorem cacheWrite_length (w : World) (o : Nat) (t : Token) (v : Value) :
    (cacheWrite w o t v).containers.length = w.containers.length :=
  length_setContainer _ _ _

@[simp] theorem cacheWrite_classes (w : World) (o : Nat) (t : Token) (v : Value) :
    (cacheWrite w o t v).classes = w.classes := rfl

@[simp] theorem cacheWrite_nextObj (w : World) (o : Nat) (t : Token) (v : Value) :
    (cacheWrite w o t v).nextObj = w.nextObj := rfl

@[simp] theorem cacheWrite_calls (w : World) (o : Nat) (t : Token) (v : Value) :
    (cacheWrite w o t v).calls = w.calls := rfl

theorem cacheWrite_providersAt (w : World) (o : Nat) (t : Token) (v : Value)
    (i : Nat) : providersAt (cacheWrite w o t v) i = providersAt w i := by
  by_cases hi : i = o
  · subst hi
    by_cases hlen : i < w.containers.length
    · simp [cacheWrite, providersAt, containerAt_setContainer_self _ _ _ hlen]
    · simp [cacheWrite, setContainer_oob _ _ _ hlen]
  · simp [providersAt, cacheWrite, containerAt_setContainer_ne _ _ _ _ hi]

theorem cacheWrite_parentAt (w : World) (o : Nat) (t : Token) (v : Value)
    (i : Nat) : parentAt (cacheWrite w o t v) i = parentAt w i := by
  by_cases hi : i = o
  · subst hi
    by_cases hlen : i < w.containers.length
    · simp [cacheWrite, parentAt, containerAt_setContainer_self _ _ _ hlen]
    · simp [cacheWrite, setContainer_oob _ _ _ hlen]
  · simp [parentAt, cacheWrite, containerAt_setContainer_ne _ _ _ _ hi]

theorem cacheWrite_instAt_self (w : World) (o : Nat) (t : Token) (v : Value)
    (h : o < w.containers.length) :
    instAt (cacheWrite w o t v) o t = some v := by
  simp [cacheWrite, instAt, instancesAt, containerAt_setContainer_self _ _ _ h,
    alGet?_set_self]

theorem cacheWrite_instAt_ne (w : World) (o : Nat) (t : Token) (v : Value)
    (i : Nat) (t' : Token) (ht : t' ≠ t) :
    instAt (cacheWrite w o t v) i t' = instAt w i t' := by
  by_cases hi : i = o
  · subst hi
    by_cases hlen : i < w.containers.length
    · simp only [cacheWrite, instAt, instancesAt,
        containerAt_setContainer_self _ _ _ hlen]
      exact alGet?_set_ne _ _ _ _ ht
    · simp [cacheWrite, setContainer_oob _ _ _ hlen]
  · simp [instAt, instancesAt, cacheWrite, containerAt_setContainer_ne _ _ _ _ hi]

theorem cacheWrite_instAt_other (w : World) (o : Nat) (t : Token) (v : Value)
    (i : Nat) (hi : i ≠ o) :
    instAt (cacheWrite w o t v) i t = instAt w i t := by
  simp [instAt, instancesAt, cacheWrite, containerAt_setContainer_ne _ _ _ _ hi]

theorem cacheWrite_WFProv (w : World) (o : Nat) (t : Token) (v : Value)
    (hw : WFProv w) : WFProv (cacheWrite w o t v) := by
  intro i k q hq
  rw [cacheWrite_providersAt] at hq
  exact hw i k q hq

/-! ## `lookupF` / `hasF` lemmas -/

theorem lookupF_some_spec (f : Nat) (w : World) (ci : Nat) (t : Token)
    (p : Prov) (o : Nat) (h : lookupF f w ci t = some (p, o)) :
    alGet? (providersAt w o) t = some p ∧ o < w.containers.length := by
  induction f generalizing ci with
  | zero => simp [lookupF] at h
  | succ f ih =>
    simp only [lookupF] at h
    cases hg : alGet? (providersAt w ci) t with
    | some q =>
      rw [hg] at h
      cases h
      refine ⟨hg, ?_⟩
      by_contra hlen
      rw [providersAt, containerAt_oob _ _ hlen] at hg
      simp [alGet?] at hg
    | none =>
      rw [hg] at h
      cases hp : parentAt w ci with
      | some pi => rw [hp] at h; exact ih pi h
      | none => rw [hp] at h; cases h

theorem lookupF_congr (w w' : World) (t : Token)
    (hprov : ∀ i, alGet? (providersAt w' i) t = alGet? (providersAt w i) t)
    (hpar : ∀ i, parentAt w' i = parentAt w i) :
    ∀ f ci, lookupF f w' ci t = lookupF f w ci t := by
  intro f
  induction f with
  | zero => intro ci; rfl
  | succ f ih =>
    intro ci
    simp only [lookupF, hprov ci, hpar ci]
    cases alGet? (providersAt w ci) t with
    | some p => rfl
    | none =>
      cases parentAt w ci with
      | some pi => exact ih pi
      | none => rfl

theorem lookupProvider_congr (w w' : World) (t : Token)
    (hlen : w'.containers.length = w.containers.length)
    (hprov : ∀ i, alGet? (providersAt w' i) t = alGet? (providersAt w i) t)
    (hpar : ∀ i, parentAt w' i = parentAt w i) :
    ∀ ci, lookupProvider w' ci t = lookupProvider w ci t := by
  intro ci
  unfold lookupProvider
  rw [hlen]
  exact lookupF_congr w w' t hprov hpar _ ci

theorem hasF_eq_lookupF_isSome (f : Nat) (w : World) (ci : Nat) (t : Token) :
    hasF f w ci t = (lookupF f w ci t).isSome := by
  induction f generalizing ci with
  | zero => rfl
  | succ f ih =>
    simp only [hasF, lookupF]
    cases alGet? (providersAt w ci) t with
    | some p => rfl
    | none =>
      cases parentAt w ci with
      | some pi => simp [ih pi]
      | none => rfl

theorem hasC_eq_lookupProvider_isSome (w : World) (ci : Nat) (t : Token) :
    hasC w ci t = (lookupProvider w ci t).isSome :=
  hasF_eq_lookupF_isSome _ _ _ _

theorem lookupProvider_eq (w : World) (ci : Nat) (t : Token) :
    lookupProvider w ci t = lookupF (w.containers.length + 1) w ci t := rfl

theorem lookupProvider_first_hit (w : World) (ci : Nat) (t : Token) (p : Prov)
    (h : alGet? (providersAt w ci) t = some p) :
    lookupProvider w ci t = some (p, ci) := by
  rw [lookupProvider_eq]
  simp [lookupF, h]

/-- In a root container (no parent), lookup only consults the container's own
provider map. -/
theorem lookupProvider_root (w : World) (ci : Nat) (t : Token)
    (h : parentAt w ci = none) :
    lookupProvider w ci t =
      (alGet? (providersAt w ci) t).map (fun p => (p, ci)) := by
  rw [lookupProvider_eq]
  simp only [lookupF, h]
  cases alGet? (providersAt w ci) t <;> rfl

/-! ## The resolving set is a JS `Set`: erase of a freshly appended element -/

theorem resAdd_not_mem (res : List Token) (t : Token) (h : t ∉ res) :
    resAdd res t = res ++ [t] := by
  simp [resAdd, h]

theorem resAdd_mem_self (res : List Token) (t : Token) : t ∈ resAdd res t := by
  by_cases h : t ∈ res
  · simp [resAdd, h]
  · simp [resAdd, h]

theorem erase_appended (l : List Token) (a : Token) (h : a ∉ l) :
    (l ++ [a]).erase a = l := by
  induction l with
  | nil => simp
  | cons x xs ih =>
    have hx : ¬ (x == a) = true := by
      simp only [beq_iff_eq]
      intro hh
      exact h (hh ▸ List.mem_cons_self x xs)
    simp only [List.cons_append, List.erase_cons]
    rw [if_neg hx, ih (fun hm => h (List.mem_cons_of_mem x hm))]

/-! ## The unconditional resolution invariant

`WInv w w'` records what any resolution step preserves about the world:
the number of containers, the class table, every parent pointer, and
provider-key well-formedness.  Together with restoration of the resolving
set this is proved for `resolveF` by induction on fuel. -/

def WInv (w w' : World) : Prop :=
  w'.containers.length = w.containers.length ∧
  w'.classes = w.classes ∧
  (∀ i, parentAt w' i = parentAt w i) ∧
  (WFProv w → WFProv w')

theorem WInv_refl (w : World) : WInv w w :=
  ⟨rfl, rfl, fun _ => rfl, fun h => h⟩

theorem WInv_trans {w w' w'' : World} (h1 : WInv w w') (h2 : WInv w' w'') :
    WInv w w'' :=
  ⟨h2.1.trans h1.1, h2.2.1.trans h1.2.1,
   fun i => (h2.2.2.1 i).trans (h1.2.2.1 i),
   fun h => h2.2.2.2 (h1.2.2.2 h)⟩

theorem WFProv_of_containers_eq {w w' : World} (h : w'.containers = w.containers)
    (hw : WFProv w) : WFProv w' := by
  intro i k p hp
  rw [providersAt, containerAt, h] at hp
  exact hw i k p hp

theorem WInv_of_eq {w w' : World} (h : w'.containers = w.containers)
    (hcl : w'.classes = w.classes) : WInv w w' := by
  refine ⟨by rw [h], hcl, ?_, ?_⟩
  · intro i
    simp [parentAt, containerAt, h]
  · exact WFProv_of_containers_eq h

theorem registerC_WInv (w : World) (ci : Nat) (p : Prov) :
    WInv w (registerC w ci p) :=
  ⟨registerC_length w ci p, registerC_classes w ci p,
   registerC_parentAt w ci p, registerC_WFProv w ci p⟩

theorem cacheWrite_WInv (w : World) (o : Nat) (t : Token) (v : Value) :
    WInv w (cacheWrite w o t v) :=
  ⟨cacheWrite_length w o t v, rfl, cacheWrite_parentAt w o t v,
   cacheWrite_WFProv w o t v⟩

theorem runBody_containers (b : FSpec) (w : World) :
    ((runBody b w).2).containers = w.containers := by
  cases b <;> rfl

theorem runBody_classes (b : FSpec) (w : World) :
    ((runBody b w).2).classes = w.classes := by
  cases b <;> rfl

theorem runBody_WInv (b : FSpec) (w : World) : WInv w (runBody b w).2 :=
  WInv_of_eq (runBody_containers b w) (runBody_classes b w)

theorem resolveList_inv
    (rf : Token → List Token → World → Except String Value × World × List Token)
    (hrf : ∀ d res w, (rf d res w).2.2 = res ∧ WInv w (rf d res w).2.1) :
    ∀ ds res w,
      (resolveList rf ds res w).2.2 = res ∧
        WInv w (resolveList rf ds res w).2.1 := by
  intro ds
  induction ds with
  | nil =>
    intro res w
    exact ⟨rfl, WInv_refl w⟩
  | cons d ds ih =>
    intro res w
    have hd := hrf d res w
    rcases h1 : rf d res w with ⟨r1, w1, res1⟩
    rw [h1] at hd
    obtain ⟨hres1, hw1⟩ := hd
    simp only at hres1 hw1
    cases r1 with
    | ok v =>
      have hrest := ih res1 w1
      rcases h2 : resolveList rf ds res1 w1 with ⟨r2, w2, res2⟩
      rw [h2] at hrest
      obtain ⟨hres2, hw2⟩ := hrest
      simp only at hres2 hw2
      cases r2 with
      | ok vs =>
        simp only [resolveList, h1, h2]
        exact ⟨hres2.trans hres1, WInv_trans hw1 hw2⟩
      | error e =>
        simp only [resolveList, h1, h2]
        exact ⟨hres2.trans hres1, WInv_trans hw1 hw2⟩
    | error e =>
      simp only [resolveList, h1]
      exact ⟨hres1, hw1⟩

theorem instantiate_inv
    (rf : Token → List Token → World → Except String Value × World × List Token)
    (hrf : ∀ d res w, (rf d res w).2.2 = res ∧ WInv w (rf d res w).2.1) :
    ∀ p res w,
      (instantiateProviderF rf p res w).2.2 = res ∧
        WInv w (instantiateProviderF rf p res w).2.1 := by
  intro p res w
  cases p with
  | value t v => exact ⟨rfl, WInv_refl w⟩
  | cls provide cid deps lt =>
    have hl := resolveList_inv rf hrf
      (deps.getD (((w.classes.getD cid ⟨none, .fail "invalid class"⟩).inject).getD []))
      res w
    rcases h1 : resolveList rf
        (deps.getD (((w.classes.getD cid ⟨none, .fail "invalid class"⟩).inject).getD []))
        res w with ⟨r1, w1, res1⟩
    rw [h1] at hl
    obtain ⟨hres1, hw1⟩ := hl
    simp only at hres1 hw1
    cases r1 with
    | error e =>
      simp only [instantiateProviderF, h1]
      exact ⟨hres1, hw1⟩
    | ok vs =>
      rcases h2 : runBody (w.classes.getD cid ⟨none, .fail "invalid class"⟩).body w1
        with ⟨r2, w2⟩
      have hw2 : WInv w1 w2 := by
        have := runBody_WInv (w.classes.getD cid ⟨none, .fail "invalid class"⟩).body w1
        rw [h2] at this
        exact this
      cases r2 with
      | error m =>
        simp only [instantiateProviderF, h1, h2]
        exact ⟨hres1, WInv_trans hw1 hw2⟩
      | ok v =>
        simp only [instantiateProviderF, h1, h2]
        exact ⟨hres1, WInv_trans hw1 (WInv_trans hw2 (WInv_of_eq rfl rfl))⟩
  | factory provide body arity deps lt =>
    have hl := resolveList_inv rf hrf (deps.getD []) res w
    rcases h1 : resolveList rf (deps.getD []) res w with ⟨r1, w1, res1⟩
    rw [h1] at hl
    obtain ⟨hres1, hw1⟩ := hl
    simp only at hres1 hw1
    cases r1 with
    | error e =>
      simp only [instantiateProviderF, h1]
      exact ⟨hres1, hw1⟩
    | ok vs =>
      by_cases hnum : arity > 0 ∧ vs.length ≠ arity
      · simp only [instantiateProviderF, h1, if_pos hnum]
        exact ⟨hres1, hw1⟩
      · rcases h2 : runBody body w1 with ⟨r2, w2⟩
        have hw2 : WInv w1 w2 := by
          have := runBody_WInv body w1
          rw [h2] at this
          exact this
        cases r2 with
        | error m =>
          simp only [instantiateProviderF, h1, if_neg hnum, h2]
          exact ⟨hres1, WInv_trans hw1 hw2⟩
        | ok v =>
          simp only [instantiateProviderF, h1, if_neg hnum, h2]
          exact ⟨hres1, WInv_trans hw1 (WInv_trans hw2 (WInv_of_eq rfl rfl))⟩

theorem resolveF_inv : ∀ (f ci : Nat) (t : Token) (res : List Token) (w : World),
    (resolveF f ci t res w).2.2 = res ∧ WInv w (resolveF f ci t res w).2.1 := by
  intro f
  induction f with
  | zero =>
    intro ci t res w
    exact ⟨rfl, WInv_refl w⟩
  | succ f ih =>
    intro ci t res w
    cases hl : lookupProvider w ci t with
    | none =>
      cases t with
      | str s =>
        refine ⟨?_, ?_⟩ <;> simp only [resolveF, hl] <;> exact WInv_refl w
      | sym id d =>
        refine ⟨?_, ?_⟩ <;> simp only [resolveF, hl] <;> exact WInv_refl w
      | ctor cid nm =>
        have hrec := ih ci (.ctor cid nm) res
          (registerC w ci (.cls (.ctor cid nm) cid none none))
        refine ⟨?_, ?_⟩ <;> simp only [resolveF, hl]
        · exact hrec.1
        · exact WInv_trans (registerC_WInv w ci _) hrec.2
    | some pr =>
      rcases pr with ⟨p, owner⟩
      have hinst := instantiate_inv (fun d r w' => resolveF f ci d r w')
        (fun d r w' => ih ci d r w')
      cases p with
      | value t' v =>
        refine ⟨?_, ?_⟩ <;> simp only [resolveF, hl] <;> exact WInv_refl w
      | cls provide cid deps lt =>
        cases hc : (if (Prov.cls provide cid deps lt).effLifetime = Lifetime.singleton
            then alGet? (instancesAt w owner) (Prov.cls provide cid deps lt).provide
            else none) with
        | some v =>
          refine ⟨?_, ?_⟩ <;> simp only [resolveF, hl, hc] <;> exact WInv_refl w
        | none =>
          by_cases hmem : (Prov.cls provide cid deps lt).provide ∈ res
          · refine ⟨?_, ?_⟩ <;> simp only [resolveF, hl, hc, if_pos hmem] <;>
              exact WInv_refl w
          · have hi := hinst (Prov.cls provide cid deps lt)
              (resAdd res (Prov.cls provide cid deps lt).provide) w
            rcases h2 : instantiateProviderF (fun d r w' => resolveF f ci d r w')
                (Prov.cls provide cid deps lt)
                (resAdd res (Prov.cls provide cid deps lt).provide) w
              with ⟨r2, w2, res2⟩
            rw [h2] at hi
            obtain ⟨hres2, hw2⟩ := hi
            simp only at hres2 hw2
            have herase : res2.erase (Prov.cls provide cid deps lt).provide = res := by
              rw [hres2, resAdd_not_mem _ _ hmem]
              exact erase_appended _ _ hmem
            cases r2 with
            | ok v =>
              refine ⟨?_, ?_⟩ <;> simp only [resolveF, hl, hc, if_neg hmem, h2]
              · exact herase
              · by_cases hsing :
                  (Prov.cls provide cid deps lt).effLifetime = Lifetime.singleton
                · rw [if_pos hsing]
                  exact WInv_trans hw2 (cacheWrite_WInv w2 owner _ v)
                · rw [if_neg hsing]
                  exact hw2
            | error e =>
              refine ⟨?_, ?_⟩ <;> simp only [resolveF, hl, hc, if_neg hmem, h2]
              · exact herase
              · exact hw2
      | factory provide body arity deps lt =>
        cases hc : (if (Prov.factory provide body arity deps lt).effLifetime = Lifetime.singleton
            then alGet? (instancesAt w owner) (Prov.factory provide body arity deps lt).provide
            else none) with
        | some v =>
          refine ⟨?_, ?_⟩ <;> simp only [resolveF, hl, hc] <;> exact WInv_refl w
        | none =>
          by_cases hmem : (Prov.factory provide body arity deps lt).provide ∈ res
          · refine ⟨?_, ?_⟩ <;> simp only [resolveF, hl, hc, if_pos hmem] <;>
              exact WInv_refl w
          · have hi := hinst (Prov.factory provide body arity deps lt)
              (resAdd res (Prov.factory provide body arity deps lt).provide) w
            rcases h2 : instantiateProviderF (fun d r w' => resolveF f ci d r w')
                (Prov.factory provide body arity deps lt)
                (resAdd res (Prov.factory provide body arity deps lt).provide) w
              with ⟨r2, w2, res2⟩
            rw [h2] at hi
            obtain ⟨hres2, hw2⟩ := hi
            simp only at hres2 hw2
            have herase : res2.erase (Prov.factory provide body arity deps lt).provide = res := by
              rw [hres2, resAdd_not_mem _ _ hmem]
              exact erase_appended _ _ hmem
            cases r2 with
            | ok v =>
              refine ⟨?_, ?_⟩ <;> simp only [resolveF, hl, hc, if_neg hmem, h2]
              · exact herase
              · by_cases hsing :
                  (Prov.factory provide body arity deps lt).effLifetime = Lifetime.singleton
                · rw [if_pos hsing]
                  exact WInv_trans hw2 (cacheWrite_WInv w2 owner _ v)
                · rw [if_neg hsing]
                  exact hw2
            | error e =>
              refine ⟨?_, ?_⟩ <;> simp only [resolveF, hl, hc, if_neg hmem, h2]
              · exact herase
              · exact hw2

/-! ## Generic preservation through dependency resolution -/

theorem resolveList_pres (P : World → Prop)
    (rf : Token → List Token → World → Except String Value × World × List Token)
    (hrf : ∀ d res w, P w → P (rf d res w).2.1) :
    ∀ ds res w, P w → P ((resolveList rf ds res w).2.1) := by
  intro ds
  induction ds with
  | nil => intro res w hP; exact hP
  | cons d ds ih =>
    intro res w hP
    have h1P := hrf d res w hP
    rcases h1 : rf d res w with ⟨r1, w1, res1⟩
    rw [h1] at h1P
    simp only at h1P
    cases r1 with
    | ok v =>
      have h2P := ih res1 w1 h1P
      rcases h2 : resolveList rf ds res1 w1 with ⟨r2, w2, res2⟩
      rw [h2] at h2P
      simp only at h2P
      cases r2 with
      | ok vs => simp only [resolveList, h1, h2]; exact h2P
      | error e => simp only [resolveList, h1, h2]; exact h2P
    | error e =>
      simp only [resolveList, h1]
      exact h1P

theorem instantiate_pres (P : World → Prop)
    (rf : Token → List Token → World → Except String Value × World × List Token)
    (hrf : ∀ d res w, P w → P (rf d res w).2.1)
    (hbody : ∀ b w, P w → P (runBody b w).2)
    (hcalls : ∀ w e, P w → P { w with calls := e :: w.calls }) :
    ∀ p res w, P w → P ((instantiateProviderF rf p res w).2.1) := by
  intro p res w hP
  cases p with
  | value t v => exact hP
  | cls provide cid deps lt =>
    have h1P := resolveList_pres P rf hrf
      (deps.getD (((w.classes.getD cid ⟨none, .fail "invalid class"⟩).inject).getD []))
      res w hP
    rcases h1 : resolveList rf
        (deps.getD (((w.classes.getD cid ⟨none, .fail "invalid class"⟩).inject).getD []))
        res w with ⟨r1, w1, res1⟩
    rw [h1] at h1P
    simp only at h1P
    cases r1 with
    | error e => simp only [instantiateProviderF, h1]; exact h1P
    | ok vs =>
      have h2P := hbody (w.classes.getD cid ⟨none, .fail "invalid class"⟩).body w1 h1P
      rcases h2 : runBody (w.classes.getD cid ⟨none, .fail "invalid class"⟩).body w1
        with ⟨r2, w2⟩
      rw [h2] at h2P
      simp only at h2P
      cases r2 with
      | error m => simp only [instantiateProviderF, h1, h2]; exact h2P
      | ok v =>
        simp only [instantiateProviderF, h1, h2]
        exact hcalls w2 (provide, v) h2P
  | factory provide body arity deps lt =>
    have h1P := resolveList_pres P rf hrf (deps.getD []) res w hP
    rcases h1 : resolveList rf (deps.getD []) res w with ⟨r1, w1, res1⟩
    rw [h1] at h1P
    simp only at h1P
    cases r1 with
    | error e => simp only [instantiateProviderF, h1]; exact h1P
    | ok vs =>
      by_cases hnum : arity > 0 ∧ vs.length ≠ arity
      · simp only [instantiateProviderF, h1, if_pos hnum]
        exact h1P
      · have h2P := hbody body w1 h1P
        rcases h2 : runBody body w1 with ⟨r2, w2⟩
        rw [h2] at h2P
        simp only at h2P
        cases r2 with
        | error m => simp only [instantiateProviderF, h1, if_neg hnum, h2]; exact h2P
        | ok v =>
          simp only [instantiateProviderF, h1, if_neg hnum, h2]
          exact hcalls w2 (provide, v) h2P

/-! ## Preservation of registered-provider lookups

While resolving (on container `ci`), a provider already visible from `ci`
for token `t` stays visible with the same owner: the only provider-map
mutation is auto-registration into `ci` of tokens that had no provider at
all. -/

theorem lookupProvider_eq_of_containers_eq {w w' : World}
    (h : w'.containers = w.containers) (ci : Nat) (t : Token) :
    lookupProvider w' ci t = lookupProvider w ci t := by
  apply lookupProvider_congr
  · rw [h]
  · intro i; rw [providersAt, providersAt, containerAt, containerAt, h]
  · intro i; rw [parentAt, parentAt, containerAt, containerAt, h]

theorem lookupProvider_cacheWrite (w : World) (o : Nat) (tk : Token) (v : Value)
    (ci : Nat) (t : Token) :
    lookupProvider (cacheWrite w o tk v) ci t = lookupProvider w ci t := by
  apply lookupProvider_congr
  · exact cacheWrite_length w o tk v
  · intro i; rw [cacheWrite_providersAt]
  · intro i; rw [cacheWrite_parentAt]

theorem lookupProvider_registerC_ne (w : World) (ci' : Nat) (p : Prov)
    (ci : Nat) (t : Token) (h : t ≠ p.provide) :
    lookupProvider (registerC w ci' p) ci t = lookupProvider w ci t := by
  apply lookupProvider_congr
  · exact registerC_length w ci' p
  · intro i; exact registerC_provGet_ne w ci' p i t h
  · intro i; exact registerC_parentAt w ci' p i

theorem resolveF_lookup_preserved :
    ∀ (f ci : Nat) (t' : Token) (res : List Token) (w : World)
      (t : Token) (p : Prov) (o : Nat),
      lookupProvider w ci t = some (p, o) →
      lookupProvider (resolveF f ci t' res w).2.1 ci t = some (p, o) := by
  intro f
  induction f with
  | zero => intro ci t' res w t p o h; exact h
  | succ f ih =>
    intro ci t' res w t p o h
    cases hl : lookupProvider w ci t' with
    | none =>
      cases t' with
      | str s =>
        simp only [resolveF, hl]
        exact h
      | sym id d =>
        simp only [resolveF, hl]
        exact h
      | ctor cid nm =>
        have hne : t ≠ (Token.ctor cid nm) := by
          intro hEq
          rw [hEq] at h
          rw [h] at hl
          cases hl
        have h1 : lookupProvider
            (registerC w ci (.cls (.ctor cid nm) cid none none)) ci t = some (p, o) := by
          rw [lookupProvider_registerC_ne _ _ _ _ _ hne]
          exact h
        simp only [resolveF, hl]
        exact ih ci (.ctor cid nm) res _ t p o h1
    | some pr =>
      rcases pr with ⟨q, qo⟩
      have hP : ∀ pq res1 w1, lookupProvider w1 ci t = some (p, o) →
          lookupProvider ((instantiateProviderF (fun d r w' => resolveF f ci d r w')
            pq res1 w1).2.1) ci t = some (p, o) := by
        intro pq res1 w1 h1
        exact instantiate_pres (fun ww => lookupProvider ww ci t = some (p, o))
          (fun d r w' => resolveF f ci d r w')
          (fun d r w' hw => ih ci d r w' t p o hw)
          (fun b w' hw => by
            show lookupProvider ((runBody b w').2) ci t = some (p, o)
            rw [lookupProvider_eq_of_containers_eq (runBody_containers b w')]
            exact hw)
          (fun w' e hw =>
            (@lookupProvider_eq_of_containers_eq w'
              { w' with calls := e :: w'.calls } rfl ci t).trans hw)
          pq res1 w1 h1
      cases q with
      | value t'' v =>
        simp only [resolveF, hl]
        exact h
      | cls provide cid deps lt =>
        cases hc : (if (Prov.cls provide cid deps lt).effLifetime = Lifetime.singleton
            then alGet? (instancesAt w qo) (Prov.cls provide cid deps lt).provide
            else none) with
        | some v =>
          simp only [resolveF, hl, hc]
          exact h
        | none =>
          by_cases hmem : (Prov.cls provide cid deps lt).provide ∈ res
          · simp only [resolveF, hl, hc, if_pos hmem]
            exact h
          · rcases h2 : instantiateProviderF (fun d r w' => resolveF f ci d r w')
                (Prov.cls provide cid deps lt)
                (resAdd res (Prov.cls provide cid deps lt).provide) w
              with ⟨r2, w2, res2⟩
            have h2P := hP (Prov.cls provide cid deps lt)
              (resAdd res (Prov.cls provide cid deps lt).provide) w h
            rw [h2] at h2P
            simp only at h2P
            cases r2 with
            | ok v =>
              simp only [resolveF, hl, hc, if_neg hmem, h2]
              by_cases hsing :
                (Prov.cls provide cid deps lt).effLifetime = Lifetime.singleton
              · rw [if_pos hsing]
                rw [lookupProvider_cacheWrite]
                exact h2P
              · rw [if_neg hsing]
                exact h2P
            | error e =>
              simp only [resolveF, hl, hc, if_neg hmem, h2]
              exact h2P
      | factory provide body arity deps lt =>
        cases hc : (if (Prov.factory provide body arity deps lt).effLifetime = Lifetime.singleton
            then alGet? (instancesAt w qo) (Prov.factory provide body arity deps lt).provide
            else none) with
        | some v =>
          simp only [resolveF, hl, hc]
          exact h
        | none =>
          by_cases hmem : (Prov.factory provide body arity deps lt).provide ∈ res
          · simp only [resolveF, hl, hc, if_pos hmem]
            exact h
          · rcases h2 : instantiateProviderF (fun d r w' => resolveF f ci d r w')
                (Prov.factory provide body arity deps lt)
                (resAdd res (Prov.factory provide body arity deps lt).provide) w
              with ⟨r2, w2, res2⟩
            have h2P := hP (Prov.factory provide body arity deps lt)
              (resAdd res (Prov.factory provide body arity deps lt).provide) w h
            rw [h2] at h2P
            simp only at h2P
            cases r2 with
            | ok v =>
              simp only [resolveF, hl, hc, if_neg hmem, h2]
              by_cases hsing :
                (Prov.factory provide body arity deps lt).effLifetime = Lifetime.singleton
              · rw [if_pos hsing]
                rw [lookupProvider_cacheWrite]
                exact h2P
              · rw [if_neg hsing]
                exact h2P
            | error e =>
              simp only [resolveF, hl, hc, if_neg hmem, h2]
              exact h2P

/-! ## The protected-token invariant

While a token `t` is in the resolving set, resolution never caches a
singleton for `t` and never invokes `t`'s provider: any attempt to resolve
`t` again is answered by the cached-instance read or the circular-dependency
error before reaching instantiation. -/

def Prot (t : Token) (w w' : World) : Prop :=
  (∀ i, instAt w i t = none → instAt w' i t = none) ∧
  w'.calls.filter (fun e => e.1 = t) = w.calls.filter (fun e => e.1 = t)

theorem Prot_refl (t : Token) (w : World) : Prot t w w :=
  ⟨fun _ h => h, rfl⟩

theorem Prot_trans {t : Token} {w w' w'' : World} (h1 : Prot t w w')
    (h2 : Prot t w' w'') : Prot t w w'' :=
  ⟨fun i h => h2.1 i (h1.1 i h), h2.2.trans h1.2⟩

theorem Prot_of_eq {t : Token} {w w' : World}
    (hc : w'.containers = w.containers) (hcl : w'.calls = w.calls) :
    Prot t w w' := by
  constructor
  · intro i h
    rw [instAt, instancesAt, containerAt, hc] at *
    exact h
  · rw [hcl]

theorem runBody_calls (b : FSpec) (w : World) :
    ((runBody b w).2).calls = w.calls := by
  cases b <;> rfl

theorem resolveList_prot (t : Token)
    (rf : Token → List Token → World → Except String Value × World × List Token)
    (hres : ∀ d res w, (rf d res w).2.2 = res)
    (hrf : ∀ d res w, t ∈ res → Prot t w (rf d res w).2.1) :
    ∀ ds res w, t ∈ res → Prot t w ((resolveList rf ds res w).2.1) := by
  intro ds
  induction ds with
  | nil => intro res w _; exact Prot_refl t w
  | cons d ds ih =>
    intro res w ht
    have h1P := hrf d res w ht
    have h1res := hres d res w
    rcases h1 : rf d res w with ⟨r1, w1, res1⟩
    rw [h1] at h1P h1res
    simp only at h1P h1res
    cases r1 with
    | ok v =>
      have h2P := ih res1 w1 (h1res ▸ ht)
      rcases h2 : resolveList rf ds res1 w1 with ⟨r2, w2, res2⟩
      rw [h2] at h2P
      simp only at h2P
      cases r2 with
      | ok vs => simp only [resolveList, h1, h2]; exact Prot_trans h1P h2P
      | error e => simp only [resolveList, h1, h2]; exact Prot_trans h1P h2P
    | error e =>
      simp only [resolveList, h1]
      exact h1P

theorem instantiate_prot (t : Token)
    (rf : Token → List Token → World → Except String Value × World × List Token)
    (hres : ∀ d res w, (rf d res w).2.2 = res)
    (hrf : ∀ d res w, t ∈ res → Prot t w (rf d res w).2.1) :
    ∀ p res w, t ∈ res → p.provide ≠ t →
      Prot t w ((instantiateProviderF rf p res w).2.1) := by
  intro p res w ht hne
  cases p with
  | value t' v => exact Prot_refl t w
  | cls provide cid deps lt =>
    have hne' : provide ≠ t := hne
    have h1P := resolveList_prot t rf hres hrf
      (deps.getD (((w.classes.getD cid ⟨none, .fail "invalid class"⟩).inject).getD []))
      res w ht
    rcases h1 : resolveList rf
        (deps.getD (((w.classes.getD cid ⟨none, .fail "invalid class"⟩).inject).getD []))
        res w with ⟨r1, w1, res1⟩
    rw [h1] at h1P
    simp only at h1P
    cases r1 with
    | error e => simp only [instantiateProviderF, h1]; exact h1P
    | ok vs =>
      rcases h2 : runBody (w.classes.getD cid ⟨none, .fail "invalid class"⟩).body w1
        with ⟨r2, w2⟩
      have h2P : Prot t w1 w2 := by
        have hc := runBody_containers (w.classes.getD cid ⟨none, .fail "invalid class"⟩).body w1
        have hcl := runBody_calls (w.classes.getD cid ⟨none, .fail "invalid class"⟩).body w1
        rw [h2] at hc hcl
        exact Prot_of_eq hc hcl
      cases r2 with
      | error m => simp only [instantiateProviderF, h1, h2]; exact Prot_trans h1P h2P
      | ok v =>
        simp only [instantiateProviderF, h1, h2]
        refine Prot_trans h1P (Prot_trans h2P ⟨fun i h => h, ?_⟩)
        simp only [List.filter_cons]
        rw [if_neg (by simp [hne'])]
  | factory provide body arity deps lt =>
    have hne' : provide ≠ t := hne
    have h1P := resolveList_prot t rf hres hrf (deps.getD []) res w ht
    rcases h1 : resolveList rf (deps.getD []) res w with ⟨r1, w1, res1⟩
    rw [h1] at h1P
    simp only at h1P
    cases r1 with
    | error e => simp only [instantiateProviderF, h1]; exact h1P
    | ok vs =>
      by_cases hnum : arity > 0 ∧ vs.length ≠ arity
      · simp only [instantiateProviderF, h1, if_pos hnum]
        exact h1P
      · rcases h2 : runBody body w1 with ⟨r2, w2⟩
        have h2P : Prot t w1 w2 := by
          have hc := runBody_containers body w1
          have hcl := runBody_calls body w1
          rw [h2] at hc hcl
          exact Prot_of_eq hc hcl
        cases r2 with
        | error m =>
          simp only [instantiateProviderF, h1, if_neg hnum, h2]
          exact Prot_trans h1P h2P
        | ok v =>
          simp only [instantiateProviderF, h1, if_neg hnum, h2]
          refine Prot_trans h1P (Prot_trans h2P ⟨fun i h => h, ?_⟩)
          simp only [List.filter_cons]
          rw [if_neg (by simp [hne'])]

theorem resolveF_protected :
    ∀ (f ci : Nat) (t' : Token) (res : List Token) (w : World) (t : Token),
      t ∈ res → Prot t w (resolveF f ci t' res w).2.1 := by
  intro f
  induction f with
  | zero => intro ci t' res w t _; exact Prot_refl t w
  | succ f ih =>
    intro ci t' res w t ht
    cases hl : lookupProvider w ci t' with
    | none =>
      cases t' with
      | str s => simp only [resolveF, hl]; exact Prot_refl t w
      | sym id d => simp only [resolveF, hl]; exact Prot_refl t w
      | ctor cid nm =>
        have hreg : Prot t w (registerC w ci (.cls (.ctor cid nm) cid none none)) := by
          constructor
          · intro i h
            exact registerC_instAt_nonvalue w ci
              (.cls (.ctor cid nm) cid none none) rfl i t h
          · rw [registerC_calls]
        simp only [resolveF, hl]
        exact Prot_trans hreg (ih ci (.ctor cid nm) res _ t ht)
    | some pr =>
      rcases pr with ⟨p, owner⟩
      cases p with
      | value t'' v => simp only [resolveF, hl]; exact Prot_refl t w
      | cls provide cid deps lt =>
        cases hc : (if (Prov.cls provide cid deps lt).effLifetime = Lifetime.singleton
            then alGet? (instancesAt w owner) (Prov.cls provide cid deps lt).provide
            else none) with
        | some v => simp only [resolveF, hl, hc]; exact Prot_refl t w
        | none =>
          by_cases hmem : (Prov.cls provide cid deps lt).provide ∈ res
          · simp only [resolveF, hl, hc, if_pos hmem]
            exact Prot_refl t w
          · have hne : (Prov.cls provide cid deps lt).provide ≠ t :=
              fun hEq => hmem (hEq ▸ ht)
            have htmem : t ∈ resAdd res (Prov.cls provide cid deps lt).provide := by
              rw [resAdd_not_mem _ _ hmem]
              exact List.mem_append_left _ ht
            have hP := instantiate_prot t (fun d r w' => resolveF f ci d r w')
              (fun d r w' => (resolveF_inv f ci d r w').1)
              (fun d r w' hm => ih ci d r w' t hm)
              (Prov.cls provide cid deps lt)
              (resAdd res (Prov.cls provide cid deps lt).provide) w htmem hne
            rcases h2 : instantiateProviderF (fun d r w' => resolveF f ci d r w')
                (Prov.cls provide cid deps lt)
                (resAdd res (Prov.cls provide cid deps lt).provide) w
              with ⟨r2, w2, res2⟩
            rw [h2] at hP
            simp only at hP
            cases r2 with
            | ok v =>
              simp only [resolveF, hl, hc, if_neg hmem, h2]
              by_cases hsing :
                (Prov.cls provide cid deps lt).effLifetime = Lifetime.singleton
              · rw [if_pos hsing]
                refine Prot_trans hP ⟨?_, by rw [cacheWrite_calls]⟩
                intro i h
                rw [cacheWrite_instAt_ne _ _ _ _ _ _ (Ne.symm hne)]
                exact h
              · rw [if_neg hsing]
                exact hP
            | error e =>
              simp only [resolveF, hl, hc, if_neg hmem, h2]
              exact hP
      | factory provide body arity deps lt =>
        cases hc : (if (Prov.factory provide body arity deps lt).effLifetime = Lifetime.singleton
            then alGet? (instancesAt w owner) (Prov.factory provide body arity deps lt).provide
            else none) with
        | some v => simp only [resolveF, hl, hc]; exact Prot_refl t w
        | none =>
          by_cases hmem : (Prov.factory provide body arity deps lt).provide ∈ res
          · simp only [resolveF, hl, hc, if_pos hmem]
            exact Prot_refl t w
          · have hne : (Prov.factory provide body arity deps lt).provide ≠ t :=
              fun hEq => hmem (hEq ▸ ht)
            have htmem : t ∈ resAdd res (Prov.factory provide body arity deps lt).provide := by
              rw [resAdd_not_mem _ _ hmem]
              exact List.mem_append_left _ ht
            have hP := instantiate_prot t (fun d r w' => resolveF f ci d r w')
              (fun d r w' => (resolveF_inv f ci d r w').1)
              (fun d r w' hm => ih ci d r w' t hm)
              (Prov.factory provide body arity deps lt)
              (resAdd res (Prov.factory provide body arity deps lt).provide) w htmem hne
            rcases h2 : instantiateProviderF (fun d r w' => resolveF f ci d r w')
                (Prov.factory provide body arity deps lt)
                (resAdd res (Prov.factory provide body arity deps lt).provide) w
              with ⟨r2, w2, res2⟩
            rw [h2] at hP
            simp only at hP
            cases r2 with
            | ok v =>
              simp only [resolveF, hl, hc, if_neg hmem, h2]
              by_cases hsing :
                (Prov.factory provide body arity deps lt).effLifetime = Lifetime.singleton
              · rw [if_pos hsing]
                refine Prot_trans hP ⟨?_, by rw [cacheWrite_calls]⟩
                intro i h
                rw [cacheWrite_instAt_ne _ _ _ _ _ _ (Ne.symm hne)]
                exact h
              · rw [if_neg hsing]
                exact hP
            | error e =>
              simp only [resolveF, hl, hc, if_neg hmem, h2]
              exact hP

/-- A failed instantiation protects a token in the resolving set even when
that token is the provider's own (the body threw before any event was
logged, and instantiation never writes instance maps itself). -/
theorem instantiate_prot_error (t : Token)
    (rf : Token → List Token → World → Except String Value × World × List Token)
    (hres : ∀ d res w, (rf d res w).2.2 = res)
    (hrf : ∀ d res w, t ∈ res → Prot t w (rf d res w).2.1) :
    ∀ p res w e w2 res2, t ∈ res →
      instantiateProviderF rf p res w = (.error e, w2, res2) →
      Prot t w w2 := by
  intro p res w e w2 res2 ht h
  cases p with
  | value t' v =>
    simp only [instantiateProviderF] at h
    cases h
  | cls provide cid deps lt =>
    have h1P := resolveList_prot t rf hres hrf
      (deps.getD (((w.classes.getD cid ⟨none, .fail "invalid class"⟩).inject).getD []))
      res w ht
    rcases h1 : resolveList rf
        (deps.getD (((w.classes.getD cid ⟨none, .fail "invalid class"⟩).inject).getD []))
        res w with ⟨r1, w1, res1⟩
    rw [h1] at h1P
    simp only at h1P
    cases r1 with
    | error e1 =>
      simp only [instantiateProviderF, h1] at h
      cases h
      exact h1P
    | ok vs =>
      rcases h2 : runBody (w.classes.getD cid ⟨none, .fail "invalid class"⟩).body w1
        with ⟨r2, w2'⟩
      have h2P : Prot t w1 w2' := by
        have hc := runBody_containers (w.classes.getD cid ⟨none, .fail "invalid class"⟩).body w1
        have hcl := runBody_calls (w.classes.getD cid ⟨none, .fail "invalid class"⟩).body w1
        rw [h2] at hc hcl
        exact Prot_of_eq hc hcl
      cases r2 with
      | error m =>
        simp only [instantiateProviderF, h1, h2] at h
        cases h
        exact Prot_trans h1P h2P
      | ok v =>
        simp only [instantiateProviderF, h1, h2] at h
        cases h
  | factory provide body arity deps lt =>
    have h1P := resolveList_prot t rf hres hrf (deps.getD []) res w ht
    rcases h1 : resolveList rf (deps.getD []) res w with ⟨r1, w1, res1⟩
    rw [h1] at h1P
    simp only at h1P
    cases r1 with
    | error e1 =>
      simp only [instantiateProviderF, h1] at h
      cases h
      exact h1P
    | ok vs =>
      by_cases hnum : arity > 0 ∧ vs.length ≠ arity
      · simp only [instantiateProviderF, h1, if_pos hnum] at h
        cases h
        exact h1P
      · rcases h2 : runBody body w1 with ⟨r2, w2'⟩
        have h2P : Prot t w1 w2' := by
          have hc := runBody_containers body w1
          have hcl := runBody_calls body w1
          rw [h2] at hc hcl
          exact Prot_of_eq hc hcl
        cases r2 with
        | error m =>
          simp only [instantiateProviderF, h1, if_neg hnum, h2] at h
          cases h
          exact Prot_trans h1P h2P
        | ok v =>
          simp only [instantiateProviderF, h1, if_neg hnum, h2] at h
          cases h

/-- When `get` fails, no singleton instance has been recorded for the
requested token in any container. -/
theorem resolveF_error_no_cache :
    ∀ (f ci : Nat) (t : Token) (w : World) (e : String) (w1 : World)
      (rs : List Token),
      WFProv w → resolveF f ci t [] w = (.error e, w1, rs) →
      ∀ i, instAt w i t = none → instAt w1 i t = none := by
  intro f
  induction f with
  | zero =>
    intro ci t w e w1 rs _ h i hnone
    cases h
    exact hnone
  | succ f ih =>
    intro ci t w e w1 rs hwf h i hnone
    cases hl : lookupProvider w ci t with
    | none =>
      cases t with
      | str s =>
        simp only [resolveF, hl] at h
        cases h
        exact hnone
      | sym id d =>
        simp only [resolveF, hl] at h
        cases h
        exact hnone
      | ctor cid nm =>
        simp only [resolveF, hl] at h
        exact ih ci (.ctor cid nm) _ e w1 rs
          (registerC_WFProv w ci _ hwf) h i
          (registerC_instAt_nonvalue w ci
            (.cls (.ctor cid nm) cid none none) rfl i (.ctor cid nm) hnone)
    | some pr =>
      rcases pr with ⟨p, owner⟩
      have hpt : p.provide = t :=
        hwf owner t p (lookupF_some_spec _ _ _ _ _ _ hl).1
      cases p with
      | value t'' v =>
        simp only [resolveF, hl] at h
        cases h
      | cls provide cid deps lt =>
        have hpt' : provide = t := hpt
        cases hc : (if (Prov.cls provide cid deps lt).effLifetime = Lifetime.singleton
            then alGet? (instancesAt w owner) (Prov.cls provide cid deps lt).provide
            else none) with
        | some v =>
          simp only [resolveF, hl, hc] at h
          cases h
        | none =>
          have hmem : (Prov.cls provide cid deps lt).provide ∉ ([] : List Token) := by
            simp
          rcases h2 : instantiateProviderF (fun d r w' => resolveF f ci d r w')
              (Prov.cls provide cid deps lt)
              (resAdd [] (Prov.cls provide cid deps lt).provide) w
            with ⟨r2, w2, res2⟩
          cases r2 with
          | ok v =>
            simp only [resolveF, hl, hc, if_neg hmem, h2] at h
            by_cases hs : (Prov.cls provide cid deps lt).effLifetime = Lifetime.singleton
            · rw [if_pos hs] at h
              cases h
            · rw [if_neg hs] at h
              cases h
          | error e2 =>
            have hP := instantiate_prot_error t (fun d r w' => resolveF f ci d r w')
              (fun d r w' => (resolveF_inv f ci d r w').1)
              (fun d r w' hm => resolveF_protected f ci d r w' t hm)
              (Prov.cls provide cid deps lt)
              (resAdd [] (Prov.cls provide cid deps lt).provide) w e2 w2 res2
              (by
                show t ∈ resAdd [] (Prov.cls provide cid deps lt).provide
                rw [show (Prov.cls provide cid deps lt).provide = t from hpt]
                exact resAdd_mem_self [] t)
              h2
            simp only [resolveF, hl, hc, if_neg hmem, h2] at h
            cases h
            exact hP.1 i hnone
      | factory provide body arity deps lt =>
        have hpt' : provide = t := hpt
        cases hc : (if (Prov.factory provide body arity deps lt).effLifetime = Lifetime.singleton
            then alGet? (instancesAt w owner) (Prov.factory provide body arity deps lt).provide
            else none) with
        | some v =>
          simp only [resolveF, hl, hc] at h
          cases h
        | none =>
          have hmem : (Prov.factory provide body arity deps lt).provide ∉ ([] : List Token) := by
            simp
          rcases h2 : instantiateProviderF (fun d r w' => resolveF f ci d r w')
              (Prov.factory provide body arity deps lt)
              (resAdd [] (Prov.factory provide body arity deps lt).provide) w
            with ⟨r2, w2, res2⟩
          cases r2 with
          | ok v =>
            simp only [resolveF, hl, hc, if_neg hmem, h2] at h
            by_cases hs : (Prov.factory provide body arity deps lt).effLifetime = Lifetime.singleton
            · rw [if_pos hs] at h
              cases h
            · rw [if_neg hs] at h
              cases h
          | error e2 =>
            have hP := instantiate_prot_error t (fun d r w' => resolveF f ci d r w')
              (fun d r w' => (resolveF_inv f ci d r w').1)
              (fun d r w' hm => resolveF_protected f ci d r w' t hm)
              (Prov.factory provide body arity deps lt)
              (resAdd [] (Prov.factory provide body arity deps lt).provide) w e2 w2 res2
              (by
                show t ∈ resAdd [] (Prov.factory provide body arity deps lt).provide
                rw [show (Prov.factory provide body arity deps lt).provide = t from hpt]
                exact resAdd_mem_self [] t)
              h2
            simp only [resolveF, hl, hc, if_neg hmem, h2] at h
            cases h
            exact hP.1 i hnone

/-! ## Success-path lemmas -/

/-- A value provider resolves to its value with no state change. -/
theorem resolveF_value (f ci : Nat) (t : Token) (res : List Token) (w : World)
    (t' : Token) (v : Value) (o : Nat)
    (hl : lookupProvider w ci t = some (.value t' v, o)) :
    resolveF (f + 1) ci t res w = (.ok v, w, res) := by
  simp only [resolveF, hl]

/-- A cached singleton is returned from its owning container with no state
change. -/
theorem resolveF_cached (f ci : Nat) (t : Token) (res : List Token) (w : World)
    (p : Prov) (o : Nat) (v : Value)
    (hl : lookupProvider w ci t = some (p, o))
    (hval : p.isValue = false)
    (hsing : p.effLifetime = Lifetime.singleton)
    (hpt : p.provide = t)
    (hcache : instAt w o t = some v) :
    resolveF (f + 1) ci t res w = (.ok v, w, res) := by
  have hcache' : (if p.effLifetime = Lifetime.singleton
      then alGet? (instancesAt w o) p.provide else none) = some v := by
    rw [if_pos hsing, hpt]
    exact hcache
  cases p with
  | value t'' v' => simp [Prov.isValue] at hval
  | cls provide cid deps lt => simp only [resolveF, hl, hcache']
  | factory provide body arity deps lt => simp only [resolveF, hl, hcache']

/-- A successful resolution of a singleton provider leaves the instance
cached in the owning container. -/
theorem resolveF_success_caches (f ci : Nat) (t : Token) (res : List Token)
    (w : World) (p : Prov) (o : Nat) (v : Value) (w1 : World) (res1 : List Token)
    (hl : lookupProvider w ci t = some (p, o))
    (hval : p.isValue = false)
    (hsing : p.effLifetime = Lifetime.singleton)
    (hpt : p.provide = t)
    (h : resolveF (f + 1) ci t res w = (.ok v, w1, res1)) :
    instAt w1 o t = some v := by
  have hol : o < w.containers.length := (lookupF_some_spec _ _ _ _ _ _ hl).2
  cases p with
  | value t'' v' => simp [Prov.isValue] at hval
  | cls provide cid deps lt =>
    cases hc : (if (Prov.cls provide cid deps lt).effLifetime = Lifetime.singleton
        then alGet? (instancesAt w o) (Prov.cls provide cid deps lt).provide
        else none) with
    | some v0 =>
      simp only [resolveF, hl, hc] at h
      obtain ⟨hv, hw, _⟩ := Prod.mk.injEq .. ▸ h
      cases h
      rw [if_pos hsing] at hc
      rw [instAt, ← hpt]
      exact hc
    | none =>
      by_cases hmem : (Prov.cls provide cid deps lt).provide ∈ res
      · simp only [resolveF, hl, hc, if_pos hmem] at h
        cases h
      · rcases h2 : instantiateProviderF (fun d r w' => resolveF f ci d r w')
            (Prov.cls provide cid deps lt)
            (resAdd res (Prov.cls provide cid deps lt).provide) w
          with ⟨r2, w2, res2⟩
        have hlen2 : w2.containers.length = w.containers.length := by
          have := (instantiate_inv (fun d r w' => resolveF f ci d r w')
            (fun d r w' => resolveF_inv f ci d r w')
            (Prov.cls provide cid deps lt)
            (resAdd res (Prov.cls provide cid deps lt).provide) w).2.1
          rw [h2] at this
          exact this
        cases r2 with
        | ok v2 =>
          simp only [resolveF, hl, hc, if_neg hmem, h2, if_pos hsing] at h
          cases h
          rw [← hpt]
          exact cacheWrite_instAt_self w2 o _ v (by omega)
        | error e =>
          simp only [resolveF, hl, hc, if_neg hmem, h2] at h
          cases h
  | factory provide body arity deps lt =>
    cases hc : (if (Prov.factory provide body arity deps lt).effLifetime = Lifetime.singleton
        then alGet? (instancesAt w o) (Prov.factory provide body arity deps lt).provide
        else none) with
    | some v0 =>
      simp only [resolveF, hl, hc] at h
      cases h
      rw [if_pos hsing] at hc
      rw [instAt, ← hpt]
      exact hc
    | none =>
      by_cases hmem : (Prov.factory provide body arity deps lt).provide ∈ res
      · simp only [resolveF, hl, hc, if_pos hmem] at h
        cases h
      · rcases h2 : instantiateProviderF (fun d r w' => resolveF f ci d r w')
            (Prov.factory provide body arity deps lt)
            (resAdd res (Prov.factory provide body arity deps lt).provide) w
          with ⟨r2, w2, res2⟩
        have hlen2 : w2.containers.length = w.containers.length := by
          have := (instantiate_inv (fun d r w' => resolveF f ci d r w')
            (fun d r w' => resolveF_inv f ci d r w')
            (Prov.factory provide body arity deps lt)
            (resAdd res (Prov.factory provide body arity deps lt).provide) w).2.1
          rw [h2] at this
          exact this
        cases r2 with
        | ok v2 =>
          simp only [resolveF, hl, hc, if_neg hmem, h2, if_pos hsing] at h
          cases h
          rw [← hpt]
          exact cacheWrite_instAt_self w2 o _ v (by omega)
        | error e =>
          simp only [resolveF, hl, hc, if_neg hmem, h2] at h
          cases h

/-! ## Claim theorems -/

/-- C2: for every token that is not a class constructor and for which no
provider is registered in the container or any ancestor (`has` is false),
`get` throws the missing-provider error; the message names the missing token
and, when thrown while other tokens are being resolved (`resolving`
nonempty), includes the chain of their names; the state is unchanged. -/
theorem C2_missing_provider_error (w : World) (ci : Nat) (t : Token)
    (hctor : isCtorToken t = false) (hno : hasC w ci t = false) :
    (∀ (f : Nat) (res : List Token),
      resolveF (f + 1) ci t res w =
        (.error (mkMissingMsg (getTokenName t) (res.map getTokenName)), w, res)) ∧
    (∀ f : Nat,
      getF (f + 1) w ci t = (.error (mkMissingMsg (getTokenName t) []), w)) := by
  have hlook : lookupProvider w ci t = none := by
    rw [hasC_eq_lookupProvider_isSome] at hno
    cases h : lookupProvider w ci t with
    | none => rfl
    | some pr => rw [h] at hno; simp at hno
  have h1 : ∀ (f : Nat) (res : List Token),
      resolveF (f + 1) ci t res w =
        (.error (mkMissingMsg (getTokenName t) (res.map getTokenName)), w, res) := by
    intro f res
    cases t with
    | str s => simp [resolveF, hlook]
    | sym id d => simp [resolveF, hlook]
    | ctor cid nm => simp [isCtorToken] at hctor
  refine ⟨h1, ?_⟩
  intro f
  show ((resolveF (f + 1) ci t [] w).1, (resolveF (f + 1) ci t [] w).2.1) = _
  rw [h1 f []]
  rfl

/-- C2 witness: a token with no provider anywhere, requested directly and
during another token's resolution. -/
theorem C2_missing_provider_error_witness :
    isCtorToken (Token.str "Database") = false ∧
    hasC ⟨[], [], 0, []⟩ 0 (Token.str "Database") = false ∧
    resolveF 1 0 (Token.str "Database") [Token.str "App"] ⟨[], [], 0, []⟩ =
      (.error (mkMissingMsg "Database" ["App"]), ⟨[], [], 0, []⟩,
       [Token.str "App"]) ∧
    getF 1 ⟨[], [], 0, []⟩ 0 (Token.str "Database") =
      (.error (mkMissingMsg "Database" []), ⟨[], [], 0, []⟩) := by
  refine ⟨rfl, rfl, ?_, ?_⟩
  · exact (C2_missing_provider_error ⟨[], [], 0, []⟩ 0 (Token.str "Database")
      rfl rfl).1 0 [Token.str "App"]
  · exact (C2_missing_provider_error ⟨[], [], 0, []⟩ 0 (Token.str "Database")
      rfl rfl).2 0

/-- C4: hierarchical containers.  (i) A provider registered in the child
shadows any ancestor registration: lookup returns the child's provider with
the child as owner.  (ii) `createChild` makes an empty container whose
parent is the given container.  (iii) When a child resolves a token whose
provider lives in an ancestor `o` (the lookup's owner), a successful
singleton resolution caches the instance in `o`, the provider remains
visible unchanged, and afterwards the owner itself, the resolving child, and
any container whose lookup reaches the same entry all `get` the very same
cached instance with no further state change. -/
theorem C4_hierarchical_resolution :
    (∀ (w : World) (ci : Nat) (t : Token) (p : Prov),
      alGet? (providersAt w ci) t = some p →
      lookupProvider w ci t = some (p, ci)) ∧
    (∀ (w : World) (ci : Nat),
      providersAt (createChild w ci).1 (createChild w ci).2 = [] ∧
      parentAt (createChild w ci).1 (createChild w ci).2 = some ci) ∧
    (∀ (f ci : Nat) (t : Token) (w : World) (p : Prov) (o : Nat) (v : Value)
        (w1 : World) (rs : List Token),
      lookupProvider w ci t = some (p, o) →
      p.isValue = false → p.effLifetime = Lifetime.singleton → p.provide = t →
      resolveF (f + 1) ci t [] w = (.ok v, w1, rs) →
      instAt w1 o t = some v ∧
      lookupProvider w1 ci t = some (p, o) ∧
      (∀ (f' : Nat) (res' : List Token) (d : Nat),
        lookupProvider w1 d t = some (p, o) →
        resolveF (f' + 1) d t res' w1 = (.ok v, w1, res')) ∧
      (∀ (f' : Nat) (res' : List Token),
        resolveF (f' + 1) o t res' w1 = (.ok v, w1, res')) ∧
      (∀ (f' : Nat) (res' : List Token),
        resolveF (f' + 1) ci t res' w1 = (.ok v, w1, res'))) := by
  refine ⟨?_, ?_, ?_⟩
  · intro w ci t p h
    exact lookupProvider_first_hit w ci t p h
  · intro w ci
    constructor
    · show ((createChild w ci).1.containers.getD w.containers.length
        ⟨[], [], none⟩).providers = []
      rw [show (createChild w ci).1.containers = w.containers ++ [⟨[], [], some ci⟩] from rfl]
      rw [getD_append_length]
    · show ((createChild w ci).1.containers.getD w.containers.length
        ⟨[], [], none⟩).parent = some ci
      rw [show (createChild w ci).1.containers = w.containers ++ [⟨[], [], some ci⟩] from rfl]
      rw [getD_append_length]
  · intro f ci t w p o v w1 rs hl hval hsing hpt hsucc
    have hcache : instAt w1 o t = some v :=
      resolveF_success_caches f ci t [] w p o v w1 rs hl hval hsing hpt hsucc
    have hlook1 : lookupProvider w1 ci t = some (p, o) := by
      have := resolveF_lookup_preserved (f + 1) ci t [] w t p o hl
      rw [hsucc] at this
      exact this
    have hownerGet : alGet? (providersAt w1 o) t = some p :=
      (lookupF_some_spec _ _ _ _ _ _ hlook1).1
    have hlookOwner : lookupProvider w1 o t = some (p, o) := by
      have h0 := lookupProvider_first_hit w1 o t p hownerGet
      exact h0
    refine ⟨hcache, hlook1, ?_, ?_, ?_⟩
    · intro f' res' d hd
      exact resolveF_cached f' d t res' w1 p o v hd hval hsing hpt hcache
    · intro f' res'
      exact resolveF_cached f' o t res' w1 p o v hlookOwner hval hsing hpt hcache
    · intro f' res'
      exact resolveF_cached f' ci t res' w1 p o v hlook1 hval hsing hpt hcache

/-- C4 witness: a child container resolves `S` through its parent; the
singleton is cached in the parent and shared afterwards. -/
theorem C4_hierarchical_resolution_witness :
    lookupProvider exW4c 1 (Token.str "S") =
      some (Prov.factory (Token.str "S") FSpec.mkFresh 0 none none, 0) ∧
    resolveF 2 1 (Token.str "S") [] exW4c = (.ok (Value.obj 0), exW4r, []) ∧
    instAt exW4r 0 (Token.str "S") = some (Value.obj 0) ∧
    resolveF 1 0 (Token.str "S") [] exW4r = (.ok (Value.obj 0), exW4r, []) ∧
    resolveF 1 1 (Token.str "S") [] exW4r = (.ok (Value.obj 0), exW4r, []) := by
  have happ := C4_hierarchical_resolution.2.2 1 1 (Token.str "S") exW4c
    (Prov.factory (Token.str "S") FSpec.mkFresh 0 none none) 0 (Value.obj 0)
    exW4r [] rfl rfl rfl rfl rfl
  exact ⟨rfl, rfl, happ.1, happ.2.2.2.1 0 [], happ.2.2.2.2 0 []⟩

/-- A one-container world is provider-well-formed when its single provider
map is. -/
theorem WFProv_single (c : Container)
    (hc : ∀ k p, alGet? c.providers k = some p → p.provide = k)
    (cls : List ClassInfo) (no : Nat) (calls : List (Token × Value)) :
    WFProv ⟨[c], cls, no, calls⟩ := by
  intro i k p hp
  cases i with
  | zero => exact hc k p hp
  | succ n =>
    have hnil : providersAt (⟨[c], cls, no, calls⟩ : World) (n + 1) = [] := rfl
    rw [hnil] at hp
    simp [alGet?] at hp

/-- C10 helper: resolving a registered failing factory (no deps) throws the
wrapped factory error and leaves the world entirely unchanged, so a
subsequent `get` re-attempts resolution identically. -/
theorem resolveF_failing_factory (f ci : Nat) (t : Token) (res : List Token)
    (w : World) (o : Nat) (m : String) (lt : Option Lifetime)
    (hl : lookupProvider w ci t = some (.factory t (.fail m) 0 none lt, o))
    (hnc : instAt w o t = none) (hmem : t ∉ res) :
    resolveF (f + 1) ci t res w =
      (.error (mkFactoryFailMsg (getTokenName t) m []), w, res) := by
  have hc : (if (Prov.factory t (.fail m) 0 none lt).effLifetime = Lifetime.singleton
      then alGet? (instancesAt w o) (Prov.factory t (.fail m) 0 none lt).provide
      else none) = none := by
    by_cases hs : (Prov.factory t (.fail m) 0 none lt).effLifetime = Lifetime.singleton
    · rw [if_pos hs]
      exact hnc
    · rw [if_neg hs]
  have hmem' : (Prov.factory t (.fail m) 0 none lt).provide ∉ res := hmem
  have hinst : instantiateProviderF (fun d r w' => resolveF f ci d r w')
      (Prov.factory t (.fail m) 0 none lt)
      (resAdd res (Prov.factory t (.fail m) 0 none lt).provide) w =
      (.error (mkFactoryFailMsg (getTokenName t) m []), w,
       resAdd res (Prov.factory t (.fail m) 0 none lt).provide) := by
    simp [instantiateProviderF, resolveList, runBody]
  simp only [resolveF, hl, hc, if_neg hmem', hinst]
  rw [show (Prov.factory t (.fail m) 0 none lt).provide = t from rfl,
    resAdd_not_mem _ _ hmem, erase_appended _ _ hmem]

/-- A successful instantiation of a non-value provider whose `provide` token
is in the resolving set appends exactly one invocation event for that token,
recording the produced instance. -/
theorem instantiate_success_logs (t : Token)
    (rf : Token → List Token → World → Except String Value × World × List Token)
    (hres : ∀ d res w, (rf d res w).2.2 = res)
    (hrf : ∀ d res w, t ∈ res → Prot t w (rf d res w).2.1)
    (p : Prov) (res : List Token) (w : World) (v : Value) (w2 : World)
    (res2 : List Token)
    (ht : t ∈ res) (hpt : p.provide = t) (hval : p.isValue = false)
    (h : instantiateProviderF rf p res w = (.ok v, w2, res2)) :
    w2.calls.filter (fun e => e.1 = t) =
      (t, v) :: w.calls.filter (fun e => e.1 = t) := by
  cases p with
  | value t' v' => simp [Prov.isValue] at hval
  | cls provide cid deps lt =>
    have hpt' : provide = t := hpt
    have h1P := resolveList_prot t rf hres hrf
      (deps.getD (((w.classes.getD cid ⟨none, .fail "invalid class"⟩).inject).getD []))
      res w ht
    rcases h1 : resolveList rf
        (deps.getD (((w.classes.getD cid ⟨none, .fail "invalid class"⟩).inject).getD []))
        res w with ⟨r1, w1, res1⟩
    rw [h1] at h1P
    simp only at h1P
    cases r1 with
    | error e =>
      simp only [instantiateProviderF, h1] at h
      cases h
    | ok vs =>
      rcases h2 : runBody (w.classes.getD cid ⟨none, .fail "invalid class"⟩).body w1
        with ⟨r2, w2'⟩
      have h2calls : w2'.calls = w1.calls := by
        have := runBody_calls (w.classes.getD cid ⟨none, .fail "invalid class"⟩).body w1
        rw [h2] at this
        exact this
      cases r2 with
      | error m =>
        simp only [instantiateProviderF, h1, h2] at h
        cases h
      | ok v2 =>
        simp only [instantiateProviderF, h1, h2] at h
        cases h
        simp only [List.filter_cons, hpt']
        rw [if_pos (by simp), h2calls, h1P.2]
  | factory provide body arity deps lt =>
    have hpt' : provide = t := hpt
    have h1P := resolveList_prot t rf hres hrf (deps.getD []) res w ht
    rcases h1 : resolveList rf (deps.getD []) res w with ⟨r1, w1, res1⟩
    rw [h1] at h1P
    simp only at h1P
    cases r1 with
    | error e =>
      simp only [instantiateProviderF, h1] at h
      cases h
    | ok vs =>
      by_cases hnum : arity > 0 ∧ vs.length ≠ arity
      · simp only [instantiateProviderF, h1, if_pos hnum] at h
        cases h
      · rcases h2 : runBody body w1 with ⟨r2, w2'⟩
        have h2calls : w2'.calls = w1.calls := by
          have := runBody_calls body w1
          rw [h2] at this
          exact this
        cases r2 with
        | error m =>
          simp only [instantiateProviderF, h1, if_neg hnum, h2] at h
          cases h
        | ok v2 =>
          simp only [instantiateProviderF, h1, if_neg hnum, h2] at h
          cases h
          simp only [List.filter_cons, hpt']
          rw [if_pos (by simp), h2calls, h1P.2]

/-- A successful resolution that actually instantiates (transient lifetime,
or no cached instance yet) appends exactly one invocation event for the
token, recording the returned instance. -/
theorem resolveF_success_invokes (f ci : Nat) (t : Token) (res : List Token)
    (w : World) (p : Prov) (o : Nat) (v : Value) (w1 : World) (res1 : List Token)
    (hl : lookupProvider w ci t = some (p, o))
    (hval : p.isValue = false)
    (hpt : p.provide = t)
    (hfresh : p.effLifetime = Lifetime.transient ∨ instAt w o t = none)
    (h : resolveF (f + 1) ci t res w = (.ok v, w1, res1)) :
    w1.calls.filter (fun e => e.1 = t) =
      (t, v) :: w.calls.filter (fun e => e.1 = t) := by
  have hc : (if p.effLifetime = Lifetime.singleton
      then alGet? (instancesAt w o) p.provide else none) = none := by
    rcases hfresh with htr | hnc
    · rw [htr]
      simp
    · by_cases hs : p.effLifetime = Lifetime.singleton
      · rw [if_pos hs, hpt]
        exact hnc
      · rw [if_neg hs]
  have hlog : ∀ (q : Prov), q = p → q.provide ∉ res →
      ∀ r2 w2 res2, instantiateProviderF (fun d r w' => resolveF f ci d r w')
          q (resAdd res q.provide) w = (r2, w2, res2) →
        r2 = .ok v → w1.calls = w2.calls →
        w1.calls.filter (fun e => e.1 = t) =
          (t, v) :: w.calls.filter (fun e => e.1 = t) := by
    intro q hq hmem r2 w2 res2 h2 hr2 hcalls
    subst hq
    subst hr2
    have := instantiate_success_logs t (fun d r w' => resolveF f ci d r w')
      (fun d r w' => (resolveF_inv f ci d r w').1)
      (fun d r w' hm => resolveF_protected f ci d r w' t hm)
      q (resAdd res q.provide) w v w2 res2
      (by rw [hpt]; exact resAdd_mem_self res t)
      hpt hval h2
    rw [hcalls]
    exact this
  cases p with
  | value t'' v' => simp [Prov.isValue] at hval
  | cls provide cid deps lt =>
    by_cases hmem : (Prov.cls provide cid deps lt).provide ∈ res
    · simp only [resolveF, hl, hc, if_pos hmem] at h
      cases h
    · rcases h2 : instantiateProviderF (fun d r w' => resolveF f ci d r w')
          (Prov.cls provide cid deps lt)
          (resAdd res (Prov.cls provide cid deps lt).provide) w
        with ⟨r2, w2, res2⟩
      cases r2 with
      | ok v2 =>
        simp only [resolveF, hl, hc, if_neg hmem, h2] at h
        have hv2 : v2 = v := by
          by_cases hs : (Prov.cls provide cid deps lt).effLifetime = Lifetime.singleton
          · rw [if_pos hs] at h
            cases h; rfl
          · rw [if_neg hs] at h
            cases h; rfl
        subst hv2
        have hcalls : w1.calls = w2.calls := by
          by_cases hs : (Prov.cls provide cid deps lt).effLifetime = Lifetime.singleton
          · rw [if_pos hs] at h
            cases h
            rw [cacheWrite_calls]
          · rw [if_neg hs] at h
            cases h
            rfl
        exact hlog (Prov.cls provide cid deps lt) rfl hmem _ _ _ h2 rfl hcalls
      | error e =>
        simp only [resolveF, hl, hc, if_neg hmem, h2] at h
        cases h
  | factory provide body arity deps lt =>
    by_cases hmem : (Prov.factory provide body arity deps lt).provide ∈ res
    · simp only [resolveF, hl, hc, if_pos hmem] at h
      cases h
    · rcases h2 : instantiateProviderF (fun d r w' => resolveF f ci d r w')
          (Prov.factory provide body arity deps lt)
          (resAdd res (Prov.factory provide body arity deps lt).provide) w
        with ⟨r2, w2, res2⟩
      cases r2 with
      | ok v2 =>
        simp only [resolveF, hl, hc, if_neg hmem, h2] at h
        have hv2 : v2 = v := by
          by_cases hs : (Prov.factory provide body arity deps lt).effLifetime = Lifetime.singleton
          · rw [if_pos hs] at h
            cases h; rfl
          · rw [if_neg hs] at h
            cases h; rfl
        subst hv2
        have hcalls : w1.calls = w2.calls := by
          by_cases hs : (Prov.factory provide body arity deps lt).effLifetime = Lifetime.singleton
          · rw [if_pos hs] at h
            cases h
            rw [cacheWrite_calls]
          · rw [if_neg hs] at h
            cases h
            rfl
        exact hlog (Prov.factory provide body arity deps lt) rfl hmem _ _ _ h2 rfl hcalls
      | error e =>
        simp only [resolveF, hl, hc, if_neg hmem, h2] at h
        cases h

/-- C3: lifetimes.  (i) For a singleton provider (explicit `"singleton"` or
unspecified — `effLifetime` applies the default), after a successful `get`,
every further `get` returns the same instance with no state change, so the
factory/constructor is not invoked again.  (ii) A successful `get` that
actually instantiates (the provider is transient, or singleton and not yet
cached) logs exactly one new invocation of this provider, whose produced
instance is the returned value; for transient providers this applies to
every `get`, so each call invokes the factory anew and returns that fresh
result. -/
theorem C3_singleton_transient_lifetimes :
    (∀ (f f' ci : Nat) (t : Token) (w : World) (p : Prov) (o : Nat) (v : Value)
        (w1 : World) (rs : List Token),
      lookupProvider w ci t = some (p, o) →
      p.isValue = false → p.effLifetime = Lifetime.singleton → p.provide = t →
      resolveF (f + 1) ci t [] w = (.ok v, w1, rs) →
      getF (f' + 1) w1 ci t = (.ok v, w1)) ∧
    (∀ (f ci : Nat) (t : Token) (w : World) (p : Prov) (o : Nat) (v : Value)
        (w1 : World) (rs : List Token),
      lookupProvider w ci t = some (p, o) →
      p.isValue = false → p.provide = t →
      (p.effLifetime = Lifetime.transient ∨ instAt w o t = none) →
      resolveF (f + 1) ci t [] w = (.ok v, w1, rs) →
      w1.calls.filter (fun e => e.1 = t) =
        (t, v) :: w.calls.filter (fun e => e.1 = t)) := by
  constructor
  · intro f f' ci t w p o v w1 rs hl hval hsing hpt hsucc
    have hcache : instAt w1 o t = some v :=
      resolveF_success_caches f ci t [] w p o v w1 rs hl hval hsing hpt hsucc
    have hlook1 : lookupProvider w1 ci t = some (p, o) := by
      have := resolveF_lookup_preserved (f + 1) ci t [] w t p o hl
      rw [hsucc] at this
      exact this
    have hrep := resolveF_cached f' ci t [] w1 p o v hlook1 hval hsing hpt hcache
    show ((resolveF (f' + 1) ci t [] w1).1, (resolveF (f' + 1) ci t [] w1).2.1) = _
    rw [hrep]
  · intro f ci t w p o v w1 rs hl hval hpt hfresh hsucc
    exact resolveF_success_invokes f ci t [] w p o v w1 rs hl hval hpt hfresh hsucc

/-- C3 witness: the singleton `S` is created once and then served from the
cache; the transient `T` is freshly created, uncached, logging one
invocation per `get`. -/
theorem C3_singleton_transient_lifetimes_witness :
    lookupProvider exW3 0 (Token.str "S") =
      some (Prov.factory (Token.str "S") FSpec.mkFresh 0 none none, 0) ∧
    resolveF 2 0 (Token.str "S") [] exW3 = (.ok (Value.obj 0), exW3s, []) ∧
    getF 1 exW3s 0 (Token.str "S") = (.ok (Value.obj 0), exW3s) ∧
    resolveF 2 0 (Token.str "T") [] exW3s = (.ok (Value.obj 1), exW3t, []) ∧
    exW3t.calls.filter (fun e => e.1 = Token.str "T") =
      (Token.str "T", Value.obj 1) ::
        exW3s.calls.filter (fun e => e.1 = Token.str "T") := by
  refine ⟨rfl, rfl, ?_, rfl, ?_⟩
  · exact C3_singleton_transient_lifetimes.1 1 0 0 (Token.str "S") exW3
      (Prov.factory (Token.str "S") FSpec.mkFresh 0 none none) 0 (Value.obj 0)
      exW3s [] rfl rfl rfl rfl rfl
  · exact C3_singleton_transient_lifetimes.2 1 0 (Token.str "T") exW3s
      (Prov.factory (Token.str "T") FSpec.mkFresh 0 none (some .transient)) 0
      (Value.obj 1) exW3t [] rfl rfl rfl (Or.inl rfl) rfl

/-- C9: for a class-constructor token with no provider registered anywhere,
`get` does not throw the missing-provider error: it auto-registers the
constructor as a class provider under its own token (with no `deps`, so
dependencies come from the class's static `inject`, defaulting to none, and
no explicit lifetime, so the singleton default applies) and retries; for a
dependency-free constructor the retry returns a freshly allocated instance,
caches it as a singleton, logs exactly one constructor invocation, and every
subsequent `get` returns the same instance with no state change. -/
theorem C9_constructor_auto_registration (w : World) (ci cid : Nat) (nm : String)
    (hno : lookupProvider w ci (.ctor cid nm) = none)
    (hci : ci < w.containers.length)
    (hcls : w.classes.getD cid ⟨none, .fail "invalid class"⟩ =
      ⟨none, FSpec.mkFresh⟩) :
    (∀ (f' ci' cid' : Nat) (nm' : String) (res : List Token) (w0 : World),
      lookupProvider w0 ci' (.ctor cid' nm') = none →
      resolveF (f' + 1) ci' (.ctor cid' nm') res w0 =
        resolveF f' ci' (.ctor cid' nm') res
          (registerC w0 ci' (.cls (.ctor cid' nm') cid' none none))) ∧
    (∀ f : Nat, ∃ w1 : World,
      getF (f + 1 + 1) w ci (.ctor cid nm) = (.ok (.obj w.nextObj), w1) ∧
      alGet? (providersAt w1 ci) (.ctor cid nm) =
        some (.cls (.ctor cid nm) cid none none) ∧
      instAt w1 ci (.ctor cid nm) = some (.obj w.nextObj) ∧
      w1.calls = (Token.ctor cid nm, Value.obj w.nextObj) :: w.calls ∧
      (∀ f', getF (f' + 1) w1 ci (.ctor cid nm) = (.ok (.obj w.nextObj), w1))) := by
  constructor
  · intro f' ci' cid' nm' res w0 h0
    simp only [resolveF, h0]
  · intro f
    have hregGet : alGet? (providersAt
        (registerC w ci (.cls (.ctor cid nm) cid none none)) ci) (.ctor cid nm) =
        some (.cls (.ctor cid nm) cid none none) := by
      rw [registerC_providersAt_self w ci _ hci]
      exact alGet?_set_self _ _ _
    have hlookR : lookupProvider
        (registerC w ci (.cls (.ctor cid nm) cid none none)) ci (.ctor cid nm) =
        some (.cls (.ctor cid nm) cid none none, ci) :=
      lookupProvider_first_hit _ ci _ _ hregGet
    have hinstR : instAt (registerC w ci (.cls (.ctor cid nm) cid none none)) ci
        (.ctor cid nm) = none :=
      registerC_instAt_self_nonvalue w ci (.cls (.ctor cid nm) cid none none) rfl hci
    have hinfo : (registerC w ci
        (.cls (.ctor cid nm) cid none none)).classes.getD cid
          ⟨none, .fail "invalid class"⟩ = ⟨none, FSpec.mkFresh⟩ := by
      rw [registerC_classes]
      exact hcls
    have hinst : instantiateProviderF
        (fun d r w' => resolveF f ci d r w')
        (.cls (.ctor cid nm) cid none none)
        [Token.ctor cid nm]
        (registerC w ci (.cls (.ctor cid nm) cid none none)) =
        (.ok (Value.obj w.nextObj),
         ⟨(registerC w ci (.cls (.ctor cid nm) cid none none)).containers,
          w.classes, w.nextObj + 1,
          (Token.ctor cid nm, Value.obj w.nextObj) :: w.calls⟩,
         [Token.ctor cid nm]) := by
      simp only [instantiateProviderF, registerC_classes, hcls, Option.getD_none,
        resolveList, runBody, registerC_nextObj, registerC_calls]
    have hc : (if (Prov.cls (.ctor cid nm) cid none none).effLifetime =
          Lifetime.singleton
        then alGet? (instancesAt
          (registerC w ci (.cls (.ctor cid nm) cid none none)) ci)
          (Prov.cls (.ctor cid nm) cid none none).provide
        else none) = none := hinstR
    have hmem : (Prov.cls (Token.ctor cid nm) cid none none).provide ∉
        ([] : List Token) := by
      simp
    have hres1 : resAdd []
        (Prov.cls (Token.ctor cid nm) cid none none).provide =
        [Token.ctor cid nm] := rfl
    have hstep : resolveF (f + 1) ci (.ctor cid nm) []
        (registerC w ci (.cls (.ctor cid nm) cid none none)) =
        (.ok (Value.obj w.nextObj),
         cacheWrite
           (⟨(registerC w ci (.cls (.ctor cid nm) cid none none)).containers,
             w.classes, w.nextObj + 1,
             (Token.ctor cid nm, Value.obj w.nextObj) :: w.calls⟩ : World)
           ci (Token.ctor cid nm) (Value.obj w.nextObj),
         []) := by
      simp only [resolveF, hlookR, hc, if_neg hmem, hres1, hinst]
      rw [if_pos (show (Prov.cls (Token.ctor cid nm) cid none none).effLifetime =
        Lifetime.singleton from rfl)]
      rw [show (Prov.cls (Token.ctor cid nm) cid none none).provide =
        Token.ctor cid nm from rfl]
      rw [List.erase_cons_head]
    have hrun : resolveF (f + 1 + 1) ci (.ctor cid nm) [] w =
        (.ok (Value.obj w.nextObj),
         cacheWrite
           (⟨(registerC w ci (.cls (.ctor cid nm) cid none none)).containers,
             w.classes, w.nextObj + 1,
             (Token.ctor cid nm, Value.obj w.nextObj) :: w.calls⟩ : World)
           ci (Token.ctor cid nm) (Value.obj w.nextObj),
         []) := by
      simp only [resolveF, hno]
      exact hstep
    refine ⟨cacheWrite
        (⟨(registerC w ci (.cls (.ctor cid nm) cid none none)).containers,
          w.classes, w.nextObj + 1,
          (Token.ctor cid nm, Value.obj w.nextObj) :: w.calls⟩ : World)
        ci (Token.ctor cid nm) (Value.obj w.nextObj), ?_, ?_, ?_, ?_, ?_⟩
    · show ((resolveF (f + 1 + 1) ci (.ctor cid nm) [] w).1,
        (resolveF (f + 1 + 1) ci (.ctor cid nm) [] w).2.1) = _
      rw [hrun]
    · rw [cacheWrite_providersAt]
      exact hregGet
    · apply cacheWrite_instAt_self
      show ci < (registerC w ci (.cls (.ctor cid nm) cid none none)).containers.length
      rw [registerC_length]
      exact hci
    · rw [cacheWrite_calls]
    · intro f'
      have hlook1 : lookupProvider
          (cacheWrite
            (⟨(registerC w ci (.cls (.ctor cid nm) cid none none)).containers,
              w.classes, w.nextObj + 1,
              (Token.ctor cid nm, Value.obj w.nextObj) :: w.calls⟩ : World)
            ci (Token.ctor cid nm) (Value.obj w.nextObj)) ci (.ctor cid nm) =
          some (.cls (.ctor cid nm) cid none none, ci) := by
        apply lookupProvider_first_hit
        rw [cacheWrite_providersAt]
        exact hregGet
      have hcache : instAt
          (cacheWrite
            (⟨(registerC w ci (.cls (.ctor cid nm) cid none none)).containers,
              w.classes, w.nextObj + 1,
              (Token.ctor cid nm, Value.obj w.nextObj) :: w.calls⟩ : World)
            ci (Token.ctor cid nm) (Value.obj w.nextObj)) ci (.ctor cid nm) =
          some (Value.obj w.nextObj) := by
        apply cacheWrite_instAt_self
        show ci < (registerC w ci (.cls (.ctor cid nm) cid none none)).containers.length
        rw [registerC_length]
        exact hci
      have hrep := resolveF_cached f' ci (.ctor cid nm) []
        (cacheWrite
          (⟨(registerC w ci (.cls (.ctor cid nm) cid none none)).containers,
            w.classes, w.nextObj + 1,
            (Token.ctor cid nm, Value.obj w.nextObj) :: w.calls⟩ : World)
          ci (Token.ctor cid nm) (Value.obj w.nextObj))
        (.cls (.ctor cid nm) cid none none) ci (Value.obj w.nextObj)
        hlook1 rfl rfl rfl hcache
      show ((resolveF (f' + 1) ci (.ctor cid nm) [] _).1,
        (resolveF (f' + 1) ci (.ctor cid nm) [] _).2.1) = _
      rw [hrep]

/-- C9 witness: a bare constructor token resolved against a world that has
its class but no provider. -/
theorem C9_constructor_auto_registration_witness :
    lookupProvider ⟨[⟨[], [], none⟩], [⟨none, FSpec.mkFresh⟩], 0, []⟩ 0
      (.ctor 0 "Svc") = none ∧
    (0 : Nat) < (⟨[⟨[], [], none⟩], [⟨none, FSpec.mkFresh⟩], 0, []⟩ : World).containers.length ∧
    ∃ w1 : World,
      getF 2 ⟨[⟨[], [], none⟩], [⟨none, FSpec.mkFresh⟩], 0, []⟩ 0 (.ctor 0 "Svc") =
        (.ok (.obj 0), w1) ∧
      alGet? (providersAt w1 0) (.ctor 0 "Svc") =
        some (.cls (.ctor 0 "Svc") 0 none none) ∧
      instAt w1 0 (.ctor 0 "Svc") = some (.obj 0) ∧
      w1.calls = [(Token.ctor 0 "Svc", Value.obj 0)] ∧
      (∀ f', getF (f' + 1) w1 0 (.ctor 0 "Svc") = (.ok (.obj 0), w1)) := by
  refine ⟨rfl, by decide, ?_⟩
  exact (C9_constructor_auto_registration
    ⟨[⟨[], [], none⟩], [⟨none, FSpec.mkFresh⟩], 0, []⟩ 0 0 "Svc"
    rfl (by decide) rfl).2 0

theorem getD_append_left {α : Type} (l l' : List α) (i : Nat) (d : α)
    (h : i < l.length) : (l ++ l').getD i d = l.getD i d := by
  induction l generalizing i with
  | nil => simp at h
  | cons x xs ih =>
    cases i with
    | zero => rfl
    | succ n => exact ih n (by simpa using h)

/-- A cached singleton visible from `ci` stays visible and cached through
any resolution on `ci`: the cached-instance read answers every re-request
before any write could happen. -/
theorem resolveF_cached_preserved :
    ∀ (f ci : Nat) (t' : Token) (res : List Token) (w : World)
      (tk : Token) (p : Prov) (o : Nat) (v : Value),
      WFProv w →
      lookupProvider w ci tk = some (p, o) → p.provide = tk →
      p.isValue = false → p.effLifetime = Lifetime.singleton →
      instAt w o tk = some v →
      lookupProvider (resolveF f ci t' res w).2.1 ci tk = some (p, o) ∧
      instAt (resolveF f ci t' res w).2.1 o tk = some v := by
  intro f
  induction f with
  | zero => intro ci t' res w tk p o v _ h1 _ _ _ h2; exact ⟨h1, h2⟩
  | succ f ih =>
    intro ci t' res w tk p o v hwf h1 hpt hval hsing h2
    cases hl : lookupProvider w ci t' with
    | none =>
      cases t' with
      | str s =>
        simp only [resolveF, hl]
        exact ⟨h1, h2⟩
      | sym id d =>
        simp only [resolveF, hl]
        exact ⟨h1, h2⟩
      | ctor cid nm =>
        have hne : tk ≠ (Token.ctor cid nm) := by
          intro hEq
          rw [hEq] at h1
          rw [h1] at hl
          cases hl
        have h1' : lookupProvider
            (registerC w ci (.cls (.ctor cid nm) cid none none)) ci tk = some (p, o) := by
          rw [lookupProvider_registerC_ne _ _ _ _ _ hne]
          exact h1
        have h2' : instAt
            (registerC w ci (.cls (.ctor cid nm) cid none none)) o tk = some v := by
          rw [registerC_instAt_ne _ _ _ _ _ hne]
          exact h2
        simp only [resolveF, hl]
        exact ih ci (.ctor cid nm) res _ tk p o v
          (registerC_WFProv w ci _ hwf) h1' hpt hval hsing h2'
    | some pr =>
      rcases pr with ⟨q, qo⟩
      have hqt : q.provide = t' :=
        hwf qo t' q (lookupF_some_spec _ _ _ _ _ _ hl).1
      have hP : ∀ pq res1 w1,
          (WFProv w1 ∧ lookupProvider w1 ci tk = some (p, o) ∧
            instAt w1 o tk = some v) →
          (WFProv (instantiateProviderF (fun d r w' => resolveF f ci d r w')
              pq res1 w1).2.1 ∧
           lookupProvider (instantiateProviderF (fun d r w' => resolveF f ci d r w')
              pq res1 w1).2.1 ci tk = some (p, o) ∧
           instAt (instantiateProviderF (fun d r w' => resolveF f ci d r w')
              pq res1 w1).2.1 o tk = some v) := by
        intro pq res1 w1 hin
        exact instantiate_pres
          (fun ww => WFProv ww ∧ lookupProvider ww ci tk = some (p, o) ∧
            instAt ww o tk = some v)
          (fun d r w' => resolveF f ci d r w')
          (fun d r w' hw => by
            obtain ⟨hw1, hw2, hw3⟩ := hw
            have := ih ci d r w' tk p o v hw1 hw2 hpt hval hsing hw3
            exact ⟨(resolveF_inv f ci d r w').2.2.2.2 hw1, this.1, this.2⟩)
          (fun b w' hw => by
            obtain ⟨hw1, hw2, hw3⟩ := hw
            have hcont := runBody_containers b w'
            refine ⟨WFProv_of_containers_eq hcont hw1, ?_, ?_⟩
            · show lookupProvider ((runBody b w').2) ci tk = some (p, o)
              rw [lookupProvider_eq_of_containers_eq hcont]
              exact hw2
            · show instAt ((runBody b w').2) o tk = some v
              rw [instAt, instancesAt, containerAt, hcont]
              exact hw3)
          (fun w' e hw => by
            obtain ⟨hw1, hw2, hw3⟩ := hw
            refine ⟨WFProv_of_containers_eq rfl hw1, ?_, hw3⟩
            exact (@lookupProvider_eq_of_containers_eq w'
              { w' with calls := e :: w'.calls } rfl ci tk).trans hw2)
          pq res1 w1 hin
      cases q with
      | value t'' v' =>
        simp only [resolveF, hl]
        exact ⟨h1, h2⟩
      | cls provide cid deps lt =>
        have hqt' : provide = t' := hqt
        cases hc : (if (Prov.cls provide cid deps lt).effLifetime = Lifetime.singleton
            then alGet? (instancesAt w qo) (Prov.cls provide cid deps lt).provide
            else none) with
        | some v0 =>
          simp only [resolveF, hl, hc]
          exact ⟨h1, h2⟩
        | none =>
          have hnet : t' ≠ tk := by
            intro hEq
            rw [hEq] at hl
            rw [hl] at h1
            cases h1
            rw [if_pos hsing] at hc
            rw [show (Prov.cls provide cid deps lt).provide = tk from hpt] at hc
            rw [instAt] at h2
            rw [h2] at hc
            cases hc
          by_cases hmem : (Prov.cls provide cid deps lt).provide ∈ res
          · simp only [resolveF, hl, hc, if_pos hmem]
            exact ⟨h1, h2⟩
          · rcases h3 : instantiateProviderF (fun d r w' => resolveF f ci d r w')
                (Prov.cls provide cid deps lt)
                (resAdd res (Prov.cls provide cid deps lt).provide) w
              with ⟨r3, w3, res3⟩
            have hP3 := hP (Prov.cls provide cid deps lt)
              (resAdd res (Prov.cls provide cid deps lt).provide) w ⟨hwf, h1, h2⟩
            rw [h3] at hP3
            simp only at hP3
            obtain ⟨hP3w, hP3l, hP3i⟩ := hP3
            cases r3 with
            | ok v3 =>
              simp only [resolveF, hl, hc, if_neg hmem, h3]
              by_cases hs :
                (Prov.cls provide cid deps lt).effLifetime = Lifetime.singleton
              · rw [if_pos hs]
                constructor
                · rw [lookupProvider_cacheWrite]
                  exact hP3l
                · rw [cacheWrite_instAt_ne]
                  · exact hP3i
                  · rw [show (Prov.cls provide cid deps lt).provide = t' from hqt']
                    exact Ne.symm hnet
              · rw [if_neg hs]
                exact ⟨hP3l, hP3i⟩
            | error e =>
              simp only [resolveF, hl, hc, if_neg hmem, h3]
              exact ⟨hP3l, hP3i⟩
      | factory provide body arity deps lt =>
        have hqt' : provide = t' := hqt
        cases hc : (if (Prov.factory provide body arity deps lt).effLifetime = Lifetime.singleton
            then alGet? (instancesAt w qo) (Prov.factory provide body arity deps lt).provide
            else none) with
        | some v0 =>
          simp only [resolveF, hl, hc]
          exact ⟨h1, h2⟩
        | none =>
          have hnet : t' ≠ tk := by
            intro hEq
            rw [hEq] at hl
            rw [hl] at h1
            cases h1
            rw [if_pos hsing] at hc
            rw [show (Prov.factory provide body arity deps lt).provide = tk from hpt] at hc
            rw [instAt] at h2
            rw [h2] at hc
            cases hc
          by_cases hmem : (Prov.factory provide body arity deps lt).provide ∈ res
          · simp only [resolveF, hl, hc, if_pos hmem]
            exact ⟨h1, h2⟩
          · rcases h3 : instantiateProviderF (fun d r w' => resolveF f ci d r w')
                (Prov.factory provide body arity deps lt)
                (resAdd res (Prov.factory provide body arity deps lt).provide) w
              with ⟨r3, w3, res3⟩
            have hP3 := hP (Prov.factory provide body arity deps lt)
              (resAdd res (Prov.factory provide body arity deps lt).provide) w ⟨hwf, h1, h2⟩
            rw [h3] at hP3
            simp only at hP3
            obtain ⟨hP3w, hP3l, hP3i⟩ := hP3
            cases r3 with
            | ok v3 =>
              simp only [resolveF, hl, hc, if_neg hmem, h3]
              by_cases hs :
                (Prov.factory provide body arity deps lt).effLifetime = Lifetime.singleton
              · rw [if_pos hs]
                constructor
                · rw [lookupProvider_cacheWrite]
                  exact hP3l
                · rw [cacheWrite_instAt_ne]
                  · exact hP3i
                  · rw [show (Prov.factory provide body arity deps lt).provide = t' from hqt']
                    exact Ne.symm hnet
              · rw [if_neg hs]
                exact ⟨hP3l, hP3i⟩
            | error e =>
              simp only [resolveF, hl, hc, if_neg hmem, h3]
              exact ⟨hP3l, hP3i⟩

/-- Resolution on container `c` never modifies another container's provider
map. -/
theorem resolveF_providers_frame :
    ∀ (f c : Nat) (t : Token) (res : List Token) (w : World) (i : Nat),
      i ≠ c → providersAt (resolveF f c t res w).2.1 i = providersAt w i := by
  intro f
  induction f with
  | zero => intro c t res w i _; rfl
  | succ f ih =>
    intro c t res w i hi
    cases hl : lookupProvider w c t with
    | none =>
      cases t with
      | str s => simp only [resolveF, hl]
      | sym id d => simp only [resolveF, hl]
      | ctor cid nm =>
        simp only [resolveF, hl]
        rw [ih c (.ctor cid nm) res _ i hi]
        rw [providersAt, registerC_containerAt_ne _ _ _ _ hi]
        rfl
    | some pr =>
      rcases pr with ⟨q, qo⟩
      have hP : ∀ pq res1 w1, providersAt w1 i = providersAt w i →
          providersAt ((instantiateProviderF (fun d r w' => resolveF f c d r w')
            pq res1 w1).2.1) i = providersAt w i := by
        intro pq res1 w1 hin
        exact instantiate_pres (fun ww => providersAt ww i = providersAt w i)
          (fun d r w' => resolveF f c d r w')
          (fun d r w' hw => (ih c d r w' i hi).trans hw)
          (fun b w' hw => by
            have hcont := runBody_containers b w'
            show providersAt ((runBody b w').2) i = providersAt w i
            rw [providersAt, containerAt, hcont]
            exact hw)
          (fun w' e hw => hw)
          pq res1 w1 hin
      cases q with
      | value t'' v => simp only [resolveF, hl]
      | cls provide cid deps lt =>
        cases hc : (if (Prov.cls provide cid deps lt).effLifetime = Lifetime.singleton
            then alGet? (instancesAt w qo) (Prov.cls provide cid deps lt).provide
            else none) with
        | some v => simp only [resolveF, hl, hc]
        | none =>
          by_cases hmem : (Prov.cls provide cid deps lt).provide ∈ res
          · simp only [resolveF, hl, hc, if_pos hmem]
          · rcases h3 : instantiateProviderF (fun d r w' => resolveF f c d r w')
                (Prov.cls provide cid deps lt)
                (resAdd res (Prov.cls provide cid deps lt).provide) w
              with ⟨r3, w3, res3⟩
            have hP3 := hP (Prov.cls provide cid deps lt)
              (resAdd res (Prov.cls provide cid deps lt).provide) w rfl
            rw [h3] at hP3
            simp only at hP3
            cases r3 with
            | ok v3 =>
              simp only [resolveF, hl, hc, if_neg hmem, h3]
              by_cases hs :
                (Prov.cls provide cid deps lt).effLifetime = Lifetime.singleton
              · rw [if_pos hs, cacheWrite_providersAt]
                exact hP3
              · rw [if_neg hs]
                exact hP3
            | error e =>
              simp only [resolveF, hl, hc, if_neg hmem, h3]
              exact hP3
      | factory provide body arity deps lt =>
        cases hc : (if (Prov.factory provide body arity deps lt).effLifetime = Lifetime.singleton
            then alGet? (instancesAt w qo) (Prov.factory provide body arity deps lt).provide
            else none) with
        | some v => simp only [resolveF, hl, hc]
        | none =>
          by_cases hmem : (Prov.factory provide body arity deps lt).provide ∈ res
          · simp only [resolveF, hl, hc, if_pos hmem]
          · rcases h3 : instantiateProviderF (fun d r w' => resolveF f c d r w')
                (Prov.factory provide body arity deps lt)
                (resAdd res (Prov.factory provide body arity deps lt).provide) w
              with ⟨r3, w3, res3⟩
            have hP3 := hP (Prov.factory provide body arity deps lt)
              (resAdd res (Prov.factory provide body arity deps lt).provide) w rfl
            rw [h3] at hP3
            simp only at hP3
            cases r3 with
            | ok v3 =>
              simp only [resolveF, hl, hc, if_neg hmem, h3]
              by_cases hs :
                (Prov.factory provide body arity deps lt).effLifetime = Lifetime.singleton
              · rw [if_pos hs, cacheWrite_providersAt]
                exact hP3
              · rw [if_neg hs]
                exact hP3
            | error e =>
              simp only [resolveF, hl, hc, if_neg hmem, h3]
              exact hP3

/-! ## `registerManyC` lemmas -/

theorem registerManyC_calls (w : World) (ci : Nat) (ps : List Prov) :
    (registerManyC w ci ps).calls = w.calls := by
  induction ps generalizing w with
  | nil => rfl
  | cons p ps ih =>
    show (registerManyC (registerC w ci p) ci ps).calls = w.calls
    rw [ih, registerC_calls]

theorem registerManyC_length (w : World) (ci : Nat) (ps : List Prov) :
    (registerManyC w ci ps).containers.length = w.containers.length := by
  induction ps generalizing w with
  | nil => rfl
  | cons p ps ih =>
    show (registerManyC (registerC w ci p) ci ps).containers.length = _
    rw [ih, registerC_length]

theorem registerManyC_containerAt_ne (w : World) (ci : Nat) (ps : List Prov)
    (i : Nat) (hi : i ≠ ci) :
    containerAt (registerManyC w ci ps) i = containerAt w i := by
  induction ps generalizing w with
  | nil => rfl
  | cons p ps ih =>
    show containerAt (registerManyC (registerC w ci p) ci ps) i = _
    rw [ih, registerC_containerAt_ne _ _ _ _ hi]

theorem registerManyC_provGet_ne (w : World) (ci : Nat) (ps : List Prov)
    (k : Token) (hk : ∀ p ∈ ps, k ≠ p.provide) (i : Nat) :
    alGet? (providersAt (registerManyC w ci ps) i) k =
      alGet? (providersAt w i) k := by
  induction ps generalizing w with
  | nil => rfl
  | cons p ps ih =>
    show alGet? (providersAt (registerManyC (registerC w ci p) ci ps) i) k = _
    rw [ih _ (fun q hq => hk q (List.mem_cons_of_mem p hq)),
      registerC_provGet_ne _ _ _ _ _ (hk p (List.mem_cons_self p ps))]

theorem registerManyC_instAt_ne (w : World) (ci : Nat) (ps : List Prov)
    (k : Token) (hk : ∀ p ∈ ps, k ≠ p.provide) (i : Nat) :
    instAt (registerManyC w ci ps) i k = instAt w i k := by
  induction ps generalizing w with
  | nil => rfl
  | cons p ps ih =>
    show instAt (registerManyC (registerC w ci p) ci ps) i k = _
    rw [ih _ (fun q hq => hk q (List.mem_cons_of_mem p hq)),
      registerC_instAt_ne _ _ _ _ _ (hk p (List.mem_cons_self p ps))]

theorem registerManyC_instAt_nonvalue (w : World) (ci : Nat) (ps : List Prov)
    (k : Token) (hk : ∀ p ∈ ps, p.provide = k → p.isValue = false) (i : Nat)
    (h : instAt w i k = none) : instAt (registerManyC w ci ps) i k = none := by
  induction ps generalizing w with
  | nil => exact h
  | cons p ps ih =>
    show instAt (registerManyC (registerC w ci p) ci ps) i k = none
    apply ih _ (fun q hq => hk q (List.mem_cons_of_mem p hq))
    by_cases hp : p.provide = k
    · rw [← hp]
      rw [← hp] at h
      exact registerC_instAt_nonvalue w ci p
        (hk p (List.mem_cons_self p ps) hp) i p.provide h
    · rw [registerC_instAt_ne _ _ _ _ _ (fun hEq => hp hEq.symm)]
      exact h

theorem registerManyC_parentAt (w : World) (ci : Nat) (ps : List Prov)
    (i : Nat) : parentAt (registerManyC w ci ps) i = parentAt w i := by
  induction ps generalizing w with
  | nil => rfl
  | cons p ps ih =>
    show parentAt (registerManyC (registerC w ci p) ci ps) i = _
    rw [ih, registerC_parentAt]

theorem registerManyC_WFProv (w : World) (ci : Nat) (ps : List Prov)
    (hw : WFProv w) : WFProv (registerManyC w ci ps) := by
  induction ps generalizing w with
  | nil => exact hw
  | cons p ps ih =>
    exact ih (registerC w ci p) (registerC_WFProv w ci p hw)

/-- The container list after `new DIContainer()`: the fresh slot holds the
empty root container, all other indices are unchanged. -/
theorem containerAt_newContainer (w : World) (i : Nat) :
    containerAt (newContainer w).1 i =
      if i = w.containers.length then ⟨[], [], none⟩ else containerAt w i := by
  by_cases hi : i = w.containers.length
  · rw [if_pos hi, hi]
    show (w.containers ++ [(⟨[], [], none⟩ : Container)]).getD w.containers.length _ = _
    exact getD_append_length _ _ _
  · rw [if_neg hi]
    by_cases hlt : i < w.containers.length
    · show (w.containers ++ [(⟨[], [], none⟩ : Container)]).getD i _ = _
      exact getD_append_left _ _ _ _ hlt
    · have h1 : containerAt w i = ⟨[], [], none⟩ :=
        containerAt_oob w i hlt
      have h2 : containerAt (newContainer w).1 i = ⟨[], [], none⟩ := by
        apply containerAt_oob
        show ¬ i < (w.containers ++ [(⟨[], [], none⟩ : Container)]).length
        simp only [List.length_append, List.length_cons, List.length_nil]
        omega
      rw [h1, h2]

/-- Resolution on a root container mutates no other container. -/
theorem resolveF_root_frame :
    ∀ (f c : Nat) (t : Token) (res : List Token) (w : World),
      parentAt w c = none →
      ∀ i, i ≠ c → containerAt (resolveF f c t res w).2.1 i = containerAt w i := by
  intro f
  induction f with
  | zero => intro c t res w _ i _; rfl
  | succ f ih =>
    intro c t res w hroot i hi
    cases hl : lookupProvider w c t with
    | none =>
      cases t with
      | str s => simp only [resolveF, hl]
      | sym id d => simp only [resolveF, hl]
      | ctor cid nm =>
        simp only [resolveF, hl]
        rw [ih c (.ctor cid nm) res _ (by rw [registerC_parentAt]; exact hroot) i hi]
        exact registerC_containerAt_ne _ _ _ _ hi
    | some pr =>
      rcases pr with ⟨q, qo⟩
      have hqo : c = qo := by
        rw [lookupProvider_root w c t hroot] at hl
        cases hget : alGet? (providersAt w c) t with
        | none => rw [hget] at hl; cases hl
        | some q' => rw [hget] at hl; cases hl; rfl
      subst hqo
      have hP : ∀ pq res1 w1,
          (containerAt w1 i = containerAt w i ∧ parentAt w1 c = none) →
          (containerAt ((instantiateProviderF (fun d r w' => resolveF f c d r w')
            pq res1 w1).2.1) i = containerAt w i ∧
           parentAt ((instantiateProviderF (fun d r w' => resolveF f c d r w')
            pq res1 w1).2.1) c = none) := by
        intro pq res1 w1 hin
        exact instantiate_pres
          (fun ww => containerAt ww i = containerAt w i ∧ parentAt ww c = none)
          (fun d r w' => resolveF f c d r w')
          (fun d r w' hw =>
            ⟨(ih c d r w' hw.2 i hi).trans hw.1,
             ((resolveF_inv f c d r w').2.2.2.1 c).trans hw.2⟩)
          (fun b w' hw => by
            have hcont := runBody_containers b w'
            constructor
            · show containerAt ((runBody b w').2) i = containerAt w i
              rw [containerAt, hcont]
              exact hw.1
            · show parentAt ((runBody b w').2) c = none
              rw [parentAt, containerAt, hcont]
              exact hw.2)
          (fun w' e hw => hw)
          pq res1 w1 hin
      cases q with
      | value t'' v => simp only [resolveF, hl]
      | cls provide cid deps lt =>
        cases hc : (if (Prov.cls provide cid deps lt).effLifetime = Lifetime.singleton
            then alGet? (instancesAt w c) (Prov.cls provide cid deps lt).provide
            else none) with
        | some v => simp only [resolveF, hl, hc]
        | none =>
          by_cases hmem : (Prov.cls provide cid deps lt).provide ∈ res
          · simp only [resolveF, hl, hc, if_pos hmem]
          · rcases h3 : instantiateProviderF (fun d r w' => resolveF f c d r w')
                (Prov.cls provide cid deps lt)
                (resAdd res (Prov.cls provide cid deps lt).provide) w
              with ⟨r3, w3, res3⟩
            have hP3 := hP (Prov.cls provide cid deps lt)
              (resAdd res (Prov.cls provide cid deps lt).provide) w ⟨rfl, hroot⟩
            rw [h3] at hP3
            simp only at hP3
            cases r3 with
            | ok v3 =>
              simp only [resolveF, hl, hc, if_neg hmem, h3]
              by_cases hs :
                (Prov.cls provide cid deps lt).effLifetime = Lifetime.singleton
              · rw [if_pos hs]
                rw [show cacheWrite w3 c (Prov.cls provide cid deps lt).provide v3 =
                  setContainer w3 c { containerAt w3 c with
                    instances := alSet (instancesAt w3 c)
                      (Prov.cls provide cid deps lt).provide v3 } from rfl]
                rw [containerAt_setContainer_ne _ _ _ _ hi]
                exact hP3.1
              · rw [if_neg hs]
                exact hP3.1
            | error e =>
              simp only [resolveF, hl, hc, if_neg hmem, h3]
              exact hP3.1
      | factory provide body arity deps lt =>
        cases hc : (if (Prov.factory provide body arity deps lt).effLifetime = Lifetime.singleton
            then alGet? (instancesAt w c) (Prov.factory provide body arity deps lt).provide
            else none) with
        | some v => simp only [resolveF, hl, hc]
        | none =>
          by_cases hmem : (Prov.factory provide body arity deps lt).provide ∈ res
          · simp only [resolveF, hl, hc, if_pos hmem]
          · rcases h3 : instantiateProviderF (fun d r w' => resolveF f c d r w')
                (Prov.factory provide body arity deps lt)
                (resAdd res (Prov.factory provide body arity deps lt).provide) w
              with ⟨r3, w3, res3⟩
            have hP3 := hP (Prov.factory provide body arity deps lt)
              (resAdd res (Prov.factory provide body arity deps lt).provide) w ⟨rfl, hroot⟩
            rw [h3] at hP3
            simp only at hP3
            cases r3 with
            | ok v3 =>
              simp only [resolveF, hl, hc, if_neg hmem, h3]
              by_cases hs :
                (Prov.factory provide body arity deps lt).effLifetime = Lifetime.singleton
              · rw [if_pos hs]
                rw [show cacheWrite w3 c (Prov.factory provide body arity deps lt).provide v3 =
                  setContainer w3 c { containerAt w3 c with
                    instances := alSet (instancesAt w3 c)
                      (Prov.factory provide body arity deps lt).provide v3 } from rfl]
                rw [containerAt_setContainer_ne _ _ _ _ hi]
                exact hP3.1
              · rw [if_neg hs]
                exact hP3.1
            | error e =>
              simp only [resolveF, hl, hc, if_neg hmem, h3]
              exact hP3.1

/-- A stable token (value provider, or cached singleton) resolves to its
value with no state change. -/
theorem StableAt_get (w : World) (c : Nat) (tk : Token) (v : Value)
    (h : StableAt w c tk v) :
    ∀ (f : Nat) (res : List Token), resolveF (f + 1) c tk res w = (.ok v, w, res) := by
  obtain ⟨p, hget, hpt, hcase⟩ := h
  have hlook : lookupProvider w c tk = some (p, c) :=
    lookupProvider_first_hit w c tk p hget
  intro f res
  rcases hcase with hval | ⟨hnv, hsing, hcache⟩
  · subst hval
    exact resolveF_value f c tk res w tk v c hlook
  · exact resolveF_cached f c tk res w p c v hlook hnv hsing hpt hcache

/-- `StableAt` survives any resolution performed on the same container. -/
theorem StableAt_after_resolve (f c : Nat) (t' : Token) (res : List Token)
    (w : World) (tk : Token) (v : Value)
    (hwf : WFProv w) (h : StableAt w c tk v) :
    StableAt (resolveF f c t' res w).2.1 c tk v := by
  obtain ⟨p, hget, hpt, hcase⟩ := h
  have hlook : lookupProvider w c tk = some (p, c) :=
    lookupProvider_first_hit w c tk p hget
  rcases hcase with hval | ⟨hnv, hsing, hcache⟩
  · have hl' := resolveF_lookup_preserved f c t' res w tk p c hlook
    exact ⟨p, (lookupF_some_spec _ _ _ _ _ _ hl').1, hpt, Or.inl hval⟩
  · have h' := resolveF_cached_preserved f c t' res w tk p c v hwf hlook hpt
      hnv hsing hcache
    exact ⟨p, (lookupF_some_spec _ _ _ _ _ _ h'.1).1, hpt,
      Or.inr ⟨hnv, hsing, h'.2⟩⟩

/-- Basic shape facts preserved by the import loop: container count, parent
pointers, and provider-key well-formedness. -/
theorem importExports_basic (f ci srcCi : Nat) :
    ∀ (E : List Token) (w : World),
      (importExports f ci srcCi E w).2.containers.length = w.containers.length ∧
      (∀ i, parentAt (importExports f ci srcCi E w).2 i = parentAt w i) ∧
      (WFProv w → WFProv (importExports f ci srcCi E w).2) := by
  intro E
  induction E with
  | nil => intro w; exact ⟨rfl, fun _ => rfl, fun h => h⟩
  | cons e E ih =>
    intro w
    by_cases hhas : hasC w srcCi e
    · rcases hg : getF f w srcCi e with ⟨r, wg⟩
      have hwInv : WInv w wg := by
        have := (resolveF_inv f srcCi e [] w).2
        have heq : (resolveF f srcCi e [] w).2.1 = wg := by
          rw [show (resolveF f srcCi e [] w).2.1 = (getF f w srcCi e).2 from rfl, hg]
        rw [heq] at this
        exact this
      cases r with
      | ok v =>
        have hrest := ih (registerC wg ci (.value e v))
        simp only [importExports, if_pos hhas, hg]
        refine ⟨?_, ?_, ?_⟩
        · rw [hrest.1, registerC_length, hwInv.1]
        · intro i
          rw [hrest.2.1 i, registerC_parentAt, hwInv.2.2.1 i]
        · intro hw
          exact hrest.2.2 (registerC_WFProv _ _ _ (hwInv.2.2.2 hw))
      | error e' =>
        simp only [importExports, if_pos hhas, hg]
        exact ⟨hwInv.1, hwInv.2.2.1, hwInv.2.2.2⟩
    · simp only [importExports, if_neg hhas]
      exact ih w

theorem StableAt_of_containerAt_eq (w w' : World) (c : Nat) (tk : Token)
    (v : Value) (h : containerAt w' c = containerAt w c)
    (hS : StableAt w c tk v) : StableAt w' c tk v := by
  obtain ⟨p, h1, h2, h3⟩ := hS
  refine ⟨p, ?_, h2, ?_⟩
  · show alGet? (containerAt w' c).providers tk = some p
    rw [h]
    exact h1
  · rcases h3 with h3 | ⟨a, b, cc⟩
    · exact Or.inl h3
    · refine Or.inr ⟨a, b, ?_⟩
      show alGet? (containerAt w' c).instances tk = some v
      rw [h]
      exact cc

theorem ValueReady_of_containerAt_eq (w w' : World) (c : Nat) (tk : Token)
    (v : Value) (h : containerAt w' c = containerAt w c)
    (hV : ValueReady w c tk v) : ValueReady w' c tk v := by
  obtain ⟨h1, h2⟩ := hV
  constructor
  · show alGet? (containerAt w' c).providers tk = some (.value tk v)
    rw [h]
    exact h1
  · show alGet? (containerAt w' c).instances tk = some v
    rw [h]
    exact h2

/-- The import loop preserves an already-established export: the source
entry stays stable and the registered value-provider copy stays intact. -/
theorem importExports_carry (fc ci srcCi : Nat) :
    ∀ (E : List Token) (w : World) (tk : Token) (v : Value) (w1 : World),
      importExports (fc + 1) ci srcCi E w = (.ok (), w1) →
      WFProv w → parentAt w srcCi = none → srcCi ≠ ci →
      ci < w.containers.length →
      StableAt w srcCi tk v → ValueReady w ci tk v →
      StableAt w1 srcCi tk v ∧ ValueReady w1 ci tk v := by
  intro E
  induction E with
  | nil =>
    intro w tk v w1 h hwf hroot hne hci hS hV
    cases h
    exact ⟨hS, hV⟩
  | cons tk2 tks ih =>
    intro w tk v w1 h hwf hroot hne hci hS hV
    by_cases hhas : hasC w srcCi tk2
    · rcases hg : getF (fc + 1) w srcCi tk2 with ⟨r, wg⟩
      cases r with
      | error e =>
        simp only [importExports, if_pos hhas, hg] at h
        simp at h
      | ok v2 =>
        simp only [importExports, if_pos hhas, hg] at h
        have hwg : (resolveF (fc + 1) srcCi tk2 [] w).2.1 = wg := by
          rw [show (resolveF (fc + 1) srcCi tk2 [] w).2.1 =
            (getF (fc + 1) w srcCi tk2).2 from rfl, hg]
        have hwInv : WInv w wg := by
          have h0 := (resolveF_inv (fc + 1) srcCi tk2 [] w).2
          rw [hwg] at h0
          exact h0
        have hwf2 : WFProv (registerC wg ci (.value tk2 v2)) :=
          registerC_WFProv _ _ _ (hwInv.2.2.2 hwf)
        have hroot2 : parentAt (registerC wg ci (.value tk2 v2)) srcCi = none := by
          rw [registerC_parentAt, hwInv.2.2.1]
          exact hroot
        have hci2 : ci < (registerC wg ci (.value tk2 v2)).containers.length := by
          rw [registerC_length, hwInv.1]
          exact hci
        have hSg : StableAt wg srcCi tk v := by
          have h0 := StableAt_after_resolve (fc + 1) srcCi tk2 [] w tk v hwf hS
          rw [hwg] at h0
          exact h0
        have hS2 : StableAt (registerC wg ci (.value tk2 v2)) srcCi tk v :=
          StableAt_of_containerAt_eq _ _ _ _ _
            (registerC_containerAt_ne _ _ _ _ hne) hSg
        have hcg : containerAt wg ci = containerAt w ci := by
          have h0 := resolveF_root_frame (fc + 1) srcCi tk2 [] w hroot ci
            (Ne.symm hne)
          rw [hwg] at h0
          exact h0
        have hVg : ValueReady wg ci tk v :=
          ValueReady_of_containerAt_eq _ _ _ _ _ hcg hV
        by_cases htk : tk2 = tk
        · have hst := StableAt_get w srcCi tk v hS fc []
          have heqg : getF (fc + 1) w srcCi tk2 = (.ok v, w) := by
            rw [htk]
            show ((resolveF (fc + 1) srcCi tk [] w).1,
              (resolveF (fc + 1) srcCi tk [] w).2.1) = _
            rw [hst]
          rw [hg] at heqg
          simp only [Prod.mk.injEq, Except.ok.injEq] at heqg
          have hv2 : v2 = v := heqg.1
          have hV2 : ValueReady (registerC wg ci (.value tk2 v2)) ci tk v := by
            constructor
            · show alGet? (providersAt (registerC wg ci (.value tk2 v2)) ci) tk =
                some (.value tk v)
              rw [← htk, ← hv2]
              rw [registerC_providersAt_self _ _ _ (by rw [hwInv.1]; exact hci)]
              exact alGet?_set_self _ _ _
            · show instAt (registerC wg ci (.value tk2 v2)) ci tk = some v
              rw [← htk, ← hv2]
              exact registerC_instAt_value wg ci tk2 v2
                (by rw [hwInv.1]; exact hci)
          exact ih _ tk v w1 h hwf2 hroot2 hne hci2 hS2 hV2
        · have hV2 : ValueReady (registerC wg ci (.value tk2 v2)) ci tk v := by
            constructor
            · rw [show alGet? (providersAt (registerC wg ci (.value tk2 v2)) ci) tk =
                alGet? (providersAt wg ci) tk from
                  registerC_provGet_ne wg ci (.value tk2 v2) ci tk
                    (fun hcon => htk (by exact hcon.symm))]
              exact hVg.1
            · rw [registerC_instAt_ne wg ci (.value tk2 v2) ci tk
                (fun hcon => htk (by exact hcon.symm))]
              exact hVg.2
          exact ih _ tk v w1 h hwf2 hroot2 hne hci2 hS2 hV2
    · simp only [importExports, if_neg hhas] at h
      exact ih _ tk v w1 h hwf hroot hne hci hS hV

/-- Tokens not in the export list are never written into the importing
container by the import loop. -/
theorem importExports_keys_ne (fc ci srcCi : Nat) :
    ∀ (E : List Token) (w : World) (tk' : Token),
      parentAt w srcCi = none → srcCi ≠ ci → tk' ∉ E →
      alGet? (providersAt (importExports (fc + 1) ci srcCi E w).2 ci) tk' =
        alGet? (providersAt w ci) tk' := by
  intro E
  induction E with
  | nil => intro w tk' _ _ _; rfl
  | cons tk2 tks ih =>
    intro w tk' hroot hne hmem
    have hmem2 : tk' ≠ tk2 := fun hcon => hmem (hcon ▸ List.mem_cons_self _ _)
    have hmemt : tk' ∉ tks := fun hcon => hmem (List.mem_cons_of_mem _ hcon)
    by_cases hhas : hasC w srcCi tk2
    · rcases hg : getF (fc + 1) w srcCi tk2 with ⟨r, wg⟩
      have hwg : (resolveF (fc + 1) srcCi tk2 [] w).2.1 = wg := by
        rw [show (resolveF (fc + 1) srcCi tk2 [] w).2.1 =
          (getF (fc + 1) w srcCi tk2).2 from rfl, hg]
      have hcg : containerAt wg ci = containerAt w ci := by
        have h0 := resolveF_root_frame (fc + 1) srcCi tk2 [] w hroot ci
          (Ne.symm hne)
        rw [hwg] at h0
        exact h0
      have hpg : alGet? (providersAt wg ci) tk' = alGet? (providersAt w ci) tk' := by
        show alGet? (containerAt wg ci).providers tk' = _
        rw [hcg]
        rfl
      cases r with
      | error e =>
        simp only [importExports, if_pos hhas, hg]
        exact hpg
      | ok v2 =>
        simp only [importExports, if_pos hhas, hg]
        have hroot2 : parentAt (registerC wg ci (.value tk2 v2)) srcCi = none := by
          rw [registerC_parentAt]
          have h0 := (resolveF_inv (fc + 1) srcCi tk2 [] w).2.2.2.1 srcCi
          rw [hwg] at h0
          rw [h0]
          exact hroot
        rw [ih (registerC wg ci (.value tk2 v2)) tk' hroot2 hne hmemt]
        rw [registerC_provGet_ne wg ci (.value tk2 v2) ci tk' hmem2]
        exact hpg
    · simp only [importExports, if_neg hhas]
      exact ih w tk' hroot hne hmemt

/-- A successful `get` of a non-value singleton provider leaves the entry
stable: provider preserved and the instance cached in the owner. -/
theorem nonvalue_get_stable (fc srcCi : Nat) (w : World) (tk : Token)
    (p : Prov) (v2 : Value) (wg : World)
    (hget : alGet? (providersAt w srcCi) tk = some p)
    (hpt : p.provide = tk) (hnv : p.isValue = false)
    (hsing : p.effLifetime = Lifetime.singleton)
    (hg : getF (fc + 1) w srcCi tk = (.ok v2, wg)) :
    StableAt wg srcCi tk v2 := by
  have hlk : lookupProvider w srcCi tk = some (p, srcCi) :=
    lookupProvider_first_hit w srcCi tk p hget
  rcases hr : resolveF (fc + 1) srcCi tk [] w with ⟨r1, w1', rs1⟩
  have heqg : getF (fc + 1) w srcCi tk = (r1, w1') := by
    show ((resolveF (fc + 1) srcCi tk [] w).1,
      (resolveF (fc + 1) srcCi tk [] w).2.1) = _
    rw [hr]
  rw [hg] at heqg
  simp only [Prod.mk.injEq] at heqg
  obtain ⟨hr1, hw1'⟩ := heqg
  rw [← hr1, ← hw1'] at hr
  have hcache : instAt wg srcCi tk = some v2 :=
    resolveF_success_caches fc srcCi tk [] w p srcCi v2 wg rs1
      hlk hnv hsing hpt hr
  have hlk2 : lookupProvider wg srcCi tk = some (p, srcCi) := by
    have h0 := resolveF_lookup_preserved (fc + 1) srcCi tk [] w tk p srcCi hlk
    rw [show (resolveF (fc + 1) srcCi tk [] w).2.1 = wg from by rw [hr]] at h0
    exact h0
  exact ⟨p, (lookupF_some_spec _ _ _ _ _ _ hlk2).1, hpt,
    Or.inr ⟨hnv, hsing, hcache⟩⟩

/-- Processing an exported token that has a value-or-singleton provider in
the source container: the loop (when it succeeds) leaves a matching value
provider in the importing container, and the source entry stable at the same
value. -/
theorem importExports_establish (fc ci srcCi : Nat) :
    ∀ (E : List Token) (w : World) (tk : Token) (p : Prov) (w1 : World),
      importExports (fc + 1) ci srcCi E w = (.ok (), w1) →
      WFProv w → parentAt w srcCi = none → srcCi ≠ ci →
      ci < w.containers.length →
      tk ∈ E →
      alGet? (providersAt w srcCi) tk = some p →
      (p.isValue = true ∨ p.effLifetime = Lifetime.singleton) →
      ∃ v, StableAt w1 srcCi tk v ∧ ValueReady w1 ci tk v := by
  intro E
  induction E with
  | nil =>
    intro w tk p w1 _ _ _ _ _ hmem
    cases hmem
  | cons tk2 tks ih =>
    intro w tk p w1 h hwf hroot hne hci hmem hget hp
    have hpt : p.provide = tk := hwf srcCi tk p hget
    by_cases htk : tk2 = tk
    · have hhas : hasC w srcCi tk2 = true := by
        rw [htk, hasC_eq_lookupProvider_isSome,
          lookupProvider_first_hit w srcCi tk p hget]
        rfl
      rcases hg : getF (fc + 1) w srcCi tk2 with ⟨r, wg⟩
      cases r with
      | error e =>
        simp only [importExports, if_pos hhas, hg] at h
        simp at h
      | ok v2 =>
        simp only [importExports, if_pos hhas, hg] at h
        have hwg : (resolveF (fc + 1) srcCi tk2 [] w).2.1 = wg := by
          rw [show (resolveF (fc + 1) srcCi tk2 [] w).2.1 =
            (getF (fc + 1) w srcCi tk2).2 from rfl, hg]
        have hwInv : WInv w wg := by
          have h0 := (resolveF_inv (fc + 1) srcCi tk2 [] w).2
          rw [hwg] at h0
          exact h0
        have hlk : lookupProvider w srcCi tk = some (p, srcCi) :=
          lookupProvider_first_hit w srcCi tk p hget
        have hgtk : getF (fc + 1) w srcCi tk = (.ok v2, wg) := by
          rw [← htk]
          exact hg
        have hSg : StableAt wg srcCi tk v2 := by
          cases p with
          | value tk' v' =>
            have hres : resolveF (fc + 1) srcCi tk [] w = (.ok v', w, []) :=
              resolveF_value fc srcCi tk [] w tk' v' srcCi hlk
            have heqg : getF (fc + 1) w srcCi tk = (.ok v', w) := by
              show ((resolveF (fc + 1) srcCi tk [] w).1,
                (resolveF (fc + 1) srcCi tk [] w).2.1) = _
              rw [hres]
            rw [hgtk] at heqg
            simp only [Prod.mk.injEq, Except.ok.injEq] at heqg
            refine ⟨.value tk' v', ?_, hpt, Or.inl ?_⟩
            · rw [heqg.2]
              exact hget
            · have htkp : tk' = tk := hpt
              rw [htkp, heqg.1]
          | cls a b c d =>
            have hsg : (Prov.cls a b c d).effLifetime = Lifetime.singleton := by
              rcases hp with hval | hsg
              · simp [Prov.isValue] at hval
              · exact hsg
            exact nonvalue_get_stable fc srcCi w tk _ v2 wg hget hpt rfl hsg hgtk
          | factory a b c d e =>
            have hsg : (Prov.factory a b c d e).effLifetime = Lifetime.singleton := by
              rcases hp with hval | hsg
              · simp [Prov.isValue] at hval
              · exact hsg
            exact nonvalue_get_stable fc srcCi w tk _ v2 wg hget hpt rfl hsg hgtk
        have hS2 : StableAt (registerC wg ci (.value tk2 v2)) srcCi tk v2 :=
          StableAt_of_containerAt_eq _ _ _ _ _
            (registerC_containerAt_ne _ _ _ _ hne) hSg
        have hV2 : ValueReady (registerC wg ci (.value tk2 v2)) ci tk v2 := by
          constructor
          · show alGet? (providersAt (registerC wg ci (.value tk2 v2)) ci) tk =
              some (.value tk v2)
            rw [← htk]
            rw [registerC_providersAt_self _ _ _ (by rw [hwInv.1]; exact hci)]
            exact alGet?_set_self _ _ _
          · show instAt (registerC wg ci (.value tk2 v2)) ci tk = some v2
            rw [← htk]
            exact registerC_instAt_value wg ci tk2 v2
              (by rw [hwInv.1]; exact hci)
        have hwf2 : WFProv (registerC wg ci (.value tk2 v2)) :=
          registerC_WFProv _ _ _ (hwInv.2.2.2 hwf)
        have hroot2 : parentAt (registerC wg ci (.value tk2 v2)) srcCi = none := by
          rw [registerC_parentAt, hwInv.2.2.1]
          exact hroot
        have hci2 : ci < (registerC wg ci (.value tk2 v2)).containers.length := by
          rw [registerC_length, hwInv.1]
          exact hci
        exact ⟨v2, importExports_carry fc ci srcCi tks _ tk v2 w1 h hwf2 hroot2
          hne hci2 hS2 hV2⟩
    · have hmemt : tk ∈ tks := by
        rcases List.mem_cons.mp hmem with h0 | h0
        · exact absurd h0.symm htk
        · exact h0
      by_cases hhas : hasC w srcCi tk2
      · rcases hg : getF (fc + 1) w srcCi tk2 with ⟨r, wg⟩
        cases r with
        | error e =>
          simp only [importExports, if_pos hhas, hg] at h
          simp at h
        | ok v2 =>
          simp only [importExports, if_pos hhas, hg] at h
          have hwg : (resolveF (fc + 1) srcCi tk2 [] w).2.1 = wg := by
            rw [show (resolveF (fc + 1) srcCi tk2 [] w).2.1 =
              (getF (fc + 1) w srcCi tk2).2 from rfl, hg]
          have hwInv : WInv w wg := by
            have h0 := (resolveF_inv (fc + 1) srcCi tk2 [] w).2
            rw [hwg] at h0
            exact h0
          have hlk : lookupProvider w srcCi tk = some (p, srcCi) :=
            lookupProvider_first_hit w srcCi tk p hget
          have hlk2 : lookupProvider wg srcCi tk = some (p, srcCi) := by
            have h0 := resolveF_lookup_preserved (fc + 1) srcCi tk2 [] w tk p
              srcCi hlk
            rw [hwg] at h0
            exact h0
          have hget2 : alGet? (providersAt
              (registerC wg ci (.value tk2 v2)) srcCi) tk = some p := by
            show alGet? (containerAt (registerC wg ci (.value tk2 v2)) srcCi).providers
              tk = some p
            rw [registerC_containerAt_ne _ _ _ _ hne]
            exact (lookupF_some_spec _ _ _ _ _ _ hlk2).1
          have hwf2 : WFProv (registerC wg ci (.value tk2 v2)) :=
            registerC_WFProv _ _ _ (hwInv.2.2.2 hwf)
          have hroot2 : parentAt (registerC wg ci (.value tk2 v2)) srcCi = none := by
            rw [registerC_parentAt, hwInv.2.2.1]
            exact hroot
          have hci2 : ci < (registerC wg ci (.value tk2 v2)).containers.length := by
            rw [registerC_length, hwInv.1]
            exact hci
          exact ih _ tk p w1 h hwf2 hroot2 hne hci2 hmemt hget2 hp
      · simp only [importExports, if_neg hhas] at h
        exact ih w tk p w1 h hwf hroot hne hci hmemt hget hp

/-- A single resolution against a root container `s` preserves a provider
entry of any root container `o` (the same container by lookup preservation,
a different one by the root frame). -/
theorem entry_pres_get (f s o : Nat) (t tk : Token) (p : Prov) (w : World)
    (hso : parentAt w s = none) (hoo : parentAt w o = none)
    (hget : alGet? (providersAt w o) tk = some p) :
    alGet? (providersAt (resolveF f s t [] w).2.1 o) tk = some p := by
  by_cases ho : o = s
  · subst ho
    have hlk : lookupProvider w o tk = some (p, o) :=
      lookupProvider_first_hit w o tk p hget
    have h0 := resolveF_lookup_preserved f o t [] w tk p o hlk
    exact (lookupF_some_spec _ _ _ _ _ _ h0).1
  · have h0 := resolveF_root_frame f s t [] w hso o ho
    show alGet? (containerAt (resolveF f s t [] w).2.1 o).providers tk = some p
    rw [h0]
    exact hget

/-- A single resolution against a root container `s` preserves `StableAt`
of any root container `o`. -/
theorem StableAt_pres_get (f s o : Nat) (t tk : Token) (v : Value) (w : World)
    (hwf : WFProv w) (hso : parentAt w s = none)
    (hS : StableAt w o tk v) :
    StableAt (resolveF f s t [] w).2.1 o tk v := by
  by_cases ho : o = s
  · subst ho
    exact StableAt_after_resolve f o t [] w tk v hwf hS
  · exact StableAt_of_containerAt_eq _ _ _ _ _
      (resolveF_root_frame f s t [] w hso o ho) hS

/-- A single resolution against a root container `s` preserves `ValueReady`
of any other container `ci`. -/
theorem ValueReady_pres_get (f s ci : Nat) (t tk : Token) (v : Value)
    (w : World) (hso : parentAt w s = none) (hne : ci ≠ s)
    (hV : ValueReady w ci tk v) :
    ValueReady (resolveF f s t [] w).2.1 ci tk v :=
  ValueReady_of_containerAt_eq _ _ _ _ _
    (resolveF_root_frame f s t [] w hso ci hne) hV

/-- The import loop over source container `s` preserves a provider entry of
any root container `o` other than the importing container. -/
theorem importExports_entry_pres (fc ci s o : Nat) :
    ∀ (E : List Token) (w : World) (tk : Token) (p : Prov) (w1 : World),
      importExports (fc + 1) ci s E w = (.ok (), w1) →
      parentAt w s = none → parentAt w o = none → o ≠ ci →
      alGet? (providersAt w o) tk = some p →
      alGet? (providersAt w1 o) tk = some p := by
  intro E
  induction E with
  | nil =>
    intro w tk p w1 h _ _ _ hget
    cases h
    exact hget
  | cons tk2 tks ih =>
    intro w tk p w1 h hs ho hoci hget
    by_cases hhas : hasC w s tk2
    · rcases hg : getF (fc + 1) w s tk2 with ⟨r, wg⟩
      cases r with
      | error e =>
        simp only [importExports, if_pos hhas, hg] at h
        simp at h
      | ok v2 =>
        simp only [importExports, if_pos hhas, hg] at h
        have hwg : (resolveF (fc + 1) s tk2 [] w).2.1 = wg := by
          rw [show (resolveF (fc + 1) s tk2 [] w).2.1 =
            (getF (fc + 1) w s tk2).2 from rfl, hg]
        have hwInv : WInv w wg := by
          have h0 := (resolveF_inv (fc + 1) s tk2 [] w).2
          rw [hwg] at h0
          exact h0
        have hgetg : alGet? (providersAt wg o) tk = some p := by
          have h0 := entry_pres_get (fc + 1) s o tk2 tk p w hs ho hget
          rw [hwg] at h0
          exact h0
        have hget2 : alGet? (providersAt (registerC wg ci (.value tk2 v2)) o)
            tk = some p := by
          show alGet? (containerAt (registerC wg ci (.value tk2 v2)) o).providers
            tk = some p
          rw [registerC_containerAt_ne _ _ _ _ hoci]
          exact hgetg
        exact ih _ tk p w1 h
          (by rw [registerC_parentAt, hwInv.2.2.1]; exact hs)
          (by rw [registerC_parentAt, hwInv.2.2.1]; exact ho)
          hoci hget2
    · simp only [importExports, if_neg hhas] at h
      exact ih w tk p w1 h hs ho hoci hget

/-- The import loop over a source container `s` preserves an established
export (stable entry in root `o`, value copy in `ci`) as long as the token
is not among the exports being processed. -/
theorem importExports_carry_src (fc ci s o : Nat) :
    ∀ (E : List Token) (w : World) (tk : Token) (v : Value) (w1 : World),
      importExports (fc + 1) ci s E w = (.ok (), w1) →
      WFProv w → parentAt w s = none → parentAt w o = none →
      s ≠ ci → o ≠ ci → tk ∉ E →
      StableAt w o tk v → ValueReady w ci tk v →
      StableAt w1 o tk v ∧ ValueReady w1 ci tk v := by
  intro E
  induction E with
  | nil =>
    intro w tk v w1 h _ _ _ _ _ _ hS hV
    cases h
    exact ⟨hS, hV⟩
  | cons tk2 tks ih =>
    intro w tk v w1 h hwf hs ho hsci hoci hmem hS hV
    have hmem2 : tk ≠ tk2 := fun hcon => hmem (by
      rw [hcon]
      exact List.mem_cons_self _ _)
    have hmemt : tk ∉ tks := fun hcon => hmem (List.mem_cons_of_mem _ hcon)
    by_cases hhas : hasC w s tk2
    · rcases hg : getF (fc + 1) w s tk2 with ⟨r, wg⟩
      cases r with
      | error e =>
        simp only [importExports, if_pos hhas, hg] at h
        simp at h
      | ok v2 =>
        simp only [importExports, if_pos hhas, hg] at h
        have hwg : (resolveF (fc + 1) s tk2 [] w).2.1 = wg := by
          rw [show (resolveF (fc + 1) s tk2 [] w).2.1 =
            (getF (fc + 1) w s tk2).2 from rfl, hg]
        have hwInv : WInv w wg := by
          have h0 := (resolveF_inv (fc + 1) s tk2 [] w).2
          rw [hwg] at h0
          exact h0
        have hSg : StableAt wg o tk v := by
          have h0 := StableAt_pres_get (fc + 1) s o tk2 tk v w hwf hs hS
          rw [hwg] at h0
          exact h0
        have hVg : ValueReady wg ci tk v := by
          have h0 := ValueReady_pres_get (fc + 1) s ci tk2 tk v w hs
            (Ne.symm hsci) hV
          rw [hwg] at h0
          exact h0
        have hS2 : StableAt (registerC wg ci (.value tk2 v2)) o tk v :=
          StableAt_of_containerAt_eq _ _ _ _ _
            (registerC_containerAt_ne _ _ _ _ hoci) hSg
        have hV2 : ValueReady (registerC wg ci (.value tk2 v2)) ci tk v := by
          constructor
          · rw [show alGet? (providersAt (registerC wg ci (.value tk2 v2)) ci)
              tk = alGet? (providersAt wg ci) tk from
                registerC_provGet_ne wg ci (.value tk2 v2) ci tk hmem2]
            exact hVg.1
          · rw [registerC_instAt_ne wg ci (.value tk2 v2) ci tk hmem2]
            exact hVg.2
        exact ih _ tk v w1 h
          (registerC_WFProv _ _ _ (hwInv.2.2.2 hwf))
          (by rw [registerC_parentAt, hwInv.2.2.1]; exact hs)
          (by rw [registerC_parentAt, hwInv.2.2.1]; exact ho)
          hsci hoci hmemt hS2 hV2
    · simp only [importExports, if_neg hhas] at h
      exact ih w tk v w1 h hwf hs ho hsci hoci hmemt hS hV

/-- Shape facts preserved by the whole `imports.forEach` loop. -/
theorem importModules_basic (fuel ci : Nat) :
    ∀ (ms : List ModuleDef) (w : World),
      (importModules fuel ci ms w).2.containers.length =
        w.containers.length ∧
      (∀ i, parentAt (importModules fuel ci ms w).2 i = parentAt w i) ∧
      (WFProv w → WFProv (importModules fuel ci ms w).2) := by
  intro ms
  induction ms with
  | nil => intro w; exact ⟨rfl, fun _ => rfl, fun h => h⟩
  | cons m ms ih =>
    intro w
    rcases hie : importExports fuel ci m.container m.moduleExports w
      with ⟨ie, w1⟩
    have hb := importExports_basic fuel ci m.container m.moduleExports w
    rw [hie] at hb
    cases ie with
    | ok u =>
      simp only [importModules, hie]
      have hr := ih w1
      exact ⟨hr.1.trans hb.1, fun i => (hr.2.1 i).trans (hb.2.1 i),
        fun h => hr.2.2 (hb.2.2 h)⟩
    | error e =>
      simp only [importModules, hie]
      exact hb

/-- A successful `imports.forEach` over a concatenation splits into two
successful runs. -/
theorem importModules_append (fuel ci : Nat) :
    ∀ (ms1 ms2 : List ModuleDef) (w w2 : World),
      importModules fuel ci (ms1 ++ ms2) w = (.ok (), w2) →
      ∃ w1, importModules fuel ci ms1 w = (.ok (), w1) ∧
        importModules fuel ci ms2 w1 = (.ok (), w2) := by
  intro ms1
  induction ms1 with
  | nil =>
    intro ms2 w w2 h
    exact ⟨w, rfl, h⟩
  | cons m ms1 ih =>
    intro ms2 w w2 h
    rcases hie : importExports fuel ci m.container m.moduleExports w
      with ⟨ie, w1⟩
    rw [show (m :: ms1) ++ ms2 = m :: (ms1 ++ ms2) from rfl] at h
    cases ie with
    | error e =>
      simp only [importModules, hie] at h
      simp at h
    | ok u =>
      simp only [importModules, hie] at h
      obtain ⟨w3, h1, h2⟩ := ih ms2 w1 w2 h
      refine ⟨w3, ?_, h2⟩
      simp only [importModules, hie]
      exact h1

/-- The `imports.forEach` loop preserves a provider entry of a root
container other than the importing container (all imported modules live in
root containers). -/
theorem importModules_entry_pres (fc ci o : Nat) :
    ∀ (ms : List ModuleDef) (w : World) (tk : Token) (p : Prov) (w1 : World),
      importModules (fc + 1) ci ms w = (.ok (), w1) →
      (∀ m, m ∈ ms → parentAt w m.container = none) →
      parentAt w o = none → o ≠ ci →
      alGet? (providersAt w o) tk = some p →
      alGet? (providersAt w1 o) tk = some p := by
  intro ms
  induction ms with
  | nil =>
    intro w tk p w1 h _ _ _ hget
    cases h
    exact hget
  | cons m ms ih =>
    intro w tk p w1 h hroots ho hoci hget
    rcases hie : importExports (fc + 1) ci m.container m.moduleExports w
      with ⟨ie, w2⟩
    cases ie with
    | error e =>
      simp only [importModules, hie] at h
      simp at h
    | ok u =>
      simp only [importModules, hie] at h
      have hb := importExports_basic (fc + 1) ci m.container m.moduleExports w
      rw [hie] at hb
      have hget2 : alGet? (providersAt w2 o) tk = some p :=
        importExports_entry_pres fc ci m.container o m.moduleExports w tk p w2
          hie (hroots m (List.mem_cons_self m ms)) ho hoci hget
      exact ih w2 tk p w1 h
        (fun m2 hm2 => (hb.2.1 m2.container).trans
          (hroots m2 (List.mem_cons_of_mem m hm2)))
        ((hb.2.1 o).trans ho) hoci hget2

/-- The `imports.forEach` loop preserves an established export as long as
none of the remaining imports exports the same token. -/
theorem importModules_carry (fc ci o : Nat) :
    ∀ (ms : List ModuleDef) (w : World) (tk : Token) (v : Value) (w1 : World),
      importModules (fc + 1) ci ms w = (.ok (), w1) →
      (∀ m, m ∈ ms → parentAt w m.container = none ∧ m.container ≠ ci ∧
        tk ∉ m.moduleExports) →
      WFProv w → parentAt w o = none → o ≠ ci →
      StableAt w o tk v → ValueReady w ci tk v →
      StableAt w1 o tk v ∧ ValueReady w1 ci tk v := by
  intro ms
  induction ms with
  | nil =>
    intro w tk v w1 h _ _ _ _ hS hV
    cases h
    exact ⟨hS, hV⟩
  | cons m ms ih =>
    intro w tk v w1 h hms hwf ho hoci hS hV
    rcases hie : importExports (fc + 1) ci m.container m.moduleExports w
      with ⟨ie, w2⟩
    cases ie with
    | error e =>
      simp only [importModules, hie] at h
      simp at h
    | ok u =>
      simp only [importModules, hie] at h
      obtain ⟨hm1, hm2, hm3⟩ := hms m (List.mem_cons_self m ms)
      have hcar := importExports_carry_src fc ci m.container o m.moduleExports
        w tk v w2 hie hwf hm1 ho hm2 hoci hm3 hS hV
      have hb := importExports_basic (fc + 1) ci m.container m.moduleExports w
      rw [hie] at hb
      exact ih w2 tk v w1 h
        (fun m2 hm2' => ⟨(hb.2.1 m2.container).trans
            (hms m2 (List.mem_cons_of_mem m hm2')).1,
          (hms m2 (List.mem_cons_of_mem m hm2')).2.1,
          (hms m2 (List.mem_cons_of_mem m hm2')).2.2⟩)
        (hb.2.2 hwf) ((hb.2.1 o).trans ho) hoci hcar.1 hcar.2

/-- Tokens exported by none of the imported modules are never written into
the importing container by the `imports.forEach` loop. -/
theorem importModules_keys_ne (fc ci : Nat) :
    ∀ (ms : List ModuleDef) (w : World) (tk' : Token),
      (∀ m, m ∈ ms → parentAt w m.container = none ∧ m.container ≠ ci ∧
        tk' ∉ m.moduleExports) →
      alGet? (providersAt (importModules (fc + 1) ci ms w).2 ci) tk' =
        alGet? (providersAt w ci) tk' := by
  intro ms
  induction ms with
  | nil =>
    intro w tk' _
    rfl
  | cons m ms ih =>
    intro w tk' hms
    rcases hie : importExports (fc + 1) ci m.container m.moduleExports w
      with ⟨ie, w2⟩
    obtain ⟨hm1, hm2, hm3⟩ := hms m (List.mem_cons_self m ms)
    have hk := importExports_keys_ne fc ci m.container m.moduleExports w tk'
      hm1 hm2 hm3
    rw [hie] at hk
    have hb := importExports_basic (fc + 1) ci m.container m.moduleExports w
    rw [hie] at hb
    cases ie with
    | error e =>
      simp only [importModules, hie]
      exact hk
    | ok u =>
      simp only [importModules, hie]
      rw [ih w2 tk' (fun m2 hm2' => ⟨(hb.2.1 m2.container).trans
          (hms m2 (List.mem_cons_of_mem m hm2')).1,
        (hms m2 (List.mem_cons_of_mem m hm2')).2.1,
        (hms m2 (List.mem_cons_of_mem m hm2')).2.2⟩)]
      exact hk

/-- C5 counterexample: the original claim fails when the module's own
providers shadow an imported token.  `registerMany` runs after the import
loop, so `get` on the module container returns the module's own instance
(99), not the instance the imported module's container holds (7), even
though the token is exported by the import and resolvable there. -/
theorem C5_import_visibility_counterexample :
    (defineModuleF 3 exCfg5c exW5).1 = .ok exM5c ∧
    getF 3 (defineModuleF 3 exCfg5c exW5).2 exM5c.container (Token.str "E") =
      (.ok (Value.obj 99), (defineModuleF 3 exCfg5c exW5).2) ∧
    getF 3 (defineModuleF 3 exCfg5c exW5).2 exI5.container (Token.str "E") =
      (.ok (Value.obj 7), (defineModuleF 3 exCfg5c exW5).2) ∧
    (Value.obj 99 : Value) ≠ Value.obj 7 :=
  ⟨rfl, rfl, rfl, by decide⟩

/-- C5 (amended): module import/export visibility, for modules without
controllers (controller setups run arbitrary client code at definition
time) and whose imports live in root containers.  For any decomposition of
the import list as `pre ++ I :: post`: a token exported by `I`, backed by a
value or singleton provider of `I`'s container, not exported by any
later import and not provided by the module itself, becomes resolvable in `M`'s
container as a value provider holding the very instance `I`'s container
holds, and `get` returns that instance from both containers with no state
change.  A token exported by no import and not provided by the module
itself stays invisible: `has` on `M`'s container is false.  (Later imports
and the module's own providers overwrite earlier registrations — see the
counterexample — and a transient export holds no instance to share, whence
the lifetime hypothesis.) -/
theorem C5_module_import_export_visibility
    (f : Nat) (cfg : ModuleConfig) (w w' : World) (M : ModuleDef)
    (hctl : cfg.controllers = [])
    (hroots : ∀ m, m ∈ cfg.imports → parentAt w m.container = none)
    (hsrc : ∀ m, m ∈ cfg.imports → m.container < w.containers.length)
    (hwf : WFProv w)
    (hdm : defineModuleF (f + 1) cfg w = (.ok M, w')) :
    (∀ pre I post tk p,
      cfg.imports = pre ++ I :: post →
      tk ∈ I.moduleExports →
      alGet? (providersAt w I.container) tk = some p →
      (p.isValue = true ∨ p.effLifetime = Lifetime.singleton) →
      (∀ J, J ∈ post → tk ∉ J.moduleExports) →
      (∀ q, q ∈ cfg.providers → tk ≠ q.provide) →
      ∃ v, ValueReady w' M.container tk v ∧
        (∀ fg, getF (fg + 1) w' M.container tk = (.ok v, w')) ∧
        (∀ fg, getF (fg + 1) w' I.container tk = (.ok v, w'))) ∧
    (∀ tk', (∀ m, m ∈ cfg.imports → tk' ∉ m.moduleExports) →
      (∀ q, q ∈ cfg.providers → tk' ≠ q.provide) →
      hasC w' M.container tk' = false) := by
  rcases hims : importModules (f + 1) (newContainer w).2 cfg.imports
      (newContainer w).1 with ⟨im, w1⟩
  cases im with
  | error e =>
    simp only [defineModuleF, hims] at hdm
    simp at hdm
  | ok u =>
    simp only [defineModuleF, hims] at hdm
    simp only [Prod.mk.injEq, Except.ok.injEq] at hdm
    obtain ⟨hM, hw'⟩ := hdm
    subst hM
    subst hw'
    have hprov0 : providersAt (newContainer w).1 (newContainer w).2 = [] := by
      show (containerAt (newContainer w).1 (newContainer w).2).providers = []
      rw [containerAt_newContainer,
        if_pos (show (newContainer w).2 = w.containers.length from rfl)]
    have hroot0ci : parentAt (newContainer w).1 (newContainer w).2 = none := by
      show (containerAt (newContainer w).1 (newContainer w).2).parent = none
      rw [containerAt_newContainer,
        if_pos (show (newContainer w).2 = w.containers.length from rfl)]
    have hwf0 : WFProv (newContainer w).1 := by
      intro i k p hp
      by_cases hi : i = w.containers.length
      · exfalso
        rw [show providersAt (newContainer w).1 i =
          (containerAt (newContainer w).1 i).providers from rfl,
          containerAt_newContainer, if_pos hi] at hp
        cases hp
      · rw [show providersAt (newContainer w).1 i =
          (containerAt (newContainer w).1 i).providers from rfl,
          containerAt_newContainer, if_neg hi] at hp
        exact hwf i k p hp
    have hci0 : (newContainer w).2 < (newContainer w).1.containers.length := by
      show w.containers.length <
        (w.containers ++ [(⟨[], [], none⟩ : Container)]).length
      simp
    have hneci : ∀ m, m ∈ cfg.imports → m.container ≠ (newContainer w).2 :=
      fun m hm => Nat.ne_of_lt (hsrc m hm)
    have hroots0 : ∀ m, m ∈ cfg.imports →
        parentAt (newContainer w).1 m.container = none := by
      intro m hm
      show (containerAt (newContainer w).1 m.container).parent = none
      rw [containerAt_newContainer,
        if_neg (show ¬ m.container = w.containers.length from
          Nat.ne_of_lt (hsrc m hm))]
      exact hroots m hm
    constructor
    · intro pre I post tk p hsplit hmem hget hp hpost hnotown
      have hmemc : ∀ m : ModuleDef, m ∈ pre ∨ m = I ∨ m ∈ post →
          m ∈ cfg.imports := by
        intro m hm
        rw [hsplit]
        rcases hm with h0 | h0 | h0
        · exact List.mem_append.mpr (Or.inl h0)
        · refine List.mem_append.mpr (Or.inr ?_)
          rw [h0]
          exact List.mem_cons_self _ _
        · exact List.mem_append.mpr (Or.inr (List.mem_cons_of_mem _ h0))
      rw [hsplit] at hims
      obtain ⟨wp, hpre, hrest⟩ := importModules_append (f + 1)
        (newContainer w).2 pre (I :: post) (newContainer w).1 w1 hims
      rcases hieI : importExports (f + 1) (newContainer w).2 I.container
        I.moduleExports wp with ⟨ieI, wI⟩
      cases ieI with
      | error e' =>
        simp only [importModules, hieI] at hrest
        simp at hrest
      | ok uI =>
        simp only [importModules, hieI] at hrest
        have hbpre := importModules_basic (f + 1) (newContainer w).2 pre
          (newContainer w).1
        rw [hpre] at hbpre
        have hImem : I ∈ cfg.imports := hmemc I (Or.inr (Or.inl rfl))
        have hIroot0 : parentAt (newContainer w).1 I.container = none :=
          hroots0 I hImem
        have hIci : I.container ≠ (newContainer w).2 := hneci I hImem
        have hIrootp : parentAt wp I.container = none :=
          (hbpre.2.1 I.container).trans hIroot0
        have hwfp : WFProv wp := hbpre.2.2 hwf0
        have hcip : (newContainer w).2 < wp.containers.length := by
          rw [hbpre.1]
          exact hci0
        have hget0 : alGet? (providersAt (newContainer w).1 I.container) tk =
            some p := by
          show alGet? (containerAt (newContainer w).1 I.container).providers
            tk = some p
          rw [containerAt_newContainer,
            if_neg (show ¬ I.container = w.containers.length from
              Nat.ne_of_lt (hsrc I hImem))]
          exact hget
        have hgetp : alGet? (providersAt wp I.container) tk = some p :=
          importModules_entry_pres f (newContainer w).2 I.container pre
            (newContainer w).1 tk p wp hpre
            (fun m hm => hroots0 m (hmemc m (Or.inl hm))) hIroot0 hIci hget0
        obtain ⟨v, hS, hV⟩ := importExports_establish f (newContainer w).2
          I.container I.moduleExports wp tk p wI hieI hwfp hIrootp hIci hcip
          hmem hgetp hp
        have hbI := importExports_basic (f + 1) (newContainer w).2 I.container
          I.moduleExports wp
        rw [hieI] at hbI
        have hpost' : ∀ m, m ∈ post →
            parentAt wI m.container = none ∧
            m.container ≠ (newContainer w).2 ∧ tk ∉ m.moduleExports := by
          intro m hm
          refine ⟨?_, hneci m (hmemc m (Or.inr (Or.inr hm))), hpost m hm⟩
          exact (hbI.2.1 m.container).trans ((hbpre.2.1 m.container).trans
            (hroots0 m (hmemc m (Or.inr (Or.inr hm)))))
        obtain ⟨hS1, hV1⟩ := importModules_carry f (newContainer w).2
          I.container post wI tk v w1 hrest hpost' (hbI.2.2 hwfp)
          ((hbI.2.1 I.container).trans hIrootp) hIci hS hV
        have hV' : ValueReady (registerManyC w1 (newContainer w).2
            cfg.providers) (newContainer w).2 tk v := by
          constructor
          · rw [registerManyC_provGet_ne w1 (newContainer w).2 cfg.providers tk
              hnotown (newContainer w).2]
            exact hV1.1
          · show instAt (registerManyC w1 (newContainer w).2 cfg.providers)
              (newContainer w).2 tk = some v
            rw [registerManyC_instAt_ne w1 (newContainer w).2 cfg.providers tk
              hnotown (newContainer w).2]
            exact hV1.2
        have hS' : StableAt (registerManyC w1 (newContainer w).2 cfg.providers)
            I.container tk v :=
          StableAt_of_containerAt_eq _ _ _ _ _
            (registerManyC_containerAt_ne w1 (newContainer w).2 cfg.providers
              I.container hIci) hS1
        refine ⟨v, ?_, ?_, ?_⟩
        · simp only [ModuleDef.container]
          exact hV'
        · intro fg
          have hlk := lookupProvider_first_hit
            (registerManyC w1 (newContainer w).2 cfg.providers)
            (newContainer w).2 tk (.value tk v) hV'.1
          have hres := resolveF_value fg (newContainer w).2 tk []
            (registerManyC w1 (newContainer w).2 cfg.providers) tk v
            (newContainer w).2 hlk
          show ((resolveF (fg + 1) (newContainer w).2 tk []
              (registerManyC w1 (newContainer w).2 cfg.providers)).1,
            (resolveF (fg + 1) (newContainer w).2 tk []
              (registerManyC w1 (newContainer w).2 cfg.providers)).2.1) = _
          rw [hres]
        · intro fg
          have hres := StableAt_get
            (registerManyC w1 (newContainer w).2 cfg.providers)
            I.container tk v hS' fg []
          show ((resolveF (fg + 1) I.container tk []
              (registerManyC w1 (newContainer w).2 cfg.providers)).1,
            (resolveF (fg + 1) I.container tk []
              (registerManyC w1 (newContainer w).2 cfg.providers)).2.1) = _
          rw [hres]
    · intro tk' hnexp hnotown
      have hconds : ∀ m, m ∈ cfg.imports →
          parentAt (newContainer w).1 m.container = none ∧
          m.container ≠ (newContainer w).2 ∧ tk' ∉ m.moduleExports :=
        fun m hm => ⟨hroots0 m hm, hneci m hm, hnexp m hm⟩
      have hk := importModules_keys_ne f (newContainer w).2 cfg.imports
        (newContainer w).1 tk' hconds
      rw [hims] at hk
      have hb := importModules_basic (f + 1) (newContainer w).2 cfg.imports
        (newContainer w).1
      rw [hims] at hb
      have hpar1 : parentAt w1 (newContainer w).2 = none :=
        (hb.2.1 (newContainer w).2).trans hroot0ci
      have hpar' : parentAt (registerManyC w1 (newContainer w).2 cfg.providers)
          (newContainer w).2 = none := by
        rw [registerManyC_parentAt]
        exact hpar1
      have hkeys : alGet? (providersAt w1 (newContainer w).2) tk' = none := by
        have h1 : alGet? (providersAt w1 (newContainer w).2) tk' =
          alGet? (providersAt (newContainer w).1 (newContainer w).2) tk' := hk
        rw [h1, hprov0]
        rfl
      have hknone : alGet? (providersAt
          (registerManyC w1 (newContainer w).2 cfg.providers)
          (newContainer w).2) tk' = none := by
        rw [registerManyC_provGet_ne w1 (newContainer w).2 cfg.providers tk'
          hnotown]
        exact hkeys
      simp only [ModuleDef.container]
      rw [hasC_eq_lookupProvider_isSome, lookupProvider_root _ _ _ hpar', hknone]
      rfl

theorem exW5_wf : WFProv exW5 := by
  apply WFProv_single
  intro k p hp
  simp only [alGet?] at hp
  by_cases h1 : Token.str "E" = k
  · rw [if_pos h1] at hp
    cases hp
    exact h1
  · rw [if_neg h1] at hp
    by_cases h2 : Token.str "P" = k
    · rw [if_pos h2] at hp
      cases hp
      exact h2
    · rw [if_neg h2] at hp
      cases hp

/-- Witness for C5 (amended): importing `exI5` into a controller-free fresh
module makes the exported token `E` resolvable in the module container with
the instance held by the source container, while the unexported token `P`
stays invisible. -/
theorem C5_module_import_export_visibility_witness :
    (∃ v, ValueReady exW5r exM5.container (Token.str "E") v ∧
      (∀ fg, getF (fg + 1) exW5r exM5.container (Token.str "E") =
        (.ok v, exW5r)) ∧
      (∀ fg, getF (fg + 1) exW5r exI5.container (Token.str "E") =
        (.ok v, exW5r))) ∧
    hasC exW5r exM5.container (Token.str "P") = false := by
  have h := C5_module_import_export_visibility 1 exCfg5 exW5 exW5r exM5 rfl
    (by
      intro m hm
      cases hm with
      | head => rfl
      | tail _ h0 => cases h0)
    (by
      intro m hm
      cases hm with
      | head => decide
      | tail _ h0 => cases h0)
    exW5_wf rfl
  refine ⟨h.1 [] exI5 [] (Token.str "E")
    (Prov.value (Token.str "E") (Value.obj 7)) rfl (by decide) rfl
    (Or.inl rfl) ?_ ?_, h.2 (Token.str "P") ?_ ?_⟩
  · intro J hJ
    cases hJ
  · intro q hq
    cases hq
  · intro m hm
    cases hm with
    | head => decide
    | tail _ h0 => cases h0
  · intro q hq
    cases hq

theorem mem_addUnique (acc : List ControllerDef) (a c : ControllerDef) :
    c ∈ addUnique acc a ↔ c ∈ acc ∨ c = a := by
  unfold addUnique
  by_cases h : a ∈ acc
  · rw [if_pos h]
    constructor
    · exact Or.inl
    · rintro (h1 | h1)
      · exact h1
      · rw [h1]
        exact h
  · rw [if_neg h]
    simp

theorem nodup_addUnique (acc : List ControllerDef) (a : ControllerDef)
    (h : acc.Nodup) : (addUnique acc a).Nodup := by
  unfold addUnique
  by_cases ha : a ∈ acc
  · rw [if_pos ha]
    exact h
  · rw [if_neg ha]
    simp [List.nodup_append, h, ha]

theorem mem_foldl_addUnique (cs : List ControllerDef) :
    ∀ (acc : List ControllerDef) (c : ControllerDef),
      c ∈ cs.foldl addUnique acc ↔ c ∈ acc ∨ c ∈ cs := by
  induction cs with
  | nil =>
    intro acc c
    simp
  | cons a cs ih =>
    intro acc c
    show c ∈ cs.foldl addUnique (addUnique acc a) ↔ _
    rw [ih, mem_addUnique]
    constructor
    · rintro ((h | h) | h)
      · exact Or.inl h
      · refine Or.inr ?_
        rw [h]
        exact List.mem_cons_self a cs
      · exact Or.inr (List.mem_cons_of_mem a h)
    · rintro (h | h)
      · exact Or.inl (Or.inl h)
      · rcases List.mem_cons.mp h with h | h
        · exact Or.inl (Or.inr h)
        · exact Or.inr h

theorem nodup_foldl_addUnique (cs : List ControllerDef) :
    ∀ acc : List ControllerDef, acc.Nodup → (cs.foldl addUnique acc).Nodup := by
  induction cs with
  | nil =>
    intro acc h
    exact h
  | cons a cs ih =>
    intro acc h
    exact ih (addUnique acc a) (nodup_addUnique acc a h)

theorem Reaches_iff (m t : ModuleDef) :
    Reaches m t ↔ t = m ∨ ∃ i, i ∈ m.imports ∧ Reaches i t := by
  constructor
  · intro h
    cases h with
    | refl _ => exact Or.inl rfl
    | imp hi hr => exact Or.inr ⟨_, hi, hr⟩
  · rintro (h | ⟨i, hi, hr⟩)
    · rw [h]
      exact Reaches.refl m
    · exact Reaches.imp hi hr

theorem filter_eq_nil_of_not_mem {α : Type} [DecidableEq α] (l : List α)
    (a : α) (ha : a ∉ l) : l.filter (fun e => decide (e = a)) = [] := by
  induction l with
  | nil => rfl
  | cons x xs ih =>
    have hx : ¬ x = a := by
      intro h0
      apply ha
      rw [← h0]
      exact List.mem_cons_self x xs
    have ht : xs.filter (fun e => decide (e = a)) = [] :=
      ih (fun h0 => ha (List.mem_cons_of_mem x h0))
    simp [List.filter_cons, hx, ht]

theorem length_filter_eq_one_of_nodup {α : Type} [DecidableEq α] :
    ∀ (l : List α) (a : α), l.Nodup → a ∈ l →
      (l.filter (fun e => decide (e = a))).length = 1 := by
  intro l
  induction l with
  | nil =>
    intro a _ ha
    cases ha
  | cons x xs ih =>
    intro a hnd ha
    rcases List.mem_cons.mp ha with h0 | h0
    · subst h0
      have hnx : a ∉ xs := (List.nodup_cons.mp hnd).1
      rw [show (a :: xs).filter (fun e => decide (e = a)) =
        a :: xs.filter (fun e => decide (e = a)) from by
          simp [List.filter_cons]]
      rw [filter_eq_nil_of_not_mem xs a hnx]
      rfl
    · have hxne : ¬ x = a := by
        intro h1
        rw [h1] at hnd
        exact (List.nodup_cons.mp hnd).1 h0
      rw [show (x :: xs).filter (fun e => decide (e = a)) =
        xs.filter (fun e => decide (e = a)) from by
          simp [List.filter_cons, hxne]]
      exact ih a (List.nodup_cons.mp hnd).2 h0

/-- The worklist collector is sound and complete for reachability, and keeps
the accumulator duplicate-free. -/
theorem collectWork_spec :
    ∀ (f : Nat) (ms : List ModuleDef) (acc L : List ControllerDef),
      collectWork f ms acc = some L →
      (acc.Nodup → L.Nodup) ∧
      ∀ c, c ∈ L ↔ c ∈ acc ∨
        ∃ m, m ∈ ms ∧ ∃ m', Reaches m m' ∧ c ∈ m'.controllers := by
  intro f
  induction f with
  | zero =>
    intro ms acc L h
    cases h
  | succ f ih =>
    intro ms acc L h
    cases ms with
    | nil =>
      simp only [collectWork, Option.some.injEq] at h
      subst h
      refine ⟨fun hn => hn, fun c => ?_⟩
      simp
    | cons m ms =>
      cases m with
      | mk cs imps es ps ci =>
        simp only [collectWork] at h
        obtain ⟨hnd, hmem⟩ := ih (imps ++ ms) (cs.foldl addUnique acc) L h
        refine ⟨fun hn => hnd (nodup_foldl_addUnique cs acc hn), fun c => ?_⟩
        have hR : (∃ m', Reaches (ModuleDef.mk cs imps es ps ci) m' ∧
            c ∈ m'.controllers) ↔
            c ∈ cs ∨ ∃ m, m ∈ imps ∧ ∃ m', Reaches m m' ∧
              c ∈ m'.controllers := by
          constructor
          · rintro ⟨m', hr, hc⟩
            rcases (Reaches_iff _ _).mp hr with h0 | ⟨i, hi, hr'⟩
            · subst h0
              exact Or.inl hc
            · exact Or.inr ⟨i, hi, m', hr', hc⟩
          · rintro (hc | ⟨i, hi, m', hr, hc⟩)
            · exact ⟨ModuleDef.mk cs imps es ps ci, Reaches.refl _, hc⟩
            · exact ⟨m', Reaches.imp hi hr, hc⟩
        rw [hmem c, mem_foldl_addUnique cs acc c]
        simp only [List.mem_append, List.mem_cons]
        constructor
        · rintro ((h0 | h0) | ⟨m, (h0 | h0), hm⟩)
          · exact Or.inl h0
          · exact Or.inr ⟨_, Or.inl rfl, hR.mpr (Or.inl h0)⟩
          · exact Or.inr ⟨_, Or.inl rfl, hR.mpr (Or.inr ⟨m, h0, hm⟩)⟩
          · exact Or.inr ⟨m, Or.inr h0, hm⟩
        · rintro (h0 | ⟨m, (h0 | h0), hm⟩)
          · exact Or.inl (Or.inl h0)
          · subst h0
            rcases hR.mp hm with h1 | ⟨i, hi, h1⟩
            · exact Or.inl (Or.inr h1)
            · exact Or.inr ⟨i, Or.inl hi, h1⟩
          · exact Or.inr ⟨m, Or.inr h0, hm⟩

/-- C6: `createApp` flattens the module tree.  Whenever it returns an app,
a controller is mounted (at its declared prefix) exactly when it belongs to
the root module or to a module reachable transitively through imports, the
mount list is duplicate-free, and each reachable controller is mounted
exactly once. -/
theorem C6_create_app_flattens
    (f : Nat) (root : ModuleDef) (app : KahelAppModel)
    (h : createAppF f root = some app) :
    (∀ c, (c.pfx, c) ∈ app.mounted ↔
      ∃ m', Reaches root m' ∧ c ∈ m'.controllers) ∧
    app.mounted.Nodup ∧
    (∀ c, (∃ m', Reaches root m' ∧ c ∈ m'.controllers) →
      (app.mounted.filter (fun e => decide (e = (c.pfx, c)))).length = 1) := by
  cases hc : collectWork f [root] [] with
  | none =>
    rw [createAppF, hc] at h
    cases h
  | some L =>
    rw [createAppF, hc] at h
    injection h with h
    subst h
    obtain ⟨hnd, hmem⟩ := collectWork_spec f [root] [] L hc
    have hmem' : ∀ c, c ∈ L ↔ ∃ m', Reaches root m' ∧ c ∈ m'.controllers := by
      intro c
      rw [hmem c]
      simp
    have hndL : L.Nodup := hnd List.nodup_nil
    have hmap : ∀ c, (c.pfx, c) ∈ L.map (fun c => (c.pfx, c)) ↔ c ∈ L := by
      intro c
      simp only [List.mem_map]
      constructor
      · rintro ⟨c', hc', he⟩
        have h1 : c' = c := congrArg Prod.snd he
        rw [← h1]
        exact hc'
      · intro hcL
        exact ⟨c, hcL, rfl⟩
    have hinj : Function.Injective (fun c : ControllerDef => (c.pfx, c)) :=
      fun a b hab => congrArg Prod.snd hab
    have hndm : (L.map (fun c => (c.pfx, c))).Nodup :=
      List.Nodup.map hinj hndL
    refine ⟨?_, hndm, ?_⟩
    · intro c
      show (c.pfx, c) ∈ L.map (fun c => (c.pfx, c)) ↔ _
      rw [hmap c, hmem' c]
    · intro c hc'
      refine length_filter_eq_one_of_nodup (L.map (fun c => (c.pfx, c)))
        (c.pfx, c) hndm ?_
      exact (hmap c).mpr ((hmem' c).mpr hc')

/-- Witness for C6 on a diamond-shaped module tree: the shared module is
reached along two import paths but its controller is mounted once. -/
theorem C6_create_app_flattens_witness :
    (∀ c, (c.pfx, c) ∈ exApp6.mounted ↔
      ∃ m', Reaches exRoot6 m' ∧ c ∈ m'.controllers) ∧
    exApp6.mounted.Nodup ∧
    (∀ c, (∃ m', Reaches exRoot6 m' ∧ c ∈ m'.controllers) →
      (exApp6.mounted.filter (fun e => decide (e = (c.pfx, c)))).length = 1) :=
  C6_create_app_flattens 9 exRoot6 exApp6 rfl

/-- C8: the value `createApp` returns is a restricted view of the router:
its static interface (the `KahelApp` type,
`Omit<Hono, 'use' | 'route' | 'mount' | 'basePath'>`) exposes none of the
four post-creation modification operations, while every method it does
expose is a method of the underlying router. -/
theorem C8_restricted_app_view
    (f : Nat) (root : ModuleDef) (app : KahelAppModel)
    (h : createAppF f root = some app) :
    ("use" ∉ app.exposes ∧ "route" ∉ app.exposes ∧ "mount" ∉ app.exposes ∧
     "basePath" ∉ app.exposes) ∧
    (∀ m, m ∈ kahelOmittedMethods → m ∉ app.exposes) ∧
    (∀ m, m ∈ app.exposes → m ∈ honoMethods) := by
  have happ : app.exposes = kahelAppMethods := by
    cases hc : collectWork f [root] [] with
    | none =>
      rw [createAppF, hc] at h
      cases h
    | some L =>
      rw [createAppF, hc] at h
      injection h with h
      rw [← h]
  rw [happ]
  exact ⟨by decide, by decide, by decide⟩

/-- Witness for C8 on the concrete C6 module tree. -/
theorem C8_restricted_app_view_witness :
    ("use" ∉ exApp6.exposes ∧ "route" ∉ exApp6.exposes ∧
     "mount" ∉ exApp6.exposes ∧ "basePath" ∉ exApp6.exposes) ∧
    (∀ m, m ∈ kahelOmittedMethods → m ∉ exApp6.exposes) ∧
    (∀ m, m ∈ exApp6.exposes → m ∈ honoMethods) :=
  C8_restricted_app_view 9 exRoot6 exApp6 rfl

/-- C7 counterexample: `defineModule` does NOT eagerly resolve the module's
own registered providers.  For a module whose only content is a factory
provider (no imports, no controllers), `defineModule` succeeds, yet the
factory is never invoked (the call log stays empty) and no instance exists
for its token in the module container when `defineModule` returns. -/
theorem C7_eager_resolution_counterexample :
    (defineModuleF 5 exCfg7 exW7).1 = .ok exM7 ∧
    (defineModuleF 5 exCfg7 exW7).2.calls = [] ∧
    instAt (defineModuleF 5 exCfg7 exW7).2 exM7.container (Token.str "S") =
      none :=
  ⟨rfl, rfl, rfl⟩

/-- C7 (amended): for modules with no imports and no controllers,
`defineModule` defers all resolution: the world's invocation log is
unchanged, and a token all of whose registered providers are non-value
(class/factory) providers has no instance in the module's container when
`defineModule` returns — instances are created on first `get`, not at
module creation. -/
theorem C7_lazy_registration
    (f : Nat) (cfg : ModuleConfig) (w : World) (M : ModuleDef) (w' : World)
    (himp : cfg.imports = [])
    (hctl : cfg.controllers = [])
    (hdm : defineModuleF f cfg w = (.ok M, w')) :
    w'.calls = w.calls ∧
    (∀ tk, (∀ p, p ∈ cfg.providers → p.provide = tk → p.isValue = false) →
      instAt w' M.container tk = none) := by
  simp only [defineModuleF, himp, importModules] at hdm
  simp only [Prod.mk.injEq, Except.ok.injEq] at hdm
  obtain ⟨hM, hw'⟩ := hdm
  subst hM
  subst hw'
  constructor
  · rw [registerManyC_calls]
    rfl
  · intro tk hk
    simp only [ModuleDef.container]
    apply registerManyC_instAt_nonvalue (newContainer w).1 (newContainer w).2
      cfg.providers tk hk
    show alGet? (containerAt (newContainer w).1 (newContainer w).2).instances
      tk = none
    rw [containerAt_newContainer,
      if_pos (show (newContainer w).2 = w.containers.length from rfl)]
    rfl

/-- Witness for C7 (amended) on the concrete factory-only module. -/
theorem C7_lazy_registration_witness :
    exW7r.calls = exW7.calls ∧
    instAt exW7r exM7.container (Token.str "S") = none := by
  have h := C7_lazy_registration 5 exCfg7 exW7 exM7 exW7r rfl rfl rfl
  refine ⟨h.1, h.2 (Token.str "S") ?_⟩
  intro p hp hpk
  cases hp with
  | head => rfl
  | tail _ h0 => cases h0

theorem getD_mem (L : List Token) (k : Nat) (d : Token) (h : k < L.length) :
    L.getD k d ∈ L := by
  induction L generalizing k with
  | nil => simp at h
  | cons x xs ih =>
    cases k with
    | zero => exact List.mem_cons_self x xs
    | succ n =>
      exact List.mem_cons_of_mem x (ih n (by simpa using h))

theorem take_succ_getD (L : List Token) (k : Nat) (d : Token)
    (h : k < L.length) : L.take (k + 1) = L.take k ++ [L.getD k d] := by
  induction L generalizing k with
  | nil => simp at h
  | cons x xs ih =>
    cases k with
    | zero => rfl
    | succ n =>
      show x :: xs.take (n + 1) = x :: xs.take n ++ [xs.getD n d]
      rw [ih n (by simpa using h)]
      rfl

theorem nodup_getD_not_mem_take (L : List Token) (hnd : L.Nodup) (k : Nat)
    (d : Token) (hk : k < L.length) : L.getD k d ∉ L.take k := by
  induction L generalizing k with
  | nil => simp at hk
  | cons x xs ih =>
    obtain ⟨hx, hxs⟩ := List.nodup_cons.mp hnd
    cases k with
    | zero => simp
    | succ n =>
      intro hmem
      rcases List.mem_cons.mp hmem with heq | hmem'
      · exact hx (heq ▸ getD_mem xs n d (by simpa using hk))
      · exact ih hxs n (by simpa using hk) hmem'

/-- C1 cycle induction: walking a simple dependency cycle from its `j`-th
last element with the earlier cycle tokens already in the resolving set
reaches the revisit of the first token and throws the circular-dependency
error, restoring the state.  (`j` counts the steps still to take.) -/
theorem cycle_resolution_aux (w : World) (ci : Nat) (L : List Token)
    (dflt : Token) (bodies : Nat → FSpec) (ars : Nat → Nat)
    (lts : Nat → Option Lifetime) (hL : L ≠ []) (hnd : L.Nodup)
    (hprov : ∀ k, k < L.length →
      alGet? (providersAt w ci) (L.getD k dflt) =
        some (.factory (L.getD k dflt) (bodies k) (ars k)
          (some [L.getD ((k + 1) % L.length) dflt]) (lts k)))
    (hinst : ∀ k, k < L.length → instAt w ci (L.getD k dflt) = none) :
    ∀ (j : Nat), j ≤ L.length → ∀ f, j < f →
      resolveF f ci (L.getD ((L.length - j) % L.length) dflt)
        (L.take (L.length - j)) w =
      (.error (mkCircularMsg (L.map getTokenName)
        (getTokenName (L.getD 0 dflt))), w, L.take (L.length - j)) := by
  have hn : 0 < L.length := List.length_pos.mpr hL
  intro j
  induction j with
  | zero =>
    intro _ f hf
    cases f with
    | zero => omega
    | succ f' =>
      simp only [Nat.sub_zero, Nat.mod_self, List.take_length]
      have hlook : lookupProvider w ci (L.getD 0 dflt) =
          some (.factory (L.getD 0 dflt) (bodies 0) (ars 0)
            (some [L.getD (1 % L.length) dflt]) (lts 0), ci) :=
        lookupProvider_first_hit w ci _ _ (hprov 0 hn)
      have hc : (if (Prov.factory (L.getD 0 dflt) (bodies 0) (ars 0)
            (some [L.getD (1 % L.length) dflt]) (lts 0)).effLifetime =
              Lifetime.singleton
          then alGet? (instancesAt w ci)
            (Prov.factory (L.getD 0 dflt) (bodies 0) (ars 0)
              (some [L.getD (1 % L.length) dflt]) (lts 0)).provide
          else none) = none := by
        by_cases hs : (Prov.factory (L.getD 0 dflt) (bodies 0) (ars 0)
            (some [L.getD (1 % L.length) dflt]) (lts 0)).effLifetime =
              Lifetime.singleton
        · rw [if_pos hs]
          exact hinst 0 hn
        · rw [if_neg hs]
      have hmem : (Prov.factory (L.getD 0 dflt) (bodies 0) (ars 0)
          (some [L.getD (1 % L.length) dflt]) (lts 0)).provide ∈ L :=
        getD_mem L 0 dflt hn
      simp only [resolveF, hlook, hc, if_pos hmem]
      rfl
  | succ j ih =>
    intro hj f hf
    cases f with
    | zero => omega
    | succ f' =>
      have hk : L.length - (j + 1) < L.length := by omega
      have hkmod : (L.length - (j + 1)) % L.length = L.length - (j + 1) :=
        Nat.mod_eq_of_lt hk
      rw [hkmod]
      have hlook : lookupProvider w ci (L.getD (L.length - (j + 1)) dflt) =
          some (.factory (L.getD (L.length - (j + 1)) dflt)
            (bodies (L.length - (j + 1))) (ars (L.length - (j + 1)))
            (some [L.getD ((L.length - (j + 1) + 1) % L.length) dflt])
            (lts (L.length - (j + 1))), ci) :=
        lookupProvider_first_hit w ci _ _ (hprov (L.length - (j + 1)) hk)
      have hc : (if (Prov.factory (L.getD (L.length - (j + 1)) dflt)
            (bodies (L.length - (j + 1))) (ars (L.length - (j + 1)))
            (some [L.getD ((L.length - (j + 1) + 1) % L.length) dflt])
            (lts (L.length - (j + 1)))).effLifetime = Lifetime.singleton
          then alGet? (instancesAt w ci)
            (Prov.factory (L.getD (L.length - (j + 1)) dflt)
              (bodies (L.length - (j + 1))) (ars (L.length - (j + 1)))
              (some [L.getD ((L.length - (j + 1) + 1) % L.length) dflt])
              (lts (L.length - (j + 1)))).provide
          else none) = none := by
        by_cases hs : (Prov.factory (L.getD (L.length - (j + 1)) dflt)
            (bodies (L.length - (j + 1))) (ars (L.length - (j + 1)))
            (some [L.getD ((L.length - (j + 1) + 1) % L.length) dflt])
            (lts (L.length - (j + 1)))).effLifetime = Lifetime.singleton
        · rw [if_pos hs]
          exact hinst (L.length - (j + 1)) hk
        · rw [if_neg hs]
      have hmem : (Prov.factory (L.getD (L.length - (j + 1)) dflt)
          (bodies (L.length - (j + 1))) (ars (L.length - (j + 1)))
          (some [L.getD ((L.length - (j + 1) + 1) % L.length) dflt])
          (lts (L.length - (j + 1)))).provide ∉ L.take (L.length - (j + 1)) :=
        nodup_getD_not_mem_take L hnd (L.length - (j + 1)) dflt hk
      have hadd : resAdd (L.take (L.length - (j + 1)))
          (Prov.factory (L.getD (L.length - (j + 1)) dflt)
            (bodies (L.length - (j + 1))) (ars (L.length - (j + 1)))
            (some [L.getD ((L.length - (j + 1) + 1) % L.length) dflt])
            (lts (L.length - (j + 1)))).provide =
          L.take (L.length - (j + 1) + 1) := by
        rw [resAdd_not_mem _ _ hmem]
        exact (take_succ_getD L (L.length - (j + 1)) dflt hk).symm
      have hk1 : L.length - j = L.length - (j + 1) + 1 := by omega
      have ihEq := ih (by omega) f' (by omega)
      rw [hk1] at ihEq
      have hinstEq : instantiateProviderF (fun d r w' => resolveF f' ci d r w')
          (.factory (L.getD (L.length - (j + 1)) dflt)
            (bodies (L.length - (j + 1))) (ars (L.length - (j + 1)))
            (some [L.getD ((L.length - (j + 1) + 1) % L.length) dflt])
            (lts (L.length - (j + 1))))
          (L.take (L.length - (j + 1) + 1)) w =
          (.error (mkCircularMsg (L.map getTokenName)
            (getTokenName (L.getD 0 dflt))), w,
           L.take (L.length - (j + 1) + 1)) := by
        simp only [instantiateProviderF, Option.getD_some, resolveList, ihEq]
      have herase : (L.take (L.length - (j + 1) + 1)).erase
          (Prov.factory (L.getD (L.length - (j + 1)) dflt)
            (bodies (L.length - (j + 1))) (ars (L.length - (j + 1)))
            (some [L.getD ((L.length - (j + 1) + 1) % L.length) dflt])
            (lts (L.length - (j + 1)))).provide =
          L.take (L.length - (j + 1)) := by
        rw [take_succ_getD L (L.length - (j + 1)) dflt hk]
        exact erase_appended _ _ hmem
      simp only [resolveF, hlook, hc, if_neg hmem, hadd, hinstEq, herase]

/-- C1 counterexample: the providers of `exW1` form the declared cycle
`A -> B -> A` (with `A` also declaring the unregistered `Missing` first) and
`A` is on the cycle, yet `get(A)` throws the missing-provider error — not
the circular-dependency report with the chain `A -> B -> A` the claim
requires (nor a circular report with any other chain: the message starts
with `No provider found`, not `Circular dependency detected`). -/
theorem C1_cycle_error_counterexample :
    getF 10 exW1 0 (Token.str "A") =
      (.error (mkMissingMsg "Missing" ["A"]), exW1) ∧
    mkMissingMsg "Missing" ["A"] ≠ mkCircularMsg ["A", "B"] "A" := by
  constructor
  · rfl
  · decide

/-- C1 (amended): for every nonempty duplicate-free list of tokens, each
registered in the container as a factory provider whose declared
dependencies are exactly the next token of the list (cyclically), with no
cached instances, `get` on the first token throws — with any fuel beyond the
cycle length, expressing that it cannot loop forever — the
circular-dependency error whose diagnostic chain is the token names from
the first token around the cycle back to the first token, and the state is
unchanged. -/
theorem C1_circular_dependency_detected (w : World) (ci : Nat) (L : List Token)
    (dflt : Token) (bodies : Nat → FSpec) (ars : Nat → Nat)
    (lts : Nat → Option Lifetime) (hL : L ≠ []) (hnd : L.Nodup)
    (hprov : ∀ k, k < L.length →
      alGet? (providersAt w ci) (L.getD k dflt) =
        some (.factory (L.getD k dflt) (bodies k) (ars k)
          (some [L.getD ((k + 1) % L.length) dflt]) (lts k)))
    (hinst : ∀ k, k < L.length → instAt w ci (L.getD k dflt) = none) :
    ∀ f, L.length < f →
      resolveF f ci (L.getD 0 dflt) [] w =
        (.error (mkCircularMsg (L.map getTokenName)
          (getTokenName (L.getD 0 dflt))), w, []) ∧
      getF f w ci (L.getD 0 dflt) =
        (.error (mkCircularMsg (L.map getTokenName)
          (getTokenName (L.getD 0 dflt))), w) := by
  intro f hf
  have h := cycle_resolution_aux w ci L dflt bodies ars lts hL hnd hprov hinst
    L.length (le_refl _) f hf
  rw [Nat.sub_self, Nat.zero_mod, List.take_zero] at h
  refine ⟨h, ?_⟩
  show ((resolveF f ci (L.getD 0 dflt) [] w).1,
    (resolveF f ci (L.getD 0 dflt) [] w).2.1) = _
  rw [h]

/-- C1 witness: the pure two-cycle `A -> B -> A` yields the circular error
with chain `A -> B -> A`. -/
theorem C1_circular_dependency_detected_witness :
    ([Token.str "A", Token.str "B"] : List Token) ≠ [] ∧
    ([Token.str "A", Token.str "B"] : List Token).Nodup ∧
    resolveF 3 0 (Token.str "A") [] exW1c =
      (.error (mkCircularMsg ["A", "B"] "A"), exW1c, []) ∧
    getF 3 exW1c 0 (Token.str "A") =
      (.error (mkCircularMsg ["A", "B"] "A"), exW1c) := by
  have h := C1_circular_dependency_detected exW1c 0
    [Token.str "A", Token.str "B"] (Token.str "")
    (fun _ => FSpec.mkFresh) (fun _ => 0)
    (fun _ => none) (by simp) (by simp)
    (fun k hk => by
      match k, hk with
      | 0, _ => rfl
      | 1, _ => rfl)
    (fun k hk => by
      match k, hk with
      | 0, _ => rfl
      | 1, _ => rfl)
    3 (by simp)
  exact ⟨by simp, by simp, h.1, h.2⟩

/-- C10: a throwing factory/constructor.  (i) The resolving set is restored
by every resolution, successful or not.  (ii) When `get` fails, no singleton
instance has been recorded for the requested token in any container.
(iii) For a registered dependency-free factory that throws, `get` propagates
the wrapped factory error and leaves the world entirely unchanged — in
particular a subsequent `get` for the same token runs the factory again from
scratch (same call, same error) rather than failing on stale state. -/
theorem C10_error_leaves_no_state :
    (∀ (f ci : Nat) (t : Token) (res : List Token) (w : World),
      (resolveF f ci t res w).2.2 = res) ∧
    (∀ (f ci : Nat) (t : Token) (w : World) (e : String) (w1 : World)
        (rs : List Token),
      WFProv w → resolveF f ci t [] w = (.error e, w1, rs) →
      ∀ i, instAt w i t = none → instAt w1 i t = none) ∧
    (∀ (f ci : Nat) (t : Token) (res : List Token) (w : World) (o : Nat)
        (m : String) (lt : Option Lifetime),
      lookupProvider w ci t = some (.factory t (.fail m) 0 none lt, o) →
      instAt w o t = none → t ∉ res →
      resolveF (f + 1) ci t res w =
        (.error (mkFactoryFailMsg (getTokenName t) m []), w, res)) := by
  refine ⟨?_, ?_, ?_⟩
  · intro f ci t res w
    exact (resolveF_inv f ci t res w).1
  · intro f ci t w e w1 rs hwf h i hnone
    exact resolveF_error_no_cache f ci t w e w1 rs hwf h i hnone
  · intro f ci t res w o m lt hl hnc hmem
    exact resolveF_failing_factory f ci t res w o m lt hl hnc hmem

/-- C10 witness: a failing factory errors without touching the world, and a
second `get` reproduces the same fresh attempt. -/
theorem C10_error_leaves_no_state_witness :
    (resolveF 5 0 (Token.str "F") [Token.str "X"] exW10).2.2 = [Token.str "X"] ∧
    WFProv exW10 ∧
    resolveF 3 0 (Token.str "F") [] exW10 =
      (.error (mkFactoryFailMsg "F" "boom" []), exW10, []) ∧
    instAt exW10 0 (Token.str "F") = none := by
  refine ⟨C10_error_leaves_no_state.1 5 0 (Token.str "F") [Token.str "X"] exW10,
    ?_, ?_, rfl⟩
  · apply WFProv_single
    intro k p hp
    simp only [alGet?] at hp
    by_cases h : Token.str "F" = k
    · rw [if_pos h] at hp
      cases hp
      rw [← h]
      rfl
    · rw [if_neg h] at hp
      cases hp
  · exact C10_error_leaves_no_state.2.2 2 0 (Token.str "F") [] exW10 0 "boom"
      none rfl rfl (by simp)

end Kahel
